import Mathlib

/-!
Order ledger and session engine of the trading engine.

A shallow embedding of `src/src/order_manager.cpp`, `src/include/order_manager.h` and
`src/src/trading_engine_manager.cpp`.

Modelling conventions.

* A C++ `double` is a rational number: arithmetic is exact and every comparison is the
  mathematical one.
* A `std::chrono::system_clock::time_point` is an integer count of clock ticks
  (`ticks_per_second` ticks to the second).  An operation is taken at one clock reading, the
  argument `now`: every `system_clock::now()` inside one call returns it.
* `std::map<std::string, std::unique_ptr<Order>>` is the list of its entries in iteration order,
  that is in increasing key order; `orders_.find` returns the first entry with the key and
  `orders_[k] = v` replaces the entry with key `k` or inserts it at its place in key order.
* The execution gateway (`CCXTClient`) is an external service.  Its behaviour is a `Gateway`: the
  reply to each request as a function of the requests sent before and of the request itself.  The
  ledger keeps the list of the requests it has sent, so that "no gateway call" is a statement
  about that list.
* Console output is not modelled.
-/

namespace TradingEngine

/-! ## Types of `order_manager.h` and `ccxt_client.h` -/

inductive OrderSide where
  | BUY
  | SELL
  deriving DecidableEq

inductive OrderType where
  | MARKET
  | LIMIT
  deriving DecidableEq

inductive OrderStatus where
  | PENDING
  | SUBMITTED
  | PARTIAL
  | FILLED
  | CANCELLED
  | FAILED
  | EXPIRED
  deriving DecidableEq

/-- Ticks of `system_clock` in one second (nanosecond resolution). -/
def ticks_per_second : Int := 1000000000

/-- The duration `std::chrono::seconds(n)` in clock ticks. -/
def seconds (n : Int) : Int := n * ticks_per_second

/-- The call `system_clock::to_time_t`: whole seconds since the epoch, rounded towards zero. -/
def to_time_t (t : Int) : Int := Int.tdiv t ticks_per_second

structure Order where
  order_id : String
  session_id : String
  user_id : String
  exchange : String
  symbol : String
  side : OrderSide
  type : OrderType
  quantity : ℚ
  price : ℚ
  filled_quantity : ℚ
  average_price : ℚ
  status : OrderStatus
  exchange_order_id : String
  created_at : Int
  updated_at : Int
  expires_at : Int
  error_message : String
  deriving DecidableEq

/-- The method `Order::get_filled_amount`. -/
def Order.get_filled_amount (o : Order) : ℚ :=
  o.filled_quantity * o.average_price

/-- The method `Order::should_cancel`, at clock reading `now`. -/
def Order.should_cancel (o : Order) (now : Int) : Bool :=
  (o.status == OrderStatus.SUBMITTED || o.status == OrderStatus.PARTIAL) && decide (now > o.expires_at)

/-- The method `Order::get_side_string`. -/
def Order.get_side_string (o : Order) : String :=
  if o.side = OrderSide.BUY then "buy" else "sell"

structure OrderResult where
  success : Bool
  order_id : String
  error_message : String
  deriving DecidableEq

structure BalanceResult where
  success : Bool
  btc_free : ℚ
  btc_used : ℚ
  btc_total : ℚ
  usdt_free : ℚ
  usdt_used : ℚ
  usdt_total : ℚ
  eth_free : ℚ
  eth_used : ℚ
  eth_total : ℚ
  error_message : String
  deriving DecidableEq

structure OrderStatusResult where
  success : Bool
  order_id : String
  status : String
  filled : ℚ
  remaining : ℚ
  error_message : String
  deriving DecidableEq

/-- One request sent to the execution gateway through `CCXTClient`, with its arguments. -/
inductive GwCall where
  | place_limit_order (exchange user_id symbol side : String) (amount price : ℚ)
  | place_market_order (exchange user_id symbol side : String) (amount : ℚ)
  | cancel_order (exchange user_id symbol order_id : String)
  | get_order_status (exchange user_id symbol order_id : String)
  | get_balance (exchange user_id : String)
  deriving DecidableEq

/-- Behaviour of the execution gateway: the reply to a request, given the requests sent before it
(oldest first) and the arguments of the request. -/
structure Gateway where
  place_limit_order : List GwCall → String → String → String → String → ℚ → ℚ → OrderResult
  place_market_order : List GwCall → String → String → String → String → ℚ → OrderResult
  cancel_order : List GwCall → String → String → String → String → Bool
  get_order_status : List GwCall → String → String → String → String → OrderStatusResult
  get_balance : List GwCall → String → String → BalanceResult

/-! ## The order registry `orders_` -/

/-- Byte-wise lexicographic order of `std::string::operator<`, on the characters of the keys. -/
def lex_lt : List Char → List Char → Bool
  | [], [] => false
  | [], _ :: _ => true
  | _ :: _, [] => false
  | a :: as, b :: bs =>
    if a.toNat < b.toNat then true
    else if b.toNat < a.toNat then false
    else lex_lt as bs

/-- Key order of the map. -/
def key_lt (a b : String) : Bool := lex_lt a.data b.data

/-- The lookup `find(k)` of a map: the value stored under `k`, if any. -/
def find {α : Type} : List (String × α) → String → Option α
  | [], _ => none
  | (k, o) :: rest, id => if k = id then some o else find rest id

/-- Assignment through the iterator returned by `find(k)`: the value stored under `k` is replaced
by `f` of it, every other entry is kept. -/
def modify {α : Type} : List (String × α) → String → (α → α) → List (String × α)
  | [], _, _ => []
  | (k, o) :: rest, id, f => if k = id then (k, f o) :: rest else (k, o) :: modify rest id f

/-- The assignment `orders_[id] = o` of the ordered map. -/
def insert_or_assign {α : Type} : List (String × α) → String → α → List (String × α)
  | [], id, o => [(id, o)]
  | (k, v) :: rest, id, o =>
    if k = id then (k, o) :: rest
    else if key_lt id k then (id, o) :: (k, v) :: rest
    else (k, v) :: insert_or_assign rest id o

/-- State of an `OrderManager`: the registry `orders_`, and the requests sent so far through
`ccxt_client_` (oldest first). -/
structure OrderManager where
  orders_ : List (String × Order)
  requests : List GwCall
  deriving DecidableEq

/-! ## Operations of `order_manager.cpp` -/

/-- The method `OrderManager::generate_order_id`: `draw` is the output of the random device, which
`uniform_int_distribution(10000, 99999)` maps into its range. -/
def generate_order_id (now : Int) (draw : Nat) : String :=
  "order_" ++ toString (to_time_t now) ++ "_" ++ toString (10000 + draw % 90000)

/-- The method `OrderManager::create_order`. Returns the order id and the new state. -/
def create_order (m : OrderManager) (session_id user_id exchange symbol : String)
    (side : OrderSide) (type : OrderType) (quantity price : ℚ) (timeout_seconds : Int)
    (now : Int) (draw : Nat) : String × OrderManager :=
  let order_id := generate_order_id now draw
  let order : Order :=
    { order_id := order_id
      session_id := session_id
      user_id := user_id
      exchange := exchange
      symbol := symbol
      side := side
      type := type
      quantity := quantity
      price := price
      filled_quantity := 0
      average_price := 0
      status := OrderStatus.PENDING
      exchange_order_id := ""
      created_at := now
      updated_at := now
      expires_at := now + seconds timeout_seconds
      error_message := "" }
  (order_id, { m with orders_ := insert_or_assign m.orders_ order_id order })

/-- The request that `submit_order` sends for `order`: `place_limit_order` for a LIMIT order,
`place_market_order` otherwise. -/
def place_order_request (order : Order) : GwCall :=
  if order.type = OrderType.LIMIT then
    GwCall.place_limit_order order.exchange order.user_id order.symbol
      order.get_side_string order.quantity order.price
  else
    GwCall.place_market_order order.exchange order.user_id order.symbol
      order.get_side_string order.quantity

/-- The gateway's reply to the request that `submit_order` sends for `order`, when `past` are the
requests sent before. -/
def place_order_reply (gw : Gateway) (past : List GwCall) (order : Order) : OrderResult :=
  if order.type = OrderType.LIMIT then
    gw.place_limit_order past order.exchange order.user_id order.symbol
      order.get_side_string order.quantity order.price
  else
    gw.place_market_order past order.exchange order.user_id order.symbol
      order.get_side_string order.quantity

/-- The method `OrderManager::submit_order`. -/
def submit_order (gw : Gateway) (m : OrderManager) (order_id : String) (now : Int) :
    Bool × OrderManager :=
  match find m.orders_ order_id with
  | none => (false, m)
  | some order =>
    if order.status ≠ OrderStatus.PENDING then (true, m)
    else
      let result : OrderResult := place_order_reply gw m.requests order
      if result.success then
        (true,
          { orders_ := modify m.orders_ order_id (fun o =>
              { o with exchange_order_id := result.order_id
                       status := OrderStatus.SUBMITTED
                       updated_at := now })
            requests := m.requests ++ [place_order_request order] })
      else
        (false,
          { orders_ := modify m.orders_ order_id (fun o =>
              { o with status := OrderStatus.FAILED
                       error_message := result.error_message
                       updated_at := now })
            requests := m.requests ++ [place_order_request order] })

/-- The method `OrderManager::cancel_order`. -/
def cancel_order (gw : Gateway) (m : OrderManager) (order_id : String) (now : Int) :
    Bool × OrderManager :=
  match find m.orders_ order_id with
  | none => (false, m)
  | some order =>
    if order.status ≠ OrderStatus.SUBMITTED ∧ order.status ≠ OrderStatus.PARTIAL then (true, m)
    else if order.exchange_order_id.isEmpty then (false, m)
    else
      let call := GwCall.cancel_order order.exchange order.user_id order.symbol
        order.exchange_order_id
      let success := gw.cancel_order m.requests order.exchange order.user_id order.symbol
        order.exchange_order_id
      if success then
        (true,
          { orders_ := modify m.orders_ order_id (fun o =>
              { o with status := OrderStatus.CANCELLED, updated_at := now })
            requests := m.requests ++ [call] })
      else
        (false, { m with requests := m.requests ++ [call] })

/-- The method `OrderManager::update_order_status`. -/
def update_order_status (gw : Gateway) (m : OrderManager) (order_id : String) (now : Int) :
    Bool × OrderManager :=
  match find m.orders_ order_id with
  | none => (false, m)
  | some order =>
    if order.exchange_order_id.isEmpty ∨
        (order.status ≠ OrderStatus.SUBMITTED ∧ order.status ≠ OrderStatus.PARTIAL) then
      (true, m)
    else
      let call := GwCall.get_order_status order.exchange order.user_id order.symbol
        order.exchange_order_id
      let result := gw.get_order_status m.requests order.exchange order.user_id order.symbol
        order.exchange_order_id
      if result.success then
        (true,
          { orders_ := modify m.orders_ order_id (fun o =>
              let o1 : Order :=
                if result.status = "closed" then
                  { o with status := OrderStatus.FILLED, filled_quantity := o.quantity }
                else if result.status = "canceled" then
                  { o with status := OrderStatus.CANCELLED }
                else if result.filled > 0 ∧ result.filled < o.quantity then
                  { o with status := OrderStatus.PARTIAL, filled_quantity := result.filled }
                else o
              { o1 with updated_at := now })
            requests := m.requests ++ [call] })
      else
        (false, { m with requests := m.requests ++ [call] })

/-- The method `OrderManager::get_order`. -/
def get_order (m : OrderManager) (order_id : String) : Option Order :=
  find m.orders_ order_id

/-- The method `OrderManager::update_all_orders`: the loop visits the entries of the map in
order, reads the status of the entry it is at and calls `update_order_status` on its key. -/
def update_all_orders (gw : Gateway) (m : OrderManager) (now : Int) : OrderManager :=
  (List.range m.orders_.length).foldl
    (fun acc i =>
      match acc.orders_.get? i with
      | none => acc
      | some (order_id, order) =>
        if order.status = OrderStatus.SUBMITTED ∨ order.status = OrderStatus.PARTIAL then
          (update_order_status gw acc order_id now).2
        else acc)
    m

/-- The method `OrderManager::cancel_expired_orders`. -/
def cancel_expired_orders (gw : Gateway) (m : OrderManager) (now : Int) : OrderManager :=
  let orders_to_cancel :=
    (m.orders_.filter (fun kv => kv.2.should_cancel now)).map Prod.fst
  orders_to_cancel.foldl (fun acc order_id => (cancel_order gw acc order_id now).2) m

/-- The method `OrderManager::cancel_session_orders`. -/
def cancel_session_orders (gw : Gateway) (m : OrderManager) (session_id : String) (now : Int) :
    OrderManager :=
  let orders_to_cancel :=
    (m.orders_.filter (fun kv =>
      decide (kv.2.session_id = session_id) &&
        (kv.2.status == OrderStatus.SUBMITTED || kv.2.status == OrderStatus.PARTIAL))).map Prod.fst
  orders_to_cancel.foldl (fun acc order_id => (cancel_order gw acc order_id now).2) m

/-- The method `OrderManager::get_session_profit`: the running total of the loop. -/
def get_session_profit (m : OrderManager) (session_id : String) : ℚ :=
  m.orders_.foldl
    (fun total_profit kv =>
      if kv.2.session_id = session_id ∧ kv.2.status = OrderStatus.FILLED then
        if kv.2.side = OrderSide.SELL then total_profit + kv.2.get_filled_amount
        else total_profit - kv.2.get_filled_amount
      else total_profit)
    0

/-- The initial state of an `OrderManager`: no order, no request sent. -/
def OrderManager.empty : OrderManager :=
  { orders_ := [], requests := [] }

/-- An order that has reached one of the final statuses FILLED, CANCELLED, FAILED, EXPIRED. -/
def Order.terminal (o : Order) : Prop :=
  o.status = OrderStatus.FILLED ∨ o.status = OrderStatus.CANCELLED ∨
    o.status = OrderStatus.FAILED ∨ o.status = OrderStatus.EXPIRED

instance (o : Order) : Decidable o.terminal := by
  unfold Order.terminal; infer_instance

/-- Whether the characters `text` begin with the characters `pattern`. -/
def starts_with : List Char → List Char → Bool
  | _, [] => true
  | [], _ :: _ => false
  | c :: cs, q :: qs => c == q && starts_with cs qs

/-- Whether `pattern` occurs in `text` at some position. -/
def has_substring : List Char → List Char → Bool
  | [], pattern => starts_with [] pattern
  | c :: cs, pattern => starts_with (c :: cs) pattern || has_substring cs pattern

/-- The test `symbol.find(pattern) != std::string::npos`. -/
def string_contains (symbol pattern : String) : Bool :=
  has_substring symbol.data pattern.data

/-- The method `OrderManager::check_balance`. Returns the verdict and the new state (the balance
request is recorded). -/
def check_balance (gw : Gateway) (m : OrderManager) (exchange user_id symbol : String)
    (side : OrderSide) (quantity price : ℚ) : Bool × OrderManager :=
  let balance := gw.get_balance m.requests exchange user_id
  let m1 : OrderManager := { m with requests := m.requests ++ [GwCall.get_balance exchange user_id] }
  if ¬ balance.success then (false, m1)
  else if side = OrderSide.BUY then
    let required_amount := quantity * price
    if string_contains symbol "USDT" then (decide (balance.usdt_free ≥ required_amount), m1)
    else (true, m1)
  else
    if string_contains symbol "BTC" then (decide (balance.btc_free ≥ quantity), m1)
    else if string_contains symbol "ETH" then (decide (balance.eth_free ≥ quantity), m1)
    else (true, m1)

/-- The base currency of a symbol `BASE/QUOTE`: what stands before the slash. -/
def base_currency (symbol : String) : String :=
  String.mk (symbol.data.takeWhile (fun c => c != '/'))

/-- The quote currency of a symbol `BASE/QUOTE`: what stands after the slash. -/
def quote_currency (symbol : String) : String :=
  String.mk ((symbol.data.dropWhile (fun c => c != '/')).drop 1)

/-! ## The sweep of expired orders, entry by entry -/

/-- An order that is due for a cancel attempt at `now`: SUBMITTED or PARTIAL, with
`expires_at < now`, and with an exchange order id. -/
def cancel_due (now : Int) (o : Order) : Bool :=
  (o.status == OrderStatus.SUBMITTED || o.status == OrderStatus.PARTIAL) &&
    decide (o.expires_at < now) && !o.exchange_order_id.isEmpty

/-- The request that `cancel_order` sends for `o`. -/
def cancel_request (o : Order) : GwCall :=
  GwCall.cancel_order o.exchange o.user_id o.symbol o.exchange_order_id

/-- The order `o` after one cancel attempt at `now`, `past` being the requests sent before:
CANCELLED if the gateway reports success, as it was otherwise. -/
def after_cancel_attempt (gw : Gateway) (now : Int) (past : List GwCall) (o : Order) : Order :=
  if gw.cancel_order past o.exchange o.user_id o.symbol o.exchange_order_id then
    { o with status := OrderStatus.CANCELLED, updated_at := now }
  else o

/-- The sweep of expired orders as the specification describes it: the entries are visited in
order; an entry that is due gets one cancel attempt, whatever became of the attempts before it;
every other entry is kept. Returns the entries and the requests sent. -/
def expired_sweep (gw : Gateway) (now : Int) :
    List (String × Order) → List GwCall → List (String × Order) × List GwCall
  | [], past => ([], past)
  | (k, o) :: rest, past =>
    if cancel_due now o then
      ((k, after_cancel_attempt gw now past o)
          :: (expired_sweep gw now rest (past ++ [cancel_request o])).1,
        (expired_sweep gw now rest (past ++ [cancel_request o])).2)
    else
      ((k, o) :: (expired_sweep gw now rest past).1, (expired_sweep gw now rest past).2)

/-! ## Reachable states of the ledger -/

/-- The ledger states reachable from the empty ledger by the operations of `OrderManager` that
change it, each at any clock reading and under any behaviour of the gateway. -/
inductive LedgerReachable : OrderManager → Prop where
  | empty : LedgerReachable OrderManager.empty
  | create_order (m : OrderManager) (session_id user_id exchange symbol : String)
      (side : OrderSide) (type : OrderType) (quantity price : ℚ) (timeout_seconds : Int)
      (now : Int) (draw : Nat) :
      LedgerReachable m →
      LedgerReachable (TradingEngine.create_order m session_id user_id exchange symbol side type
        quantity price timeout_seconds now draw).2
  | submit_order (gw : Gateway) (m : OrderManager) (order_id : String) (now : Int) :
      LedgerReachable m → LedgerReachable (TradingEngine.submit_order gw m order_id now).2
  | cancel_order (gw : Gateway) (m : OrderManager) (order_id : String) (now : Int) :
      LedgerReachable m → LedgerReachable (TradingEngine.cancel_order gw m order_id now).2
  | update_order_status (gw : Gateway) (m : OrderManager) (order_id : String) (now : Int) :
      LedgerReachable m → LedgerReachable (TradingEngine.update_order_status gw m order_id now).2
  | update_all_orders (gw : Gateway) (m : OrderManager) (now : Int) :
      LedgerReachable m → LedgerReachable (TradingEngine.update_all_orders gw m now)
  | cancel_expired_orders (gw : Gateway) (m : OrderManager) (now : Int) :
      LedgerReachable m → LedgerReachable (TradingEngine.cancel_expired_orders gw m now)
  | cancel_session_orders (gw : Gateway) (m : OrderManager) (session_id : String) (now : Int) :
      LedgerReachable m →
      LedgerReachable (TradingEngine.cancel_session_orders gw m session_id now)

/-- Every order of the ledger has an `average_price` of 0. -/
def no_average_price (m : OrderManager) : Prop :=
  ∀ kv ∈ m.orders_, kv.2.average_price = 0

/-! ## Types of `trading_engine_manager.h` -/

inductive TradingMode where
  | MARKET_MAKING
  | ARBITRAGE
  | MIXED
  deriving DecidableEq

inductive EngineStatus where
  | STOPPED
  | STARTING
  | RUNNING
  | STOPPING
  | ERROR
  deriving DecidableEq

structure ClientRequest where
  client_id : String
  symbol : String
  exchange : String
  max_amount : ℚ
  target_profit : ℚ
  mode : TradingMode
  take_profit_ratio : ℚ := 1 / 10
  stop_loss_ratio : ℚ := 1 / 20
  deriving DecidableEq

/-- Configuration held by a `MarketMakingStrategy`; its market-data client is shared with the
engine and is not part of the session. -/
structure MarketMakingStrategy where
  symbol_ : String
  exchange_ : String
  spread_bps_ : ℚ
  order_size_ : ℚ
  deriving DecidableEq

/-- Configuration held by an `ArbitrageStrategy`. -/
structure ArbitrageStrategy where
  symbol_ : String
  min_profit_bps_ : ℚ
  max_trade_size_ : ℚ
  deriving DecidableEq

structure TradingSession where
  session_id : String
  request : ClientRequest
  status : EngineStatus
  market_making_strategy : Option MarketMakingStrategy
  arbitrage_strategy : Option ArbitrageStrategy
  total_profit : ℚ
  executed_trades : Int
  log : List String
  created_at : Int
  last_update : Int
  deriving DecidableEq

structure EngineStats where
  total_sessions_created : Int
  active_sessions : Int
  total_trades_executed : Int
  total_profit_generated : ℚ
  engine_start_time : Int
  last_update_time : Int
  deriving DecidableEq

/-- State of a `TradingEngineManager`. The registry `trading_sessions_` is an
`std::unordered_map`, whose iteration order is unspecified: it is the list of its entries, a new
key going to the end. The counters of `EngineStats` are C++ `int`s and are integers here. -/
structure TradingEngineManager where
  engine_status_ : EngineStatus
  should_run_ : Bool
  trading_interval_ms_ : Int
  max_sessions_ : Int
  trading_sessions_ : List (String × TradingSession)
  stats_ : EngineStats
  deriving DecidableEq

/-! ## Operations of `trading_engine_manager.cpp` -/

/-- The assignment `trading_sessions_[id] = s` of the unordered map. -/
def assign_or_add {α : Type} : List (String × α) → String → α → List (String × α)
  | [], id, s => [(id, s)]
  | (k, v) :: rest, id, s =>
    if k = id then (k, s) :: rest else (k, v) :: assign_or_add rest id s

/-- The conversion `static_cast<size_t>` of an `int`, for a 64-bit `size_t`. -/
def size_t_of_int (i : Int) : Nat := (i % 18446744073709551616).toNat

/-- The state set up by the constructor of `TradingEngineManager` followed by `reset_stats`, at
clock reading `now`. -/
def TradingEngineManager.init (now : Int) : TradingEngineManager :=
  { engine_status_ := EngineStatus.STOPPED
    should_run_ := false
    trading_interval_ms_ := 5000
    max_sessions_ := 10
    trading_sessions_ := []
    stats_ :=
      { total_sessions_created := 0
        active_sessions := 0
        total_trades_executed := 0
        total_profit_generated := 0
        engine_start_time := now
        last_update_time := now } }

/-- The method `TradingEngineManager::validate_client_request`. -/
def validate_client_request (e : TradingEngineManager) (request : ClientRequest) : Bool :=
  if request.client_id.isEmpty then false
  else if request.symbol.isEmpty then false
  else if request.max_amount ≤ 0 then false
  else if request.target_profit ≤ 0 then false
  else if e.trading_sessions_.length ≥ size_t_of_int e.max_sessions_ then false
  else if (request.mode = TradingMode.MARKET_MAKING ∨ request.mode = TradingMode.MIXED)
      ∧ request.exchange.isEmpty then false
  else true

/-- The characters that `generate_session_id` draws from. -/
def charset : List Char :=
  "0123456789ABCDEFGHIJKLMNOPQRSTUVWXYZabcdefghijklmnopqrstuvwxyz".data

/-- The method `TradingEngineManager::generate_session_id`: `draws i` is the output of the random
engine at the i-th of the eight draws, which `uniform_int_distribution(0, 61)` maps into its
range. -/
def generate_session_id (draws : Nat → Nat) : String :=
  "session_" ++ String.mk ((List.range 8).map (fun i => charset.getD (draws i % 62) '0'))

/-- The constructor of `ArbitrageStrategy`. -/
def ArbitrageStrategy.new (symbol : String) : ArbitrageStrategy :=
  if symbol = "BTC/USDT" then
    { symbol_ := symbol, min_profit_bps_ := 20, max_trade_size_ := 8000 }
  else if symbol = "ETH/USDT" then
    { symbol_ := symbol, min_profit_bps_ := 25, max_trade_size_ := 6000 }
  else
    { symbol_ := symbol, min_profit_bps_ := 30, max_trade_size_ := 4000 }

/-- The constructor of `MarketMakingStrategy`. -/
def MarketMakingStrategy.new (symbol exchange : String) : MarketMakingStrategy :=
  if symbol = "BTC/USDT" then
    { symbol_ := symbol, exchange_ := exchange, spread_bps_ := 5, order_size_ := 1 / 1000 }
  else if symbol = "ETH/USDT" then
    { symbol_ := symbol, exchange_ := exchange, spread_bps_ := 6, order_size_ := 1 / 100 }
  else if symbol = "XRP/USDT" then
    { symbol_ := symbol, exchange_ := exchange, spread_bps_ := 8, order_size_ := 10 }
  else if symbol = "SOL/USDT" then
    { symbol_ := symbol, exchange_ := exchange, spread_bps_ := 10, order_size_ := 1 / 10 }
  else
    { symbol_ := symbol, exchange_ := exchange, spread_bps_ := 15, order_size_ := 1 / 100 }

/-- The method `TradingEngineManager::create_trading_session`. Returns the session id (empty on
rejection) and the new state. -/
def create_trading_session (e : TradingEngineManager) (request : ClientRequest) (now : Int)
    (draws : Nat → Nat) : String × TradingEngineManager :=
  if ¬ validate_client_request e request then ("", e)
  else
    let session_id := generate_session_id draws
    let arbitrage_strategy : Option ArbitrageStrategy :=
      if request.mode = TradingMode.ARBITRAGE ∨ request.mode = TradingMode.MIXED then
        some { ArbitrageStrategy.new request.symbol with
                min_profit_bps_ := request.target_profit
                max_trade_size_ := request.max_amount }
      else none
    let market_making_strategy : Option MarketMakingStrategy :=
      if request.mode = TradingMode.MARKET_MAKING ∨ request.mode = TradingMode.MIXED then
        some { MarketMakingStrategy.new request.symbol request.exchange with
                spread_bps_ := max 5 (request.target_profit / 2)
                order_size_ := request.max_amount / 1000 }
      else none
    let session : TradingSession :=
      { session_id := session_id
        request := request
        status := EngineStatus.STOPPED
        market_making_strategy := market_making_strategy
        arbitrage_strategy := arbitrage_strategy
        total_profit := 0
        executed_trades := 0
        log := []
        created_at := now
        last_update := now }
    (session_id,
      { e with
        trading_sessions_ := assign_or_add e.trading_sessions_ session_id session
        stats_ := { e.stats_ with
                    total_sessions_created := e.stats_.total_sessions_created + 1 } })

/-- The erasure `trading_sessions_.erase(it)`, for the iterator `it` returned by `find(id)`. -/
def erase {α : Type} : List (String × α) → String → List (String × α)
  | [], _ => []
  | (k, v) :: rest, id => if k = id then rest else (k, v) :: erase rest id

/-- The method `TradingEngineManager::get_session`. -/
def get_session (e : TradingEngineManager) (session_id : String) : Option TradingSession :=
  find e.trading_sessions_ session_id

/-- The method `TradingEngineManager::get_active_sessions`: the ids of all sessions. -/
def get_active_sessions (e : TradingEngineManager) : List String :=
  e.trading_sessions_.map Prod.fst

/-- The method `TradingEngineManager::start_trading_session`. `arbitrage_healthy` and
`market_making_healthy` are what `is_healthy()` of the two strategies answers when asked. Next to
the return value and the new state, the list of the assignments made to the session's `status`,
each as the pair of the status before and the status assigned, in the order they are made. -/
def start_trading_session_traced (e : TradingEngineManager) (session_id : String)
    (arbitrage_healthy market_making_healthy : Bool) (now : Int) :
    Bool × TradingEngineManager × List (EngineStatus × EngineStatus) :=
  match find e.trading_sessions_ session_id with
  | none => (false, e, [])
  | some session =>
    if session.status = EngineStatus.RUNNING then (true, e, [])
    else
      let healthy0 : Bool := true
      let healthy1 : Bool :=
        if session.arbitrage_strategy.isSome then
          (if ¬ arbitrage_healthy then false else healthy0)
        else healthy0
      let healthy : Bool :=
        if session.market_making_strategy.isSome then
          (if ¬ market_making_healthy then false else healthy1)
        else healthy1
      if ¬ healthy then
        (false,
          { e with trading_sessions_ := modify e.trading_sessions_ session_id (fun s =>
              { s with status := EngineStatus.ERROR }) },
          [(session.status, EngineStatus.STARTING), (EngineStatus.STARTING, EngineStatus.ERROR)])
      else
        (true,
          { e with
            trading_sessions_ := modify e.trading_sessions_ session_id (fun s =>
              { s with status := EngineStatus.RUNNING, last_update := now })
            stats_ := { e.stats_ with active_sessions := e.stats_.active_sessions + 1 } },
          [(session.status, EngineStatus.STARTING), (EngineStatus.STARTING, EngineStatus.RUNNING)])

/-- The method `TradingEngineManager::start_trading_session`: return value and new state. -/
def start_trading_session (e : TradingEngineManager) (session_id : String)
    (arbitrage_healthy market_making_healthy : Bool) (now : Int) : Bool × TradingEngineManager :=
  ((start_trading_session_traced e session_id arbitrage_healthy market_making_healthy now).1,
    (start_trading_session_traced e session_id arbitrage_healthy market_making_healthy now).2.1)

/-- The method `TradingEngineManager::stop_trading_session`, with the list of the assignments
made to the session's `status`. -/
def stop_trading_session_traced (e : TradingEngineManager) (session_id : String) (now : Int) :
    Bool × TradingEngineManager × List (EngineStatus × EngineStatus) :=
  match find e.trading_sessions_ session_id with
  | none => (false, e, [])
  | some session =>
    if session.status ≠ EngineStatus.RUNNING then (true, e, [])
    else
      (true,
        { e with
          trading_sessions_ := modify e.trading_sessions_ session_id (fun s =>
            { s with status := EngineStatus.STOPPED, last_update := now })
          stats_ := { e.stats_ with active_sessions := e.stats_.active_sessions - 1 } },
        [(session.status, EngineStatus.STOPPING), (EngineStatus.STOPPING, EngineStatus.STOPPED)])

/-- The method `TradingEngineManager::stop_trading_session`: return value and new state. -/
def stop_trading_session (e : TradingEngineManager) (session_id : String) (now : Int) :
    Bool × TradingEngineManager :=
  ((stop_trading_session_traced e session_id now).1,
    (stop_trading_session_traced e session_id now).2.1)

/-- The method `TradingEngineManager::remove_trading_session`. -/
def remove_trading_session (e : TradingEngineManager) (session_id : String) (now : Int) :
    Bool × TradingEngineManager :=
  match find e.trading_sessions_ session_id with
  | none => (false, e)
  | some session =>
    let e1 : TradingEngineManager :=
      if session.status = EngineStatus.RUNNING then (stop_trading_session e session_id now).2
      else e
    (true, { e1 with trading_sessions_ := erase e1.trading_sessions_ session_id })

/-- The struct `StrategyResult` of `strategy_result.h`. -/
structure StrategyResult where
  profit : ℚ := 0
  trades : Int := 0
  logs : List String := []
  deriving DecidableEq

/-- What the outside world does during one execution of a session: the result of `run_once()` of
each strategy, `none` when the call throws a `std::exception`, and the text that
`std::put_time(std::localtime(&t), "%H:%M:%S")` prints for a `time_t`. -/
structure SessionRun where
  arbitrage : Option StrategyResult
  market_making : Option StrategyResult
  put_time : Int → String

/-- The method `TradingEngineManager::update_session_stats`, for the session stored under
`session_id`. -/
def update_session_stats (e : TradingEngineManager) (session_id : String) (profit : ℚ)
    (trades : Int) (now : Int) : TradingEngineManager :=
  { e with
    trading_sessions_ := modify e.trading_sessions_ session_id (fun s =>
      { s with total_profit := s.total_profit + profit
               executed_trades := s.executed_trades + trades
               last_update := now })
    stats_ := { e.stats_ with
                total_profit_generated := e.stats_.total_profit_generated + profit
                total_trades_executed := e.stats_.total_trades_executed + trades
                last_update_time := now } }

/-- The part of `execute_arbitrage_session` and of `execute_market_making_session` (the two have
the same body) after `run_once()` has returned `result`: the log lines are stamped with the
session's `last_update` and appended, then the statistics are updated. -/
def record_strategy_result (e : TradingEngineManager) (session_id : String)
    (result : StrategyResult) (put_time : Int → String) (now : Int) : TradingEngineManager :=
  let e1 : TradingEngineManager :=
    { e with trading_sessions_ := modify e.trading_sessions_ session_id (fun s =>
        { s with log := s.log ++ result.logs.map (fun line =>
            "[" ++ put_time (to_time_t s.last_update) ++ "] " ++ line) }) }
  update_session_stats e1 session_id result.profit result.trades now

/-- The method `TradingEngineManager::execute_trading_session` on the session stored under
`session_id`, with the list of the assignments made to the session's `status`. A strategy that
is not attached is not run; a `run_once()` that throws ends the execution in the handler, which
sets the status to ERROR. -/
def execute_trading_session_traced (e : TradingEngineManager) (session_id : String)
    (run : SessionRun) (now : Int) : TradingEngineManager × List (EngineStatus × EngineStatus) :=
  match find e.trading_sessions_ session_id with
  | none => (e, [])
  | some session =>
    let after_arbitrage : Option TradingEngineManager :=
      if session.arbitrage_strategy.isSome then
        run.arbitrage.map (fun result =>
          record_strategy_result e session_id result run.put_time now)
      else some e
    match after_arbitrage with
    | none =>
      ({ e with trading_sessions_ := modify e.trading_sessions_ session_id (fun s =>
          { s with status := EngineStatus.ERROR }) },
        [(session.status, EngineStatus.ERROR)])
    | some e1 =>
      let after_market_making : Option TradingEngineManager :=
        if session.market_making_strategy.isSome then
          run.market_making.map (fun result =>
            record_strategy_result e1 session_id result run.put_time now)
        else some e1
      match after_market_making with
      | none =>
        ({ e1 with trading_sessions_ := modify e1.trading_sessions_ session_id (fun s =>
            { s with status := EngineStatus.ERROR }) },
          [(session.status, EngineStatus.ERROR)])
      | some e2 =>
        ({ e2 with trading_sessions_ := modify e2.trading_sessions_ session_id (fun s =>
            { s with last_update := now }) },
          [])

/-- The method `TradingEngineManager::execute_trading_session`: the new state. -/
def execute_trading_session (e : TradingEngineManager) (session_id : String) (run : SessionRun)
    (now : Int) : TradingEngineManager :=
  (execute_trading_session_traced e session_id run now).1

/-- The body of the loop of `trading_loop` for an entry `session_id` whose session is RUNNING:
the session is executed, its `last_update` is set, and it is stopped when its cumulative profit
has reached the take-profit amount or has fallen to minus the stop-loss amount. With the list of
the assignments made to the session's `status`. -/
def sweep_step_traced (e : TradingEngineManager) (session_id : String) (run : SessionRun)
    (now : Int) : TradingEngineManager × List (EngineStatus × EngineStatus) :=
  let executed := execute_trading_session_traced e session_id run now
  let e0 : TradingEngineManager := executed.1
  let e1 : TradingEngineManager :=
    { e0 with trading_sessions_ := modify e0.trading_sessions_ session_id (fun s =>
        { s with last_update := now }) }
  match find e1.trading_sessions_ session_id with
  | none => (e1, executed.2)
  | some session =>
    let profit := session.total_profit
    let max_amount := session.request.max_amount
    let take_profit_amount := max_amount * session.request.take_profit_ratio
    let stop_loss_amount := max_amount * session.request.stop_loss_ratio
    if profit ≥ take_profit_amount then
      ((stop_trading_session_traced e1 session_id now).2.1,
        executed.2 ++ (stop_trading_session_traced e1 session_id now).2.2)
    else if profit ≤ -stop_loss_amount then
      ((stop_trading_session_traced e1 session_id now).2.1,
        executed.2 ++ (stop_trading_session_traced e1 session_id now).2.2)
    else (e1, executed.2)

/-- The body of the loop of `trading_loop` for one RUNNING entry: the new state. -/
def sweep_step (e : TradingEngineManager) (session_id : String) (run : SessionRun) (now : Int) :
    TradingEngineManager :=
  (sweep_step_traced e session_id run now).1

/-- Whole hours in a duration of clock ticks, as `duration_cast<std::chrono::hours>` counts
them (rounded towards zero). -/
def hours_count (d : Int) : Int := Int.tdiv d (3600 * ticks_per_second)

/-- The first loop of `cleanup_expired_sessions`, one entry: its id is listed if the session is
STOPPED and has been inactive for more than one hour, and if the session is in ERROR. -/
def list_if_expired (now : Int) (acc : List String) (kv : String × TradingSession) :
    List String :=
  let acc1 :=
    if hours_count (now - kv.2.last_update) > 1 ∧ kv.2.status = EngineStatus.STOPPED then
      acc ++ [kv.1]
    else acc
  if kv.2.status = EngineStatus.ERROR then acc1 ++ [kv.1] else acc1

/-- The method `TradingEngineManager::cleanup_expired_sessions`. -/
def cleanup_expired_sessions (e : TradingEngineManager) (now : Int) : TradingEngineManager :=
  let sessions_to_remove : List String := e.trading_sessions_.foldl (list_if_expired now) []
  sessions_to_remove.foldl (fun acc session_id => (remove_trading_session acc session_id now).2) e

/-- The sweep of `trading_loop` at the entry of index `i` of the registry: the body of the loop
runs if the session of the entry is RUNNING. `runs id` is what the outside world does during the
execution of session `id`; the second component collects the assignments made to the `status`
of sessions. -/
def sweep_entry_traced (runs : String → SessionRun) (now : Int)
    (acc : TradingEngineManager × List (EngineStatus × EngineStatus)) (i : Nat) :
    TradingEngineManager × List (EngineStatus × EngineStatus) :=
  match acc.1.trading_sessions_.get? i with
  | none => acc
  | some (session_id, session) =>
    if session.status = EngineStatus.RUNNING then
      ((sweep_step_traced acc.1 session_id (runs session_id) now).1,
        acc.2 ++ (sweep_step_traced acc.1 session_id (runs session_id) now).2)
    else acc

/-- One round of the loop of `trading_loop`, before the sleep: the sweep over the entries of the
registry, then `cleanup_expired_sessions`. With the list of the assignments made to the `status`
of sessions during the sweep. -/
def trading_loop_round_traced (e : TradingEngineManager) (runs : String → SessionRun)
    (now : Int) : TradingEngineManager × List (EngineStatus × EngineStatus) :=
  let swept : TradingEngineManager × List (EngineStatus × EngineStatus) :=
    (List.range e.trading_sessions_.length).foldl (sweep_entry_traced runs now) (e, [])
  (cleanup_expired_sessions swept.1 now, swept.2)

/-- One round of the loop of `trading_loop`: the new state. -/
def trading_loop_round (e : TradingEngineManager) (runs : String → SessionRun) (now : Int) :
    TradingEngineManager :=
  (trading_loop_round_traced e runs now).1

/-! ## The session left by an execution -/

/-- The session `s` after `record_strategy_result` has recorded `result` on it. -/
def recorded_session (s : TradingSession) (result : StrategyResult) (put_time : Int → String)
    (now : Int) : TradingSession :=
  { s with log := s.log ++ result.logs.map (fun line =>
             "[" ++ put_time (to_time_t s.last_update) ++ "] " ++ line)
           total_profit := s.total_profit + result.profit
           executed_trades := s.executed_trades + result.trades
           last_update := now }

/-- The session `s` after `execute_trading_session` when no `run_once()` throws: the result of
each attached strategy is recorded, then `last_update` is set. -/
def executed_session (s : TradingSession) (run : SessionRun) (now : Int) : TradingSession :=
  let s1 : TradingSession :=
    match s.arbitrage_strategy, run.arbitrage with
    | some _, some result => recorded_session s result run.put_time now
    | _, _ => s
  let s2 : TradingSession :=
    match s.market_making_strategy, run.market_making with
    | some _, some result => recorded_session s1 result run.put_time now
    | _, _ => s1
  { s2 with last_update := now }

/-- The session `s`, RUNNING, after the body of the loop of `trading_loop` when no `run_once()`
throws: executed, then stopped if a threshold is reached. -/
def swept_session (s : TradingSession) (run : SessionRun) (now : Int) : TradingSession :=
  let s1 := executed_session s run now
  if s1.total_profit ≥ s1.request.max_amount * s1.request.take_profit_ratio ∨
      s1.total_profit ≤ -(s1.request.max_amount * s1.request.stop_loss_ratio) then
    { s1 with status := EngineStatus.STOPPED, last_update := now }
  else s1

/-- The profit that the strategies attached to `s` return in one execution. -/
def run_profit (s : TradingSession) (run : SessionRun) : ℚ :=
  (match s.arbitrage_strategy, run.arbitrage with
    | some _, some result => result.profit
    | _, _ => 0)
  + (match s.market_making_strategy, run.market_making with
    | some _, some result => result.profit
    | _, _ => 0)

/-- No `run_once()` of a strategy attached to `s` throws during the execution `run`. -/
def runs_without_error (s : TradingSession) (run : SessionRun) : Prop :=
  (s.arbitrage_strategy.isSome = true → run.arbitrage.isSome = true) ∧
    (s.market_making_strategy.isSome = true → run.market_making.isSome = true)

instance (s : TradingSession) (run : SessionRun) : Decidable (runs_without_error s run) := by
  unfold runs_without_error; infer_instance

/-- The edges of the lifecycle state machine of a session, as the specification gives them:
STOPPED to STARTING, STARTING to RUNNING, RUNNING to STOPPING, STOPPING to STOPPED, and any
status to ERROR. -/
def lifecycle_edge (before after : EngineStatus) : Prop :=
  (before = EngineStatus.STOPPED ∧ after = EngineStatus.STARTING) ∨
    (before = EngineStatus.STARTING ∧ after = EngineStatus.RUNNING) ∨
    (before = EngineStatus.RUNNING ∧ after = EngineStatus.STOPPING) ∨
    (before = EngineStatus.STOPPING ∧ after = EngineStatus.STOPPED) ∨
    after = EngineStatus.ERROR

instance (before after : EngineStatus) : Decidable (lifecycle_edge before after) := by
  unfold lifecycle_edge; infer_instance

/-- The trades that the strategies attached to `s` return in one execution. -/
def run_trades (s : TradingSession) (run : SessionRun) : Int :=
  (match s.arbitrage_strategy, run.arbitrage with
    | some _, some result => result.trades
    | _, _ => 0)
  + (match s.market_making_strategy, run.market_making with
    | some _, some result => result.trades
    | _, _ => 0)

/-- The session `s` after its turn in the sweep of `trading_loop`. A session that is not RUNNING
is passed over. A RUNNING session is executed: when no `run_once()` throws it is left as
`swept_session` says; when one throws, what the arbitrage strategy returned before is recorded,
the handler sets the status to ERROR and the loop sets `last_update`. -/
def turn_session (s : TradingSession) (run : SessionRun) (now : Int) : TradingSession :=
  if s.status = EngineStatus.RUNNING then
    if runs_without_error s run then swept_session s run now
    else
      let s1 : TradingSession :=
        match s.arbitrage_strategy, run.arbitrage with
        | some _, some result => recorded_session s result run.put_time now
        | _, _ => s
      { s1 with status := EngineStatus.ERROR, last_update := now }
  else s

/-- The two strategies a session can hold. -/
inductive StrategyKind where
  | arbitrage
  | market_making
  deriving DecidableEq

/-- The calls of `run_once()` that `execute_trading_session` makes on the strategies of
`session`, in order: the arbitrage strategy if attached, then the market-making strategy if
attached, unless the first call has thrown. -/
def strategy_calls (session : TradingSession) (run : SessionRun) : List StrategyKind :=
  if session.arbitrage_strategy.isSome then
    match run.arbitrage with
    | none => [StrategyKind.arbitrage]
    | some _ =>
      if session.market_making_strategy.isSome then
        [StrategyKind.arbitrage, StrategyKind.market_making]
      else [StrategyKind.arbitrage]
  else if session.market_making_strategy.isSome then [StrategyKind.market_making]
  else []

/-- The sweep of `trading_loop` at the entry of index `i`, as `sweep_entry_traced`, with the
list of the calls of `run_once()` made so far, each with the id of the session it is made for. -/
def sweep_entry_calls (runs : String → SessionRun) (now : Int)
    (acc : TradingEngineManager × List (String × StrategyKind)) (i : Nat) :
    TradingEngineManager × List (String × StrategyKind) :=
  match acc.1.trading_sessions_.get? i with
  | none => acc
  | some (session_id, session) =>
    if session.status = EngineStatus.RUNNING then
      (sweep_step acc.1 session_id (runs session_id) now,
        acc.2 ++ (strategy_calls session (runs session_id)).map (fun c => (session_id, c)))
    else acc

/-- The sweep of `trading_loop` over the entries of the registry, before
`cleanup_expired_sessions`: the new state. -/
def trading_loop_sweep (e : TradingEngineManager) (runs : String → SessionRun) (now : Int) :
    TradingEngineManager :=
  ((List.range e.trading_sessions_.length).foldl (sweep_entry_traced runs now) (e, [])).1

/-- The calls of `run_once()` made during the sweep of `trading_loop`. -/
def trading_loop_sweep_calls (e : TradingEngineManager) (runs : String → SessionRun)
    (now : Int) : List (String × StrategyKind) :=
  ((List.range e.trading_sessions_.length).foldl (sweep_entry_calls runs now) (e, [])).2

/-- The lines that `record_strategy_result` appends to a log for the lines `lines` returned by a
strategy, when the session's `last_update` is `t`. -/
def stamped_lines (put_time : Int → String) (t : Int) (lines : List String) : List String :=
  lines.map (fun line => "[" ++ put_time (to_time_t t) ++ "] " ++ line)

/-- The lines appended to the log of `s` by one execution in which no `run_once()` throws: the
lines of the arbitrage strategy, stamped with the `last_update` of `s`, then the lines of the
market-making strategy, stamped with the `last_update` that recording the arbitrage result has
set, if an arbitrage strategy is attached. -/
def run_log_lines (s : TradingSession) (run : SessionRun) (now : Int) : List String :=
  (match s.arbitrage_strategy, run.arbitrage with
    | some _, some result => stamped_lines run.put_time s.last_update result.logs
    | _, _ => [])
  ++ (match s.market_making_strategy, run.market_making with
    | some _, some result =>
      stamped_lines run.put_time (if s.arbitrage_strategy.isSome then now else s.last_update)
        result.logs
    | _, _ => [])

/-- The profit that the sweep of `trading_loop` adds for the entry `kv` of the registry: what
the strategies of its session return, if the session is RUNNING. -/
def entry_profit (runs : String → SessionRun) (kv : String × TradingSession) : ℚ :=
  if kv.2.status = EngineStatus.RUNNING then run_profit kv.2 (runs kv.1) else 0

/-- The trades that the sweep of `trading_loop` adds for the entry `kv` of the registry. -/
def entry_trades (runs : String → SessionRun) (kv : String × TradingSession) : Int :=
  if kv.2.status = EngineStatus.RUNNING then run_trades kv.2 (runs kv.1) else 0

/-- The number of sessions of the registry whose status is RUNNING. -/
def running_sessions (e : TradingEngineManager) : Int :=
  ((e.trading_sessions_.filter
    (fun kv => decide (kv.2.status = EngineStatus.RUNNING))).length : Nat)

/-! ## The routes of `crow_router.h` -/

/-- A `crow::response` built from a status code and a body. -/
structure HttpResponse where
  code : Nat
  body : String
  deriving DecidableEq

/-- The handler of the route `/start_session/<string>`, through `EngineAPI::start_session`. -/
def start_session_route (e : TradingEngineManager) (session_id : String)
    (arbitrage_healthy market_making_healthy : Bool) (now : Int) :
    HttpResponse × TradingEngineManager :=
  let r := start_trading_session e session_id arbitrage_healthy market_making_healthy now
  if ¬ r.1 then ({ code := 500, body := "Failed to start session" }, r.2)
  else ({ code := 200, body := "Session started" }, r.2)

/-- The handler of the route `/stop_session/<string>`, through `EngineAPI::stop_session`. -/
def stop_session_route (e : TradingEngineManager) (session_id : String) (now : Int) :
    HttpResponse × TradingEngineManager :=
  let r := stop_trading_session e session_id now
  if ¬ r.1 then ({ code := 500, body := "Failed to stop session" }, r.2)
  else ({ code := 200, body := "Session stopped" }, r.2)

/-! ## The scheduler of `scheduler.hpp` and `scheduler.cpp` -/

/-- Ticks of `steady_clock` in one millisecond (nanosecond resolution). -/
def ticks_per_millisecond : Int := 1000000

/-- The duration `std::chrono::milliseconds(n)` in clock ticks. -/
def milliseconds (n : Int) : Int := n * ticks_per_millisecond

/-- The struct `SchedulerTask`. The callable `taskFn` is known by a number; `interval` is a count
of milliseconds and `nextRunTime` a count of clock ticks. -/
structure SchedulerTask where
  taskFn : Nat
  interval : Int
  nextRunTime : Int
  deriving DecidableEq

/-- State of a `Scheduler`: the vector `tasks` and the flag `running`. -/
structure Scheduler where
  tasks : List SchedulerTask
  running : Bool
  deriving DecidableEq

/-- The method `Scheduler::addTask`, at clock reading `now`. -/
def addTask (s : Scheduler) (task : Nat) (interval_ms : Int) (now : Int) : Scheduler :=
  { s with tasks := s.tasks ++
      [{ taskFn := task, interval := interval_ms, nextRunTime := now + milliseconds interval_ms }] }

/-- The loop of `std::min_element` with the comparison of `Scheduler::run`: `smallest` is the
index of the smallest element so far, `best` that element, `index` the index of the head of the
remaining elements. An element replaces the smallest only if its `nextRunTime` is strictly
earlier. -/
def min_element_from (smallest : Nat) (best : SchedulerTask) (index : Nat) :
    List SchedulerTask → Nat
  | [] => smallest
  | t :: rest =>
    if t.nextRunTime < best.nextRunTime then min_element_from index t (index + 1) rest
    else min_element_from smallest best (index + 1) rest

/-- The call `std::min_element(tasks.begin(), tasks.end(), ...)` of `Scheduler::run`: the index
of the first task with the earliest `nextRunTime`, `none` for `tasks.end()`. -/
def min_element (tasks : List SchedulerTask) : Option Nat :=
  match tasks with
  | [] => none
  | t :: rest => some (min_element_from 0 t 1 rest)

/-- One turn of the loop of `Scheduler::run` at clock reading `now`. Returns the new state and,
when a task is dispatched, its index in `tasks` and the copy `taskToRun` that is run in a
detached thread. When nothing is due the turn waits and changes nothing. -/
def run_step (s : Scheduler) (now : Int) : Scheduler × Option (Nat × SchedulerTask) :=
  if ¬ s.running then (s, none)
  else if s.tasks.isEmpty then (s, none)
  else
    match min_element s.tasks with
    | none => (s, none)
    | some i =>
      match s.tasks.get? i with
      | none => (s, none)
      | some next =>
        if now ≥ next.nextRunTime then
          let advanced : SchedulerTask :=
            { next with nextRunTime := now + milliseconds next.interval }
          ({ s with tasks := s.tasks.set i advanced }, some (i, next))
        else (s, none)

/-- What happens to a scheduler: a turn of its loop at a clock reading, or a call of `addTask`. -/
inductive SchedulerEvent where
  | turn (now : Int)
  | add (task : Nat) (interval_ms : Int) (now : Int)
  deriving DecidableEq

/-- The scheduler after one event, and the task dispatched by it if any. -/
def scheduler_event (s : Scheduler) : SchedulerEvent → Scheduler × Option (Nat × SchedulerTask)
  | SchedulerEvent.turn now => run_step s now
  | SchedulerEvent.add task interval_ms now => (addTask s task interval_ms now, none)

/-- The scheduler after a list of events, with the list of the tasks dispatched, in order. -/
def scheduler_events (s : Scheduler) :
    List SchedulerEvent → Scheduler × List (Nat × SchedulerTask)
  | [] => (s, [])
  | ev :: rest =>
    ((scheduler_events (scheduler_event s ev).1 rest).1,
      (scheduler_event s ev).2.toList ++ (scheduler_events (scheduler_event s ev).1 rest).2)

/-! ## The strategies of `arbitrage_strategy.cpp` and `market_making_strategy.cpp` -/

/-- A gateway that accepts every request: orders are placed under the exchange id `ex-1`,
cancellations succeed, and a polled order is reported open with nothing filled. -/
def gw_accept : Gateway :=
  { place_limit_order := fun _ _ _ _ _ _ _ => { success := true, order_id := "ex-1", error_message := "" }
    place_market_order := fun _ _ _ _ _ _ => { success := true, order_id := "ex-1", error_message := "" }
    cancel_order := fun _ _ _ _ _ => true
    get_order_status := fun _ _ _ _ id =>
      { success := true, order_id := id, status := "open", filled := 0, remaining := 1,
        error_message := "" }
    get_balance := fun _ _ _ =>
      { success := true, btc_free := 0, btc_used := 0, btc_total := 0, usdt_free := 0,
        usdt_used := 0, usdt_total := 0, eth_free := 0, eth_used := 0, eth_total := 0,
        error_message := "" } }

/-- A gateway as `gw_accept`, but a polled order is reported closed and wholly filled. -/
def gw_closed : Gateway :=
  { gw_accept with
    get_order_status := fun _ _ _ _ id =>
      { success := true, order_id := id, status := "closed", filled := 1, remaining := 0,
        error_message := "" } }

/-- A ledger holding one order that was created and never submitted. -/
def ledger_pending : OrderManager :=
  (create_order OrderManager.empty "s1" "u1" "binance" "BTC/USDT" OrderSide.BUY OrderType.LIMIT
    1 100 300 0 0).2

/-- The order held by `ledger_pending`. -/
def order_pending : Order :=
  { order_id := "order_0_10000", session_id := "s1", user_id := "u1", exchange := "binance",
    symbol := "BTC/USDT", side := OrderSide.BUY, type := OrderType.LIMIT, quantity := 1,
    price := 100, filled_quantity := 0, average_price := 0, status := OrderStatus.PENDING,
    exchange_order_id := "", created_at := 0, updated_at := 0, expires_at := 300000000000,
    error_message := "" }

/-- The order held by `ledger_submitted`. -/
def order_submitted : Order :=
  { order_pending with exchange_order_id := "ex-1", status := OrderStatus.SUBMITTED,
                       updated_at := 1 }

/-- The ledger `ledger_pending` after its order was submitted through `gw_accept`: the order is
SUBMITTED under the exchange id `ex-1`. -/
def ledger_submitted : OrderManager :=
  (submit_order gw_accept ledger_pending "order_0_10000" 1).2

/-- A BUY order of session `s1`, FILLED: 1.0 at 100. -/
def buy_filled : Order :=
  { order_id := "o1", session_id := "s1", user_id := "u1", exchange := "binance",
    symbol := "BTC/USDT", side := OrderSide.BUY, type := OrderType.LIMIT, quantity := 1,
    price := 100, filled_quantity := 1, average_price := 100, status := OrderStatus.FILLED,
    exchange_order_id := "ex-1", created_at := 0, updated_at := 2, expires_at := 300000000000,
    error_message := "" }

/-- A SELL order of session `s1`, FILLED: 1.0 at 110. -/
def sell_filled : Order :=
  { buy_filled with order_id := "o2", side := OrderSide.SELL, price := 110, average_price := 110,
                    exchange_order_id := "ex-2" }

/-- A SELL order of session `s1` that is still PARTIAL: 1.0 of 2.0 filled at 120. -/
def sell_part : Order :=
  { buy_filled with order_id := "o3", side := OrderSide.SELL, quantity := 2, price := 120,
                    filled_quantity := 1, average_price := 120,
                    status := OrderStatus.PARTIAL, exchange_order_id := "ex-3" }

/-- A ledger with the three orders of session `s1`: one BUY filled 1.0 at 100, one SELL filled 1.0
at 110 and one order still PARTIAL. -/
def ledger_session : OrderManager :=
  { orders_ := [("o1", buy_filled), ("o2", sell_filled), ("o3", sell_part)], requests := [] }

/-- A request that is well formed but for its `max_amount`, which is 0. -/
def request_zero_amount : ClientRequest :=
  { client_id := "c1", symbol := "BTC/USDT", exchange := "binance", max_amount := 0,
    target_profit := 20, mode := TradingMode.ARBITRAGE }

/-- A valid request in MIXED mode: capital 1000, take-profit ratio 0.10, stop-loss ratio 0.05. -/
def request_mixed : ClientRequest :=
  { client_id := "c1", symbol := "BTC/USDT", exchange := "binance", max_amount := 1000,
    target_profit := 20, mode := TradingMode.MIXED, take_profit_ratio := 1 / 10,
    stop_loss_ratio := 1 / 20 }

/-- The session that `create_trading_session` registers for `request_mixed` at clock reading 0
when every draw of the random engine is 0. -/
def session_stopped : TradingSession :=
  { session_id := "session_00000000"
    request := request_mixed
    status := EngineStatus.STOPPED
    market_making_strategy :=
      some { symbol_ := "BTC/USDT", exchange_ := "binance", spread_bps_ := 10, order_size_ := 1 }
    arbitrage_strategy :=
      some { symbol_ := "BTC/USDT", min_profit_bps_ := 20, max_trade_size_ := 1000 }
    total_profit := 0
    executed_trades := 0
    log := []
    created_at := 0
    last_update := 0 }

/-- An engine whose registry holds the one session `session_stopped`. -/
def engine_one_session : TradingEngineManager :=
  { engine_status_ := EngineStatus.STOPPED
    should_run_ := false
    trading_interval_ms_ := 5000
    max_sessions_ := 10
    trading_sessions_ := [("session_00000000", session_stopped)]
    stats_ :=
      { total_sessions_created := 1
        active_sessions := 0
        total_trades_executed := 0
        total_profit_generated := 0
        engine_start_time := 0
        last_update_time := 0 } }

/-- The session `session_stopped` once started: RUNNING, with a cumulative profit of 90. -/
def session_running : TradingSession :=
  { session_stopped with status := EngineStatus.RUNNING, total_profit := 90, last_update := 3 }

/-- An engine whose registry holds the one session `session_running`. -/
def engine_running : TradingEngineManager :=
  { engine_one_session with
    trading_sessions_ := [("session_00000000", session_running)]
    stats_ := { engine_one_session.stats_ with active_sessions := 1 } }

/-- An execution in which the arbitrage strategy returns a profit of 15 on 2 trades and the
market-making strategy returns nothing. -/
def run_gain : SessionRun :=
  { arbitrage := some { profit := 15, trades := 2, logs := ["arbitrage"] }
    market_making := some { profit := 0, trades := 0, logs := [] }
    put_time := fun _ => "00:00:00" }

/-- An execution in which the arbitrage strategy returns a profit of 5. -/
def run_small : SessionRun :=
  { run_gain with arbitrage := some { profit := 5, trades := 2, logs := [] } }

/-- An execution in which `run_once()` of the arbitrage strategy throws. -/
def run_throw : SessionRun :=
  { run_gain with arbitrage := none }

/-- The engine `engine_one_session` after a start of its session failed on an unhealthy
arbitrage strategy: the session is in ERROR. -/
def engine_failed_start : TradingEngineManager :=
  (start_trading_session engine_one_session "session_00000000" false true 1).2

/-- A gateway as `gw_accept`, but the first request it ever receives, if a cancellation, fails:
a cancellation succeeds only when some request was sent before it. -/
def gw_first_cancel_fails : Gateway :=
  { gw_accept with cancel_order := fun past _ _ _ _ => !past.isEmpty }

/-- A SUBMITTED order of session `s1` with the same expiry as `sell_part`. -/
def buy_open : Order :=
  { buy_filled with order_id := "o4", filled_quantity := 0, average_price := 0,
                    status := OrderStatus.SUBMITTED, exchange_order_id := "ex-4" }

/-- A ledger with one FILLED order and two orders still open, `o3` PARTIAL and `o4` SUBMITTED,
which both expire at tick 300000000000. -/
def ledger_expiring : OrderManager :=
  { orders_ := [("o1", buy_filled), ("o3", sell_part), ("o4", buy_open)], requests := [] }

/-- A gateway as `gw_accept` whose balance reply shows 10 BTC free and no ETH and no USDT. -/
def gw_btc_only : Gateway :=
  { gw_accept with
    get_balance := fun _ _ _ =>
      { success := true, btc_free := 10, btc_used := 0, btc_total := 10, usdt_free := 0,
        usdt_used := 0, usdt_total := 0, eth_free := 0, eth_used := 0, eth_total := 0,
        error_message := "" } }

/-- A running scheduler with no task. -/
def scheduler_idle : Scheduler :=
  { tasks := [], running := true }

/-- A running scheduler whose one task has an interval of 100 ms and is next due at 100 ms. -/
def scheduler_one_task : Scheduler :=
  addTask scheduler_idle 7 100 0

/-- A session in ERROR. -/
def session_error : TradingSession :=
  { session_stopped with session_id := "session_error", status := EngineStatus.ERROR,
                         last_update := 10800000000000 }

/-- A session STOPPED since tick 0. -/
def session_stale : TradingSession :=
  { session_stopped with session_id := "session_stale" }

/-- A session STOPPED since tick 5400000000000, one hour and a half after tick 0. -/
def session_recent : TradingSession :=
  { session_stopped with session_id := "session_recent", last_update := 5400000000000 }

/-- An engine with the three sessions `session_error`, `session_stale` and `session_recent`. -/
def engine_to_clean : TradingEngineManager :=
  { engine_one_session with
    trading_sessions_ := [("session_error", session_error), ("session_stale", session_stale),
      ("session_recent", session_recent)] }

/-- A second RUNNING session, with no profit so far. -/
def session_second : TradingSession :=
  { session_running with session_id := "session_second", total_profit := 0 }

/-- An engine with the two RUNNING sessions `session_running` and `session_second` and the
STOPPED session `session_stale`. -/
def engine_two_running : TradingEngineManager :=
  { engine_one_session with
    trading_sessions_ := [("session_00000000", session_running),
      ("session_second", session_second), ("session_stale", session_stale)]
    stats_ := { engine_one_session.stats_ with active_sessions := 2 } }

/-- The arbitrage strategy of session `session_00000000` throws; in every other session the
arbitrage strategy returns a profit of 5. -/
def runs_first_throws (k : String) : SessionRun :=
  if k = "session_00000000" then run_throw else run_small

/-- The engine `engine_one_session` after its session has been started at clock reading 2. -/
def engine_started : TradingEngineManager :=
  (start_trading_session engine_one_session "session_00000000" true true 2).2

/-- A ledger whose one order, a limit order to sell 2 at 100 for session `s1`, was created,
submitted and then reported closed by the gateway: the order is FILLED and wholly filled. -/
def ledger_filled_sell : OrderManager :=
  (update_order_status gw_closed
    (submit_order gw_accept
      (create_order OrderManager.empty "s1" "u1" "binance" "BTC/USDT" OrderSide.SELL
        OrderType.LIMIT 2 100 300 0 0).2
      "order_0_10000" 1).2
    "order_0_10000" 2).2

theorem find_modify_eq {α : Type} (os : List (String × α)) (id : String) (f : α → α) :
    find (modify os id f) id = (find os id).map f := by
  induction os with
  | nil => rfl
  | cons kv rest ih =>
    obtain ⟨k, o⟩ := kv
    by_cases h : k = id
    · simp [modify, find, h]
    · simp [modify, find, h, ih]

theorem find_modify_ne {α : Type} (os : List (String × α)) (id k : String) (f : α → α)
    (hk : k ≠ id) : find (modify os id f) k = find os k := by
  induction os with
  | nil => rfl
  | cons kv rest ih =>
    obtain ⟨k1, o⟩ := kv
    simp only [modify, find]
    split_ifs with h1 h2 h3
    · exact absurd (h2.symm.trans h1) hk
    · simp [find, h2]
    · simp [find, h3]
    · simp [find, h3, ih]

theorem modify_keys {α : Type} (os : List (String × α)) (id : String) (f : α → α) :
    (modify os id f).map Prod.fst = os.map Prod.fst := by
  induction os with
  | nil => rfl
  | cons kv rest ih =>
    obtain ⟨k, o⟩ := kv
    by_cases h : k = id
    · simp [modify, h]
    · simp [modify, h, ih]

theorem modify_length {α : Type} (os : List (String × α)) (id : String) (f : α → α) :
    (modify os id f).length = os.length := by
  have h := congrArg List.length (modify_keys os id f)
  simpa using h

theorem find_insert_eq {α : Type} (os : List (String × α)) (id : String) (o : α) :
    find (insert_or_assign os id o) id = some o := by
  induction os with
  | nil => simp [insert_or_assign, find]
  | cons kv rest ih =>
    obtain ⟨k, v⟩ := kv
    by_cases h : k = id
    · simp [insert_or_assign, find, h]
    · by_cases h2 : key_lt id k = true
      · simp [insert_or_assign, find, h, h2]
      · simp [insert_or_assign, find, h, h2, ih]

theorem find_insert_ne {α : Type} (os : List (String × α)) (id k : String) (o : α)
    (hk : k ≠ id) : find (insert_or_assign os id o) k = find os k := by
  have hk2 : ¬ id = k := fun e => hk e.symm
  induction os with
  | nil => simp [insert_or_assign, find, hk2]
  | cons kv rest ih =>
    obtain ⟨k1, v⟩ := kv
    simp only [insert_or_assign, find]
    split_ifs with h1 h2 h3 h4 h5
    · exact absurd (h2.symm.trans h1) hk
    · simp [find, h2]
    · simp [find, hk2, h4]
    · simp [find, hk2, h4]
    · simp [find, h5]
    · simp [find, h5, ih]

theorem insert_length_of_find_none {α : Type} (os : List (String × α)) (id : String) (o : α)
    (hnone : find os id = none) : (insert_or_assign os id o).length = os.length + 1 := by
  induction os with
  | nil => simp [insert_or_assign]
  | cons kv rest ih =>
    obtain ⟨k, v⟩ := kv
    by_cases h : k = id
    · simp [find, h] at hnone
    · have hr : find rest id = none := by simpa [find, h] using hnone
      by_cases h2 : key_lt id k = true
      · simp [insert_or_assign, h, h2]
      · simp [insert_or_assign, h, h2, ih hr]

/-! ## Single operations keep every order that has reached a final status -/

theorem submit_order_keeps_terminal (gw : Gateway) (m : OrderManager) (id : String) (now : Int)
    (k : String) (o : Order) (hfind : find m.orders_ k = some o) (hterm : o.terminal) :
    find (submit_order gw m id now).2.orders_ k = some o := by
  unfold submit_order
  cases hid : find m.orders_ id with
  | none => simpa using hfind
  | some order =>
    by_cases hst : order.status = OrderStatus.PENDING
    · have hne : k ≠ id := by
        intro e
        subst e
        rw [hfind] at hid
        cases hid
        rcases hterm with h | h | h | h <;> rw [hst] at h <;> cases h
      simp only [hst, ne_eq, not_true_eq_false, if_false]
      split_ifs <;> simp [find_modify_ne _ _ _ _ hne, hfind]
    · simp [hst, hfind]

theorem cancel_order_keeps_terminal (gw : Gateway) (m : OrderManager) (id : String) (now : Int)
    (k : String) (o : Order) (hfind : find m.orders_ k = some o) (hterm : o.terminal) :
    find (cancel_order gw m id now).2.orders_ k = some o := by
  unfold cancel_order
  cases hid : find m.orders_ id with
  | none => simpa using hfind
  | some order =>
    by_cases hst : order.status ≠ OrderStatus.SUBMITTED ∧ order.status ≠ OrderStatus.PARTIAL
    · simp [hst, hfind]
    · have hne : k ≠ id := by
        intro e
        subst e
        rw [hfind] at hid
        cases hid
        apply hst
        rcases hterm with h | h | h | h <;> rw [h] <;> exact ⟨by decide, by decide⟩
      simp only [hst, if_false]
      split_ifs <;> simp [find_modify_ne _ _ _ _ hne, hfind]

theorem update_order_status_keeps_terminal (gw : Gateway) (m : OrderManager) (id : String)
    (now : Int) (k : String) (o : Order) (hfind : find m.orders_ k = some o)
    (hterm : o.terminal) :
    find (update_order_status gw m id now).2.orders_ k = some o := by
  unfold update_order_status
  cases hid : find m.orders_ id with
  | none => simpa using hfind
  | some order =>
    by_cases hst : order.exchange_order_id.isEmpty = true ∨
        (order.status ≠ OrderStatus.SUBMITTED ∧ order.status ≠ OrderStatus.PARTIAL)
    · simp only [hst, if_true]
      exact hfind
    · have hne : k ≠ id := by
        intro e
        subst e
        rw [hfind] at hid
        cases hid
        apply hst
        right
        rcases hterm with h | h | h | h <;> rw [h] <;> exact ⟨by decide, by decide⟩
      simp only [hst, if_false]
      split_ifs <;> simp [find_modify_ne _ _ _ _ hne, hfind]

/-- A property of the ledger kept by every step of a loop is kept by the loop. -/
theorem foldl_keeps {α : Type} (P : OrderManager → Prop) (step : OrderManager → α → OrderManager)
    (hstep : ∀ acc x, P acc → P (step acc x)) (l : List α) (m : OrderManager) (h : P m) :
    P (l.foldl step m) := by
  induction l generalizing m with
  | nil => exact h
  | cons x rest ih => exact ih (step m x) (hstep m x h)

/-! ## Claims on the order ledger -/

/-- C1 (defect of the code): `cancel_order` on an order that was created and never submitted
(status PENDING, no exchange order id) sends no request to the gateway and leaves the ledger as
it was, but it returns `true`, the value of a successful cancellation, where the claim asks for a
failure. -/
theorem cancel_order_pending_returns_true :
    Option.map Order.status (get_order ledger_pending "order_0_10000")
        = some OrderStatus.PENDING ∧
      Option.map Order.exchange_order_id (get_order ledger_pending "order_0_10000") = some "" ∧
      (cancel_order gw_accept ledger_pending "order_0_10000" 5).1 = true ∧
      (cancel_order gw_accept ledger_pending "order_0_10000" 5).2 = ledger_pending := by
  decide

/-- C2: an order that has reached FILLED, CANCELLED, FAILED or EXPIRED is left exactly as it is
(every field, so status, filled quantity, exchange order id, error message and `updated_at`) by
`submit_order`, `cancel_order` and `update_order_status` on any id, and by `update_all_orders`,
`cancel_expired_orders` and `cancel_session_orders`, whatever the gateway replies. -/
theorem terminal_orders_never_mutated (gw : Gateway) (m : OrderManager) (k : String) (o : Order)
    (hfind : get_order m k = some o) (hterm : o.terminal)
    (id session_id : String) (now : Int) :
    get_order (submit_order gw m id now).2 k = some o ∧
      get_order (cancel_order gw m id now).2 k = some o ∧
      get_order (update_order_status gw m id now).2 k = some o ∧
      get_order (update_all_orders gw m now) k = some o ∧
      get_order (cancel_expired_orders gw m now) k = some o ∧
      get_order (cancel_session_orders gw m session_id now) k = some o := by
  unfold get_order at *
  refine ⟨submit_order_keeps_terminal gw m id now k o hfind hterm,
    cancel_order_keeps_terminal gw m id now k o hfind hterm,
    update_order_status_keeps_terminal gw m id now k o hfind hterm, ?_, ?_, ?_⟩
  · unfold update_all_orders
    apply foldl_keeps (fun acc => find acc.orders_ k = some o)
    · intro acc i hacc
      cases hget : acc.orders_.get? i with
      | none => simpa [hget] using hacc
      | some kv =>
        obtain ⟨order_id, order⟩ := kv
        simp only [hget]
        split_ifs
        · exact update_order_status_keeps_terminal gw acc order_id now k o hacc hterm
        · exact hacc
    · exact hfind
  · unfold cancel_expired_orders
    apply foldl_keeps (fun acc => find acc.orders_ k = some o)
    · intro acc order_id hacc
      exact cancel_order_keeps_terminal gw acc order_id now k o hacc hterm
    · exact hfind
  · unfold cancel_session_orders
    apply foldl_keeps (fun acc => find acc.orders_ k = some o)
    · intro acc order_id hacc
      exact cancel_order_keeps_terminal gw acc order_id now k o hacc hterm
    · exact hfind

theorem terminal_orders_never_mutated_witness :
    (get_order ledger_session "o1" = some buy_filled ∧ buy_filled.terminal) ∧
      get_order (submit_order gw_accept ledger_session "o1" 400000000000).2 "o1"
        = some buy_filled ∧
      get_order (cancel_order gw_accept ledger_session "o3" 400000000000).2 "o1"
        = some buy_filled ∧
      get_order (update_order_status gw_closed ledger_session "o3" 400000000000).2 "o1"
        = some buy_filled ∧
      get_order (update_all_orders gw_closed ledger_session 400000000000) "o1"
        = some buy_filled ∧
      get_order (cancel_expired_orders gw_accept ledger_session 400000000000) "o1"
        = some buy_filled ∧
      get_order (cancel_session_orders gw_accept ledger_session "s1" 400000000000) "o1"
        = some buy_filled :=
  have hf : get_order ledger_session "o1" = some buy_filled := by decide
  have ht : buy_filled.terminal := by decide
  ⟨⟨hf, ht⟩,
    (terminal_orders_never_mutated gw_accept ledger_session "o1" buy_filled hf ht "o1" "s1"
      400000000000).1,
    (terminal_orders_never_mutated gw_accept ledger_session "o1" buy_filled hf ht "o3" "s1"
      400000000000).2.1,
    (terminal_orders_never_mutated gw_closed ledger_session "o1" buy_filled hf ht "o3" "s1"
      400000000000).2.2.1,
    (terminal_orders_never_mutated gw_closed ledger_session "o1" buy_filled hf ht "o3" "s1"
      400000000000).2.2.2.1,
    (terminal_orders_never_mutated gw_accept ledger_session "o1" buy_filled hf ht "o3" "s1"
      400000000000).2.2.2.2.1,
    (terminal_orders_never_mutated gw_accept ledger_session "o1" buy_filled hf ht "o3" "s1"
      400000000000).2.2.2.2.2⟩

/-- C4: `cancel_order` on a SUBMITTED or PARTIAL order. With a non-empty exchange order id it
sends one `cancel_order` request carrying that exchange order id; when the gateway reports success
the order becomes CANCELLED and the call returns `true`; when the gateway reports failure the call
returns `false` and the registry (so the order's status, filled quantity and exchange order id)
is unchanged. With an empty exchange order id it returns `false` and sends nothing. -/
theorem cancel_order_contract (gw : Gateway) (m : OrderManager) (id : String) (now : Int)
    (o : Order) (hfind : get_order m id = some o)
    (hst : o.status = OrderStatus.SUBMITTED ∨ o.status = OrderStatus.PARTIAL) :
    (o.exchange_order_id ≠ "" →
      (cancel_order gw m id now).2.requests = m.requests ++
        [GwCall.cancel_order o.exchange o.user_id o.symbol o.exchange_order_id] ∧
      (gw.cancel_order m.requests o.exchange o.user_id o.symbol o.exchange_order_id = true →
        (cancel_order gw m id now).1 = true ∧
        get_order (cancel_order gw m id now).2 id = some
          { o with status := OrderStatus.CANCELLED, updated_at := now }) ∧
      (gw.cancel_order m.requests o.exchange o.user_id o.symbol o.exchange_order_id = false →
        (cancel_order gw m id now).1 = false ∧
        (cancel_order gw m id now).2.orders_ = m.orders_ ∧
        get_order (cancel_order gw m id now).2 id = some o)) ∧
    (o.exchange_order_id = "" → cancel_order gw m id now = (false, m)) := by
  unfold get_order at *
  have hact : ¬ (o.status ≠ OrderStatus.SUBMITTED ∧ o.status ≠ OrderStatus.PARTIAL) := by
    rcases hst with h | h <;> simp [h]
  constructor
  · intro hne
    have hemp : ¬ (o.exchange_order_id.isEmpty = true) := fun e =>
      hne ((String.isEmpty_iff _).1 e)
    refine ⟨?_, ?_, ?_⟩
    · simp only [cancel_order, hfind, hact, hemp]
      split_ifs <;> simp_all
    · intro hok
      simp [cancel_order, hfind, hact, hemp, hok, find_modify_eq]
    · intro hko
      simp [cancel_order, hfind, hact, hemp, hko]
  · intro he
    have hemp : o.exchange_order_id.isEmpty = true := (String.isEmpty_iff _).2 he
    simp [cancel_order, hfind, hact, hemp]

theorem cancel_order_contract_witness :
    (get_order ledger_submitted "order_0_10000" = some order_submitted ∧
        order_submitted.status = OrderStatus.SUBMITTED ∧
        order_submitted.exchange_order_id ≠ "") ∧
      (cancel_order gw_accept ledger_submitted "order_0_10000" 9).1 = true ∧
      get_order (cancel_order gw_accept ledger_submitted "order_0_10000" 9).2 "order_0_10000"
        = some { order_submitted with status := OrderStatus.CANCELLED, updated_at := 9 } ∧
      (cancel_order gw_accept ledger_submitted "order_0_10000" 9).2.requests
        = ledger_submitted.requests ++ [GwCall.cancel_order "binance" "u1" "BTC/USDT" "ex-1"] :=
  have hf : get_order ledger_submitted "order_0_10000" = some order_submitted := by decide
  have hs : order_submitted.status = OrderStatus.SUBMITTED := rfl
  have hne : order_submitted.exchange_order_id ≠ "" := by decide
  have h := (cancel_order_contract gw_accept ledger_submitted "order_0_10000" 9 order_submitted
    hf (Or.inl hs)).1 hne
  ⟨⟨hf, hs, hne⟩, (h.2.1 rfl).1, (h.2.1 rfl).2, h.1⟩

/-- C5: `update_order_status` on a SUBMITTED or PARTIAL order with an exchange order id, when the
poll succeeds, returns `true` and: external status "closed" makes the order FILLED with the filled
quantity set to the requested quantity; "canceled" makes it CANCELLED; any other external status
with 0 < filled < quantity makes it PARTIAL with the reported filled amount. -/
theorem update_order_status_mapping (gw : Gateway) (m : OrderManager) (id : String) (now : Int)
    (o : Order) (hfind : get_order m id = some o)
    (hst : o.status = OrderStatus.SUBMITTED ∨ o.status = OrderStatus.PARTIAL)
    (hid : o.exchange_order_id ≠ "")
    (hok : (gw.get_order_status m.requests o.exchange o.user_id o.symbol
      o.exchange_order_id).success = true) :
    (update_order_status gw m id now).1 = true ∧
    ((gw.get_order_status m.requests o.exchange o.user_id o.symbol
        o.exchange_order_id).status = "closed" →
      get_order (update_order_status gw m id now).2 id = some
        { o with status := OrderStatus.FILLED, filled_quantity := o.quantity,
                 updated_at := now }) ∧
    ((gw.get_order_status m.requests o.exchange o.user_id o.symbol
        o.exchange_order_id).status = "canceled" →
      get_order (update_order_status gw m id now).2 id = some
        { o with status := OrderStatus.CANCELLED, updated_at := now }) ∧
    ((gw.get_order_status m.requests o.exchange o.user_id o.symbol
        o.exchange_order_id).status ≠ "closed" →
      (gw.get_order_status m.requests o.exchange o.user_id o.symbol
        o.exchange_order_id).status ≠ "canceled" →
      0 < (gw.get_order_status m.requests o.exchange o.user_id o.symbol
        o.exchange_order_id).filled →
      (gw.get_order_status m.requests o.exchange o.user_id o.symbol
        o.exchange_order_id).filled < o.quantity →
      get_order (update_order_status gw m id now).2 id = some
        { o with status := OrderStatus.PARTIAL
                 filled_quantity := (gw.get_order_status m.requests o.exchange o.user_id
                   o.symbol o.exchange_order_id).filled
                 updated_at := now }) := by
  unfold get_order at *
  have hact : ¬ (o.status ≠ OrderStatus.SUBMITTED ∧ o.status ≠ OrderStatus.PARTIAL) := by
    rcases hst with h | h <;> simp [h]
  have hemp : ¬ (o.exchange_order_id.isEmpty = true) := fun e =>
    hid ((String.isEmpty_iff _).1 e)
  have hguard : ¬ (o.exchange_order_id.isEmpty = true ∨
      (o.status ≠ OrderStatus.SUBMITTED ∧ o.status ≠ OrderStatus.PARTIAL)) := by
    rintro (h | h)
    · exact hemp h
    · exact hact h
  refine ⟨?_, ?_, ?_, ?_⟩
  · simp only [update_order_status, hfind, hguard, hok, if_true, if_false]
  · intro hc
    simp only [update_order_status, hfind, hguard, hok, if_true, if_false, find_modify_eq, hc,
      Option.map_some']
  · intro hc
    have hne : ¬ ("canceled" = "closed") := by decide
    simp only [update_order_status, hfind, hguard, hok, if_true, if_false, find_modify_eq, hc,
      hne, Option.map_some']
  · intro h1 h2 h3 h4
    have h34 : 0 < (gw.get_order_status m.requests o.exchange o.user_id o.symbol
        o.exchange_order_id).filled ∧ (gw.get_order_status m.requests o.exchange o.user_id
        o.symbol o.exchange_order_id).filled < o.quantity := ⟨h3, h4⟩
    simp only [update_order_status, hfind, hguard, hok, if_true, if_false, find_modify_eq, h1, h2,
      Option.map_some', gt_iff_lt, h34, and_self]

theorem update_order_status_mapping_witness :
    (get_order ledger_submitted "order_0_10000" = some order_submitted ∧
        order_submitted.status = OrderStatus.SUBMITTED ∧
        order_submitted.exchange_order_id ≠ "" ∧
        (gw_closed.get_order_status ledger_submitted.requests "binance" "u1" "BTC/USDT"
          "ex-1").success = true) ∧
      (update_order_status gw_closed ledger_submitted "order_0_10000" 9).1 = true ∧
      get_order (update_order_status gw_closed ledger_submitted "order_0_10000" 9).2
          "order_0_10000"
        = some { order_submitted with status := OrderStatus.FILLED, filled_quantity := 1,
                                      updated_at := 9 } :=
  have hf : get_order ledger_submitted "order_0_10000" = some order_submitted := by decide
  have hs : order_submitted.status = OrderStatus.SUBMITTED := rfl
  have hne : order_submitted.exchange_order_id ≠ "" := by decide
  have hok : (gw_closed.get_order_status ledger_submitted.requests "binance" "u1" "BTC/USDT"
      "ex-1").success = true := rfl
  have h := update_order_status_mapping gw_closed ledger_submitted "order_0_10000" 9
    order_submitted hf (Or.inl hs) hne hok
  ⟨⟨hf, hs, hne, hok⟩, h.1, h.2.1 rfl⟩

/-- C6, the claim as stated fails: a SUBMITTED order with an exchange order id is polled, the poll
succeeds with the unmapped result ("open", nothing filled), and `update_order_status` returns
`true`, not `false`. -/
theorem update_order_status_unmapped_returns_true :
    Option.map Order.status (get_order ledger_submitted "order_0_10000")
        = some OrderStatus.SUBMITTED ∧
      Option.map Order.exchange_order_id (get_order ledger_submitted "order_0_10000")
        = some "ex-1" ∧
      (gw_accept.get_order_status ledger_submitted.requests "binance" "u1" "BTC/USDT"
        "ex-1").success = true ∧
      (gw_accept.get_order_status ledger_submitted.requests "binance" "u1" "BTC/USDT"
        "ex-1").status = "open" ∧
      (gw_accept.get_order_status ledger_submitted.requests "binance" "u1" "BTC/USDT"
        "ex-1").filled = 0 ∧
      (update_order_status gw_accept ledger_submitted "order_0_10000" 7).1 = true ∧
      (update_order_status gw_accept ledger_submitted "order_0_10000" 7).1 ≠ false := by
  decide

/-- C6 as amended: for a SUBMITTED or PARTIAL order with an exchange order id, a failed poll
leaves the registry unchanged and returns `false`; a successful poll with an unmapped result (an
external status that is neither "closed" nor "canceled", with a filled amount that is not
strictly between 0 and the quantity) leaves the order's status and every other field but
`updated_at` unchanged, and returns `true`. -/
theorem update_order_status_unmapped_or_failed (gw : Gateway) (m : OrderManager) (id : String)
    (now : Int) (o : Order) (hfind : get_order m id = some o)
    (hst : o.status = OrderStatus.SUBMITTED ∨ o.status = OrderStatus.PARTIAL)
    (hid : o.exchange_order_id ≠ "") :
    ((gw.get_order_status m.requests o.exchange o.user_id o.symbol
        o.exchange_order_id).success = false →
      (update_order_status gw m id now).1 = false ∧
      (update_order_status gw m id now).2.orders_ = m.orders_ ∧
      get_order (update_order_status gw m id now).2 id = some o) ∧
    ((gw.get_order_status m.requests o.exchange o.user_id o.symbol
        o.exchange_order_id).success = true →
      (gw.get_order_status m.requests o.exchange o.user_id o.symbol
        o.exchange_order_id).status ≠ "closed" →
      (gw.get_order_status m.requests o.exchange o.user_id o.symbol
        o.exchange_order_id).status ≠ "canceled" →
      ¬ (0 < (gw.get_order_status m.requests o.exchange o.user_id o.symbol
          o.exchange_order_id).filled ∧
        (gw.get_order_status m.requests o.exchange o.user_id o.symbol
          o.exchange_order_id).filled < o.quantity) →
      (update_order_status gw m id now).1 = true ∧
      get_order (update_order_status gw m id now).2 id = some { o with updated_at := now } ∧
      Option.map Order.status (get_order (update_order_status gw m id now).2 id)
        = some o.status) := by
  unfold get_order at *
  have hguard : ¬ (o.exchange_order_id.isEmpty = true ∨
      (o.status ≠ OrderStatus.SUBMITTED ∧ o.status ≠ OrderStatus.PARTIAL)) := by
    rintro (h | h)
    · exact hid ((String.isEmpty_iff _).1 h)
    · rcases hst with h1 | h1
      · exact h.1 h1
      · exact h.2 h1
  constructor
  · intro hko
    simp [update_order_status, hfind, hguard, hko]
  · intro hok h1 h2 h3
    simp only [update_order_status, hfind, hguard, hok, if_true, if_false, find_modify_eq, h1, h2,
      Option.map_some', gt_iff_lt, h3, and_self]

theorem update_order_status_unmapped_or_failed_witness :
    get_order ledger_submitted "order_0_10000" = some order_submitted ∧
      (update_order_status gw_accept ledger_submitted "order_0_10000" 7).1 = true ∧
      Option.map Order.status
          (get_order (update_order_status gw_accept ledger_submitted "order_0_10000" 7).2
            "order_0_10000") = some OrderStatus.SUBMITTED :=
  have h := (update_order_status_unmapped_or_failed gw_accept ledger_submitted "order_0_10000" 7
    order_submitted (by decide) (Or.inl rfl) (by decide)).2 (by decide) (by decide) (by decide)
    (by simp [gw_accept])
  ⟨by decide, h.1, h.2.2⟩

/-! ## Session aggregates -/

theorem generate_order_id_ne_empty (now : Int) (draw : Nat) : generate_order_id now draw ≠ "" := by
  intro h
  have hlen := congrArg String.length h
  simp only [generate_order_id, String.length_append] at hlen
  have h6 : "order_".length = 6 := by decide
  have h0 : "".length = 0 := by decide
  omega

/-- C8, the claim as stated fails: `create_order` with quantity 0 on the empty ledger returns the
non-empty id `order_0_10000` and stores an order of quantity 0 under it. -/
theorem create_order_zero_quantity_stored :
    (create_order OrderManager.empty "s1" "u1" "binance" "BTC/USDT" OrderSide.BUY
        OrderType.LIMIT 0 100 300 0 0).1 = "order_0_10000" ∧
      (create_order OrderManager.empty "s1" "u1" "binance" "BTC/USDT" OrderSide.BUY
        OrderType.LIMIT 0 100 300 0 0).1 ≠ "" ∧
      (create_order OrderManager.empty "s1" "u1" "binance" "BTC/USDT" OrderSide.BUY
        OrderType.LIMIT 0 100 300 0 0).2 ≠ OrderManager.empty ∧
      get_order (create_order OrderManager.empty "s1" "u1" "binance" "BTC/USDT" OrderSide.BUY
        OrderType.LIMIT 0 100 300 0 0).2 "order_0_10000" = some { order_pending with quantity := 0 }
      := by
  decide

/-- C8 as amended: `create_order` performs no input validation. For every ledger and every
quantity <= 0 it returns a non-empty id and stores under it a PENDING order with that quantity. -/
theorem create_order_accepts_nonpositive_quantity (m : OrderManager)
    (session_id user_id exchange symbol : String) (side : OrderSide) (type : OrderType)
    (quantity price : ℚ) (timeout_seconds : Int) (now : Int) (draw : Nat)
    (_hq : quantity ≤ 0) :
    (create_order m session_id user_id exchange symbol side type quantity price timeout_seconds
        now draw).1 ≠ "" ∧
      Option.map Order.quantity
        (get_order (create_order m session_id user_id exchange symbol side type quantity price
          timeout_seconds now draw).2
          (create_order m session_id user_id exchange symbol side type quantity price
            timeout_seconds now draw).1) = some quantity ∧
      Option.map Order.status
        (get_order (create_order m session_id user_id exchange symbol side type quantity price
          timeout_seconds now draw).2
          (create_order m session_id user_id exchange symbol side type quantity price
            timeout_seconds now draw).1) = some OrderStatus.PENDING := by
  refine ⟨?_, ?_, ?_⟩
  · exact generate_order_id_ne_empty now draw
  · simp [create_order, get_order, find_insert_eq]
  · simp [create_order, get_order, find_insert_eq]

theorem create_order_accepts_nonpositive_quantity_witness :
    ((-1 : ℚ) ≤ 0) ∧
      (create_order ledger_session "s1" "u1" "binance" "BTC/USDT" OrderSide.SELL OrderType.MARKET
        (-1) 0 300 0 0).1 ≠ "" ∧
      Option.map Order.quantity
        (get_order (create_order ledger_session "s1" "u1" "binance" "BTC/USDT" OrderSide.SELL
          OrderType.MARKET (-1) 0 300 0 0).2
          (create_order ledger_session "s1" "u1" "binance" "BTC/USDT" OrderSide.SELL
            OrderType.MARKET (-1) 0 300 0 0).1) = some (-1) :=
  have h := create_order_accepts_nonpositive_quantity ledger_session "s1" "u1" "binance"
    "BTC/USDT" OrderSide.SELL OrderType.MARKET (-1) 0 300 0 0 (by norm_num)
  ⟨by norm_num, h.1, h.2.1⟩

/-- C9: the id that `create_order` allocates is not unique. It is built from the clock's second
and a random draw, and nothing checks it against the registry. With the order `order_0_10000`
already in the ledger, a call in the same second with the same draw, as the second call of
`create_arbitrage_orders` or of `create_market_making_orders` can be, returns that same id and
the new order replaces the earlier one: the registry still has one entry, and the earlier
order is lost. -/
theorem create_order_id_collision :
    get_order ledger_pending "order_0_10000" = some order_pending ∧
      (0 : ℚ) < 2 ∧
      (create_order ledger_pending "s2" "u2" "mexc" "ETH/USDT" OrderSide.SELL OrderType.LIMIT
        2 50 60 500000000 0).1 = "order_0_10000" ∧
      Option.map Order.session_id
        (get_order (create_order ledger_pending "s2" "u2" "mexc" "ETH/USDT" OrderSide.SELL
          OrderType.LIMIT 2 50 60 500000000 0).2 "order_0_10000") = some "s2" ∧
      (create_order ledger_pending "s2" "u2" "mexc" "ETH/USDT" OrderSide.SELL OrderType.LIMIT
        2 50 60 500000000 0).2.orders_.length = ledger_pending.orders_.length := by
  refine ⟨by decide, by norm_num, by decide, by decide, by decide⟩

/-- What `create_order` does when the generated id (`order_<second>_<draw>`) happens not to be
a key of the registry yet: the registry then holds every earlier order unchanged plus exactly
one new order under the returned id: status PENDING, filled quantity 0, empty exchange order id,
the given session, user, exchange, symbol, side, type, quantity and price, and
`expires_at = created_at + timeout` seconds. -/
theorem create_order_fresh_id (m : OrderManager)
    (session_id user_id exchange symbol : String) (side : OrderSide) (type : OrderType)
    (quantity price : ℚ) (timeout_seconds : Int) (now : Int) (draw : Nat)
    (_hq : 0 < quantity) (hfresh : get_order m (generate_order_id now draw) = none) :
    (∀ k o, get_order m k = some o →
      k ≠ (create_order m session_id user_id exchange symbol side type quantity price
        timeout_seconds now draw).1 ∧
      get_order (create_order m session_id user_id exchange symbol side type quantity price
        timeout_seconds now draw).2 k = some o) ∧
    (∀ k, k ≠ (create_order m session_id user_id exchange symbol side type quantity price
        timeout_seconds now draw).1 →
      get_order (create_order m session_id user_id exchange symbol side type quantity price
        timeout_seconds now draw).2 k = get_order m k) ∧
    (create_order m session_id user_id exchange symbol side type quantity price
        timeout_seconds now draw).2.orders_.length = m.orders_.length + 1 ∧
    (∃ o, get_order (create_order m session_id user_id exchange symbol side type quantity price
          timeout_seconds now draw).2
        (create_order m session_id user_id exchange symbol side type quantity price
          timeout_seconds now draw).1 = some o ∧
      o.status = OrderStatus.PENDING ∧ o.filled_quantity = 0 ∧ o.exchange_order_id = "" ∧
      o.session_id = session_id ∧ o.user_id = user_id ∧ o.exchange = exchange ∧
      o.symbol = symbol ∧ o.side = side ∧ o.type = type ∧ o.quantity = quantity ∧
      o.price = price ∧ o.created_at = now ∧
      o.expires_at = o.created_at + seconds timeout_seconds ∧
      o.order_id = (create_order m session_id user_id exchange symbol side type quantity price
        timeout_seconds now draw).1) := by
  unfold get_order at *
  refine ⟨?_, ?_, ?_, ?_⟩
  · intro k o hk
    have hne : k ≠ generate_order_id now draw := by
      intro e
      rw [e, hfresh] at hk
      cases hk
    exact ⟨hne, by simp [create_order, find_insert_ne _ _ _ _ hne, hk]⟩
  · intro k hk
    have hne : k ≠ generate_order_id now draw := hk
    simp [create_order, find_insert_ne _ _ _ _ hne]
  · simp [create_order, insert_length_of_find_none _ _ _ hfresh]
  · refine ⟨_, by simp only [create_order]; exact find_insert_eq _ _ _, ?_⟩
    simp [create_order]

theorem create_order_fresh_id_witness :
    ((0 : ℚ) < 2 ∧ get_order ledger_pending (generate_order_id 1000000000 7) = none) ∧
      (create_order ledger_pending "s2" "u2" "mexc" "ETH/USDT" OrderSide.SELL OrderType.LIMIT
        2 50 60 1000000000 7).2.orders_.length = ledger_pending.orders_.length + 1 :=
  have hq : (0 : ℚ) < 2 := by norm_num
  have hf : get_order ledger_pending (generate_order_id 1000000000 7) = none := by decide
  ⟨⟨hq, hf⟩,
    (create_order_fresh_id ledger_pending "s2" "u2" "mexc" "ETH/USDT" OrderSide.SELL
      OrderType.LIMIT 2 50 60 1000000000 7 hq hf).2.2.1⟩

/-! ## Claims on the session engine -/

/-- C10: a request that fails validation (empty `client_id`, empty `symbol`, `max_amount <= 0`,
`target_profit <= 0`, a registry that already holds `max_sessions_` sessions, or mode
MARKET_MAKING or MIXED with an empty `exchange`) makes `create_trading_session` return the empty
string and leave the whole engine state as it was: the session registry and every statistic,
`total_sessions_created` included. -/
theorem create_trading_session_rejects_invalid (e : TradingEngineManager)
    (request : ClientRequest) (now : Int) (draws : Nat → Nat)
    (hinvalid : request.client_id = "" ∨ request.symbol = "" ∨ request.max_amount ≤ 0 ∨
      request.target_profit ≤ 0 ∨
      size_t_of_int e.max_sessions_ ≤ e.trading_sessions_.length ∨
      ((request.mode = TradingMode.MARKET_MAKING ∨ request.mode = TradingMode.MIXED) ∧
        request.exchange = "")) :
    (create_trading_session e request now draws).1 = "" ∧
      (create_trading_session e request now draws).2 = e ∧
      (create_trading_session e request now draws).2.trading_sessions_ = e.trading_sessions_ ∧
      (create_trading_session e request now draws).2.stats_ = e.stats_ ∧
      (create_trading_session e request now draws).2.stats_.total_sessions_created
        = e.stats_.total_sessions_created := by
  have hv : validate_client_request e request = false := by
    unfold validate_client_request
    rcases hinvalid with h | h | h | h | h | ⟨h1, h2⟩
    · simp [(String.isEmpty_iff _).2 h]
    · simp [(String.isEmpty_iff _).2 h]
    · simp [h]
    · simp [h]
    · simp [h]
    · simp [(String.isEmpty_iff _).2 h2, h1]
  simp [create_trading_session, hv]

theorem create_trading_session_rejects_invalid_witness :
    request_zero_amount.max_amount ≤ 0 ∧
      (create_trading_session (TradingEngineManager.init 0) request_zero_amount 5
        (fun _ => 0)).1 = "" ∧
      (create_trading_session (TradingEngineManager.init 0) request_zero_amount 5
        (fun _ => 0)).2.stats_.total_sessions_created = 0 :=
  have hz : request_zero_amount.max_amount ≤ 0 := by simp [request_zero_amount]
  have h := create_trading_session_rejects_invalid (TradingEngineManager.init 0)
    request_zero_amount 5 (fun _ => 0) (Or.inr (Or.inr (Or.inl hz)))
  ⟨hz, h.1, h.2.2.2.2⟩

/-! ## Lemmas on the session registry -/

theorem find_assign_eq {α : Type} (os : List (String × α)) (id : String) (v : α) :
    find (assign_or_add os id v) id = some v := by
  induction os with
  | nil => simp [assign_or_add, find]
  | cons kv rest ih =>
    obtain ⟨k, w⟩ := kv
    by_cases h : k = id
    · simp [assign_or_add, find, h]
    · simp [assign_or_add, find, h, ih]

theorem find_erase_ne {α : Type} (os : List (String × α)) (id k : String) (hk : k ≠ id) :
    find (erase os id) k = find os k := by
  induction os with
  | nil => rfl
  | cons kv rest ih =>
    obtain ⟨k1, w⟩ := kv
    simp only [erase, find]
    split_ifs with h1 h2 h3
    · exact absurd (h2.symm.trans h1) hk
    · rfl
    · simp [find, h3]
    · simp [find, h3, ih]

theorem find_eq_none_of_not_mem_keys {α : Type} (os : List (String × α)) (id : String)
    (h : id ∉ os.map Prod.fst) : find os id = none := by
  induction os with
  | nil => rfl
  | cons kv rest ih =>
    obtain ⟨k, w⟩ := kv
    simp only [List.map_cons, List.mem_cons, not_or] at h
    have hk : ¬ k = id := fun e => h.1 e.symm
    simp [find, hk, ih h.2]

theorem find_erase_eq_none {α : Type} (os : List (String × α)) (id : String)
    (hnodup : (os.map Prod.fst).Nodup) : find (erase os id) id = none := by
  induction os with
  | nil => rfl
  | cons kv rest ih =>
    obtain ⟨k, w⟩ := kv
    simp only [List.map_cons, List.nodup_cons] at hnodup
    by_cases h : k = id
    · subst h
      simp only [erase, if_true]
      exact find_eq_none_of_not_mem_keys rest k hnodup.1
    · simp [erase, find, h, ih hnodup.2]

theorem erase_length_of_find_some {α : Type} (os : List (String × α)) (id : String) (v : α)
    (hsome : find os id = some v) : (erase os id).length + 1 = os.length := by
  induction os with
  | nil => simp [find] at hsome
  | cons kv rest ih =>
    obtain ⟨k, w⟩ := kv
    by_cases h : k = id
    · simp [erase, h]
    · have hr : find rest id = some v := by simpa [find, h] using hsome
      simp [erase, h, ih hr]

/-! ## Creation and removal of sessions -/

/-- C20: for every valid request the session that `create_trading_session` registers under the
returned id has status STOPPED, cumulative profit 0 and trade count 0; it owns an arbitrage
strategy exactly when the mode is ARBITRAGE or MIXED and a market-making strategy exactly when
the mode is MARKET_MAKING or MIXED; the market-making strategy's spread is
`max(5, target_profit / 2)` and its order size `max_amount / 1000`; the arbitrage strategy's
minimum profit is `target_profit` and its maximum trade size `max_amount`. -/
theorem created_session_configuration (e : TradingEngineManager) (request : ClientRequest)
    (now : Int) (draws : Nat → Nat) (hvalid : validate_client_request e request = true) :
    ∃ s : TradingSession,
      get_session (create_trading_session e request now draws).2
        (create_trading_session e request now draws).1 = some s ∧
      s.request = request ∧
      s.status = EngineStatus.STOPPED ∧ s.total_profit = 0 ∧ s.executed_trades = 0 ∧
      (s.arbitrage_strategy.isSome = true ↔
        (request.mode = TradingMode.ARBITRAGE ∨ request.mode = TradingMode.MIXED)) ∧
      (s.market_making_strategy.isSome = true ↔
        (request.mode = TradingMode.MARKET_MAKING ∨ request.mode = TradingMode.MIXED)) ∧
      (∀ mm, s.market_making_strategy = some mm →
        mm.spread_bps_ = max 5 (request.target_profit / 2) ∧
        mm.order_size_ = request.max_amount / 1000) ∧
      (∀ a, s.arbitrage_strategy = some a →
        a.min_profit_bps_ = request.target_profit ∧ a.max_trade_size_ = request.max_amount) := by
  refine ⟨_, by simp only [create_trading_session, get_session, hvalid]; exact find_assign_eq _ _ _,
    rfl, rfl, rfl, rfl, ?_, ?_, ?_, ?_⟩
  · by_cases h : request.mode = TradingMode.ARBITRAGE ∨ request.mode = TradingMode.MIXED
    · simp [h]
    · simp [h]
  · by_cases h : request.mode = TradingMode.MARKET_MAKING ∨ request.mode = TradingMode.MIXED
    · simp [h]
    · simp [h]
  · intro mm hmm
    by_cases h : request.mode = TradingMode.MARKET_MAKING ∨ request.mode = TradingMode.MIXED
    · simp only [h, if_true, Option.some.injEq] at hmm
      subst hmm
      exact ⟨rfl, rfl⟩
    · simp [h] at hmm
  · intro a ha
    by_cases h : request.mode = TradingMode.ARBITRAGE ∨ request.mode = TradingMode.MIXED
    · simp only [h, if_true, Option.some.injEq] at ha
      subst ha
      exact ⟨rfl, rfl⟩
    · simp [h] at ha

theorem request_mixed_valid :
    validate_client_request engine_one_session request_mixed = true := by
  have h1 : request_mixed.client_id.isEmpty = false := by decide
  have h2 : request_mixed.symbol.isEmpty = false := by decide
  have h3 : request_mixed.exchange.isEmpty = false := by decide
  have h4 : ¬ (request_mixed.max_amount ≤ 0) := by norm_num [request_mixed]
  have h5 : ¬ (request_mixed.target_profit ≤ 0) := by norm_num [request_mixed]
  have h6 : ¬ (engine_one_session.trading_sessions_.length
      ≥ size_t_of_int engine_one_session.max_sessions_) := by decide
  simp [validate_client_request, h1, h2, h3, h4, h5, h6]

theorem session_id_of_zero_draws : generate_session_id (fun _ => 0) = "session_00000000" := by
  decide

theorem engine_one_session_created :
    create_trading_session (TradingEngineManager.init 0) request_mixed 0 (fun _ => 0)
      = ("session_00000000", engine_one_session) := by
  have h1 : request_mixed.client_id.isEmpty = false := by decide
  have h2 : request_mixed.symbol.isEmpty = false := by decide
  have h3 : request_mixed.exchange.isEmpty = false := by decide
  have h4 : ¬ (request_mixed.max_amount ≤ 0) := by norm_num [request_mixed]
  have h5 : ¬ (request_mixed.target_profit ≤ 0) := by norm_num [request_mixed]
  have h6 : ¬ ((TradingEngineManager.init 0).trading_sessions_.length
      ≥ size_t_of_int (TradingEngineManager.init 0).max_sessions_) := by decide
  have hv : validate_client_request (TradingEngineManager.init 0) request_mixed = true := by
    simp [validate_client_request, h1, h2, h3, h4, h5, h6]
  simp only [create_trading_session, hv, session_id_of_zero_draws, Bool.not_eq_true,
    Bool.true_eq_false, if_false]
  norm_num [TradingEngineManager.init, engine_one_session, session_stopped, request_mixed,
    assign_or_add, ArbitrageStrategy.new, MarketMakingStrategy.new]

theorem created_session_configuration_witness :
    validate_client_request engine_one_session request_mixed = true ∧
      ∃ s : TradingSession,
        get_session (create_trading_session engine_one_session request_mixed 7 (fun _ => 0)).2
          (create_trading_session engine_one_session request_mixed 7 (fun _ => 0)).1 = some s ∧
        s.status = EngineStatus.STOPPED ∧ s.total_profit = 0 ∧ s.executed_trades = 0 ∧
        s.arbitrage_strategy.isSome = true ∧ s.market_making_strategy.isSome = true :=
  ⟨request_mixed_valid,
    (created_session_configuration engine_one_session request_mixed 7 (fun _ => 0)
      request_mixed_valid).imp (fun _ h =>
        ⟨h.1, h.2.2.1, h.2.2.2.1, h.2.2.2.2.1, h.2.2.2.2.2.1.2 (Or.inr rfl),
          h.2.2.2.2.2.2.1.2 (Or.inr rfl)⟩)⟩

/-- C12: `stop_trading_session` is idempotent. On a RUNNING session the first call returns `true`,
sets the session to STOPPED (and its `last_update` to the clock reading) and decrements
`active_sessions` by exactly one; a second call on the same id returns `true` and leaves the whole
engine state unchanged, so that two successive calls decrement the counter exactly once. On a
session that is not RUNNING the call returns `true` and changes nothing. -/
theorem stop_trading_session_idempotent (e : TradingEngineManager) (id : String)
    (now later : Int) (s : TradingSession) (hfind : get_session e id = some s) :
    (s.status = EngineStatus.RUNNING →
      (stop_trading_session e id now).1 = true ∧
      get_session (stop_trading_session e id now).2 id
        = some { s with status := EngineStatus.STOPPED, last_update := now } ∧
      (stop_trading_session e id now).2.stats_.active_sessions
        = e.stats_.active_sessions - 1 ∧
      stop_trading_session (stop_trading_session e id now).2 id later
        = (true, (stop_trading_session e id now).2) ∧
      (stop_trading_session (stop_trading_session e id now).2 id later).2.stats_.active_sessions
        = e.stats_.active_sessions - 1) ∧
    (s.status ≠ EngineStatus.RUNNING → stop_trading_session e id now = (true, e)) := by
  unfold get_session at *
  constructor
  · intro hrun
    have h1 : stop_trading_session e id now = (true,
        { e with
          trading_sessions_ := modify e.trading_sessions_ id (fun s =>
            { s with status := EngineStatus.STOPPED, last_update := now })
          stats_ := { e.stats_ with active_sessions := e.stats_.active_sessions - 1 } }) := by
      simp [stop_trading_session, stop_trading_session_traced, hfind, hrun]
    have h2 : find (stop_trading_session e id now).2.trading_sessions_ id
        = some { s with status := EngineStatus.STOPPED, last_update := now } := by
      rw [h1]
      simp [find_modify_eq, hfind]
    have h3 : stop_trading_session (stop_trading_session e id now).2 id later
        = (true, (stop_trading_session e id now).2) := by
      simp [stop_trading_session, stop_trading_session_traced] at h2 ⊢
      simp [h2]
    refine ⟨by rw [h1], h2, by rw [h1], h3, ?_⟩
    rw [h3, h1]
  · intro hnot
    simp [stop_trading_session, stop_trading_session_traced, hfind, hnot]

theorem stop_trading_session_idempotent_witness :
    (get_session engine_running "session_00000000" = some session_running ∧
        session_running.status = EngineStatus.RUNNING) ∧
      (stop_trading_session engine_running "session_00000000" 5).1 = true ∧
      (stop_trading_session engine_running "session_00000000" 5).2.stats_.active_sessions
        = engine_running.stats_.active_sessions - 1 ∧
      stop_trading_session (stop_trading_session engine_running "session_00000000" 5).2
          "session_00000000" 6
        = (true, (stop_trading_session engine_running "session_00000000" 5).2) :=
  have hf : get_session engine_running "session_00000000" = some session_running := rfl
  have h := (stop_trading_session_idempotent engine_running "session_00000000" 5 6
    session_running hf).1 rfl
  ⟨⟨hf, rfl⟩, h.1, h.2.2.1, h.2.2.2.1⟩

/-- C13: `start_trading_session`, the health of each attached strategy being a parameter. For an
unknown id it returns `false` and changes nothing; for a session already RUNNING it returns `true`
and changes nothing; for any other session, if every attached strategy is healthy it returns
`true`, sets the status to RUNNING and increments `active_sessions` by one, and otherwise it
returns `false`, sets the status to ERROR and leaves `active_sessions` unchanged. No other session
is changed. -/
theorem start_trading_session_contract (e : TradingEngineManager) (id : String)
    (arbitrage_healthy market_making_healthy : Bool) (now : Int) :
    (get_session e id = none →
      start_trading_session e id arbitrage_healthy market_making_healthy now = (false, e)) ∧
    (∀ s, get_session e id = some s → s.status = EngineStatus.RUNNING →
      start_trading_session e id arbitrage_healthy market_making_healthy now = (true, e)) ∧
    (∀ s, get_session e id = some s → s.status ≠ EngineStatus.RUNNING →
      (((s.arbitrage_strategy.isSome = true → arbitrage_healthy = true) ∧
          (s.market_making_strategy.isSome = true → market_making_healthy = true)) →
        (start_trading_session e id arbitrage_healthy market_making_healthy now).1 = true ∧
        get_session (start_trading_session e id arbitrage_healthy market_making_healthy now).2 id
          = some { s with status := EngineStatus.RUNNING, last_update := now } ∧
        (start_trading_session e id arbitrage_healthy market_making_healthy now).2.stats_
          = { e.stats_ with active_sessions := e.stats_.active_sessions + 1 }) ∧
      (¬ ((s.arbitrage_strategy.isSome = true → arbitrage_healthy = true) ∧
          (s.market_making_strategy.isSome = true → market_making_healthy = true)) →
        (start_trading_session e id arbitrage_healthy market_making_healthy now).1 = false ∧
        get_session (start_trading_session e id arbitrage_healthy market_making_healthy now).2 id
          = some { s with status := EngineStatus.ERROR } ∧
        (start_trading_session e id arbitrage_healthy market_making_healthy now).2.stats_
          = e.stats_) ∧
      (∀ k, k ≠ id →
        get_session (start_trading_session e id arbitrage_healthy market_making_healthy now).2 k
          = get_session e k)) := by
  unfold get_session
  refine ⟨?_, ?_, ?_⟩
  · intro h
    simp [start_trading_session, start_trading_session_traced, h]
  · intro s h hrun
    simp [start_trading_session, start_trading_session_traced, h, hrun]
  · intro s h hnot
    refine ⟨?_, ?_, ?_⟩
    · rintro ⟨ha, hm⟩
      cases hsa : s.arbitrage_strategy.isSome <;> cases hsm : s.market_making_strategy.isSome <;>
        simp_all [start_trading_session, start_trading_session_traced, find_modify_eq]
    · intro hbad
      cases hsa : s.arbitrage_strategy.isSome <;> cases hsm : s.market_making_strategy.isSome <;>
        cases arbitrage_healthy <;> cases market_making_healthy <;>
        simp_all [start_trading_session, start_trading_session_traced, find_modify_eq]
    · intro k hk
      simp only [start_trading_session, start_trading_session_traced, h, hnot, if_false]
      split_ifs <;> simp [find_modify_ne _ _ _ _ hk]

theorem start_trading_session_contract_witness :
    (get_session engine_one_session "session_00000000" = some session_stopped ∧
        session_stopped.status ≠ EngineStatus.RUNNING) ∧
      (start_trading_session engine_one_session "session_00000000" true true 5).1 = true ∧
      get_session (start_trading_session engine_one_session "session_00000000" true true 5).2
          "session_00000000"
        = some { session_stopped with status := EngineStatus.RUNNING, last_update := 5 } ∧
      (start_trading_session engine_one_session "session_00000000" true false 5).1 = false :=
  have hf : get_session engine_one_session "session_00000000" = some session_stopped := rfl
  have hn : session_stopped.status ≠ EngineStatus.RUNNING := by decide
  have hgood := ((start_trading_session_contract engine_one_session "session_00000000" true true
    5).2.2 session_stopped hf hn).1 ⟨fun _ => rfl, fun _ => rfl⟩
  have hbad := ((start_trading_session_contract engine_one_session "session_00000000" true false
    5).2.2 session_stopped hf hn).2.1 (fun h => Bool.noConfusion (h.2 rfl))
  ⟨⟨hf, hn⟩, hgood.1, hgood.2.1, hbad.1⟩

/-- C14: `remove_trading_session` on a registry whose keys are distinct (it is a map). For an
unknown id it returns `false` and leaves the registry and the statistics unchanged; for a known id
it returns `true`, afterwards the id is absent from the registry and every other session is
unchanged; if the removed session was RUNNING it is stopped first, so `active_sessions` is
decremented by exactly one, and otherwise the statistics are unchanged. -/
theorem remove_trading_session_contract (e : TradingEngineManager) (id : String) (now : Int)
    (hnodup : (e.trading_sessions_.map Prod.fst).Nodup) :
    (get_session e id = none → remove_trading_session e id now = (false, e)) ∧
    (∀ s, get_session e id = some s →
      (remove_trading_session e id now).1 = true ∧
      get_session (remove_trading_session e id now).2 id = none ∧
      (∀ k, k ≠ id → get_session (remove_trading_session e id now).2 k = get_session e k) ∧
      (s.status = EngineStatus.RUNNING →
        (remove_trading_session e id now).2.stats_
          = { e.stats_ with active_sessions := e.stats_.active_sessions - 1 }) ∧
      (s.status ≠ EngineStatus.RUNNING →
        (remove_trading_session e id now).2.stats_ = e.stats_)) := by
  unfold get_session
  constructor
  · intro h
    simp [remove_trading_session, h]
  · intro s h
    by_cases hrun : s.status = EngineStatus.RUNNING
    · have hrem : remove_trading_session e id now = (true,
          { e with
            trading_sessions_ := erase (modify e.trading_sessions_ id (fun s =>
              { s with status := EngineStatus.STOPPED, last_update := now })) id
            stats_ := { e.stats_ with active_sessions := e.stats_.active_sessions - 1 } }) := by
        simp [remove_trading_session, h, hrun, stop_trading_session,
          stop_trading_session_traced]
      rw [hrem]
      refine ⟨rfl, ?_, ?_, fun _ => rfl, fun hn => absurd hrun hn⟩
      · apply find_erase_eq_none
        rw [modify_keys]
        exact hnodup
      · intro k hk
        simp [find_erase_ne _ _ _ hk, find_modify_ne _ _ _ _ hk]
    · have hrem : remove_trading_session e id now = (true,
          { e with trading_sessions_ := erase e.trading_sessions_ id }) := by
        simp [remove_trading_session, h, hrun]
      rw [hrem]
      refine ⟨rfl, find_erase_eq_none _ _ hnodup, ?_, fun hr => absurd hr hrun, fun _ => rfl⟩
      intro k hk
      simp [find_erase_ne _ _ _ hk]

theorem remove_trading_session_contract_witness :
    ((engine_running.trading_sessions_.map Prod.fst).Nodup ∧
        get_session engine_running "session_00000000" = some session_running ∧
        session_running.status = EngineStatus.RUNNING) ∧
      (remove_trading_session engine_running "session_00000000" 5).1 = true ∧
      get_session (remove_trading_session engine_running "session_00000000" 5).2
        "session_00000000" = none ∧
      (remove_trading_session engine_running "session_00000000" 5).2.stats_
        = { engine_running.stats_ with
            active_sessions := engine_running.stats_.active_sessions - 1 } :=
  have hn : (engine_running.trading_sessions_.map Prod.fst).Nodup := by decide
  have hf : get_session engine_running "session_00000000" = some session_running := rfl
  have h := (remove_trading_session_contract engine_running "session_00000000" 5 hn).2
    session_running hf
  ⟨⟨hn, hf, rfl⟩, h.1, h.2.1, h.2.2.2.1 rfl⟩

/-- C15, the claim as stated fails: starting the unknown id `session_missing` and starting the
known session `session_00000000` while its arbitrage strategy is unhealthy both return `false`
from `start_trading_session`, and `/start_session` answers both with the same response, status
500 and body `Failed to start session`. -/
theorem start_unknown_and_failed_start_same_result :
    get_session engine_one_session "session_missing" = none ∧
      get_session engine_one_session "session_00000000" = some session_stopped ∧
      (start_trading_session engine_one_session "session_missing" true true 5).1 = false ∧
      (start_trading_session engine_one_session "session_00000000" false true 5).1 = false ∧
      (start_session_route engine_one_session "session_missing" true true 5).1
        = (start_session_route engine_one_session "session_00000000" false true 5).1 ∧
      (start_session_route engine_one_session "session_missing" true true 5).1
        = { code := 500, body := "Failed to start session" } := by
  refine ⟨rfl, rfl, rfl, rfl, rfl, rfl⟩

/-- C15 as amended: the control surface does not tell "not found" from a failed start. Starting
an unknown id and starting a known session that is not RUNNING and has an unhealthy attached
strategy both make `start_trading_session` return `false` and make `/start_session` answer 500
with the body `Failed to start session`; the two cases differ only in the engine state, which is
unchanged for the unknown id while the known session is left in ERROR. A successful start is
reported distinctly from both: `true`, and 200 with the body `Session started`. -/
theorem start_not_found_reported_as_failure (e : TradingEngineManager) (unknown known : String)
    (s : TradingSession) (a1 m1 a2 m2 : Bool) (now : Int)
    (hunknown : get_session e unknown = none) (hknown : get_session e known = some s)
    (hnot : s.status ≠ EngineStatus.RUNNING)
    (hbad : ¬ ((s.arbitrage_strategy.isSome = true → a2 = true) ∧
      (s.market_making_strategy.isSome = true → m2 = true))) :
    (start_trading_session e unknown a1 m1 now).1 = false ∧
      (start_trading_session e known a2 m2 now).1 = false ∧
      (start_session_route e unknown a1 m1 now).1
        = { code := 500, body := "Failed to start session" } ∧
      (start_session_route e known a2 m2 now).1
        = { code := 500, body := "Failed to start session" } ∧
      (start_trading_session e unknown a1 m1 now).2 = e ∧
      Option.map TradingSession.status
        (get_session (start_trading_session e known a2 m2 now).2 known)
        = some EngineStatus.ERROR ∧
      (∀ id a m, (start_trading_session e id a m now).1 = true →
        (start_session_route e id a m now).1 = { code := 200, body := "Session started" }) := by
  unfold get_session at *
  have hu : start_trading_session e unknown a1 m1 now = (false, e) := by
    simp [start_trading_session, start_trading_session_traced, hunknown]
  have hk : (start_trading_session e known a2 m2 now).1 = false ∧
      find (start_trading_session e known a2 m2 now).2.trading_sessions_ known
        = some { s with status := EngineStatus.ERROR } := by
    cases hsa : s.arbitrage_strategy.isSome <;> cases hsm : s.market_making_strategy.isSome <;>
      cases a2 <;> cases m2 <;>
      simp_all [start_trading_session, start_trading_session_traced, find_modify_eq]
  refine ⟨by rw [hu], hk.1, ?_, ?_, by rw [hu], ?_, ?_⟩
  · simp [start_session_route, hu]
  · simp [start_session_route, hk.1]
  · rw [hk.2]
    rfl
  · intro id a m h
    simp [start_session_route, h]

theorem start_not_found_reported_as_failure_witness :
    (get_session engine_one_session "session_missing" = none ∧
        get_session engine_one_session "session_00000000" = some session_stopped ∧
        session_stopped.status ≠ EngineStatus.RUNNING) ∧
      (start_trading_session engine_one_session "session_missing" true true 5).1 = false ∧
      (start_trading_session engine_one_session "session_00000000" false true 5).1 = false ∧
      (start_session_route engine_one_session "session_00000000" false true 5).1
        = { code := 500, body := "Failed to start session" } :=
  have hu : get_session engine_one_session "session_missing" = none := rfl
  have hf : get_session engine_one_session "session_00000000" = some session_stopped := rfl
  have hn : session_stopped.status ≠ EngineStatus.RUNNING := by decide
  have h := start_not_found_reported_as_failure engine_one_session "session_missing"
    "session_00000000" session_stopped true true false true 5 hu hf hn
    (fun h => Bool.noConfusion (h.1 rfl))
  ⟨⟨hu, hf, hn⟩, h.1, h.2.1, h.2.2.2.1⟩

/-! ## The control loop -/

theorem executed_session_total_profit (s : TradingSession) (run : SessionRun) (now : Int) :
    (executed_session s run now).total_profit = s.total_profit + run_profit s run ∧
      (executed_session s run now).request = s.request ∧
      (executed_session s run now).status = s.status := by
  unfold executed_session run_profit recorded_session
  cases s.arbitrage_strategy <;> cases s.market_making_strategy <;> cases run.arbitrage <;>
    cases run.market_making <;> (simp; try ring)

theorem execute_trading_session_session (e : TradingEngineManager) (id : String)
    (run : SessionRun) (now : Int) (s : TradingSession)
    (hfind : find e.trading_sessions_ id = some s) (hrun : runs_without_error s run) :
    find (execute_trading_session_traced e id run now).1.trading_sessions_ id
        = some (executed_session s run now) ∧
      (execute_trading_session_traced e id run now).2 = [] := by
  obtain ⟨ha, hm⟩ := hrun
  unfold execute_trading_session_traced executed_session
  cases hsa : s.arbitrage_strategy <;> cases hsm : s.market_making_strategy <;>
    cases hra : run.arbitrage <;> cases hrm : run.market_making <;>
    simp_all [record_strategy_result, update_session_stats, find_modify_eq, recorded_session]

theorem sweep_step_session (e : TradingEngineManager) (id : String) (run : SessionRun)
    (now : Int) (s : TradingSession) (hfind : find e.trading_sessions_ id = some s)
    (hstatus : s.status = EngineStatus.RUNNING) (hrun : runs_without_error s run) :
    find (sweep_step e id run now).trading_sessions_ id = some (swept_session s run now) := by
  obtain ⟨hex, _⟩ := execute_trading_session_session e id run now s hfind hrun
  obtain ⟨_, _, hst⟩ := executed_session_total_profit s run now
  rw [hstatus] at hst
  unfold sweep_step sweep_step_traced swept_session
  simp only [find_modify_eq, hex, Option.map_some']
  by_cases h1 : (executed_session s run now).total_profit
      ≥ (executed_session s run now).request.max_amount
        * (executed_session s run now).request.take_profit_ratio
  · simp [h1, stop_trading_session_traced, find_modify_eq, hex, hst]
  · by_cases h2 : (executed_session s run now).total_profit
        ≤ -((executed_session s run now).request.max_amount
          * (executed_session s run now).request.stop_loss_ratio)
    · simp [h1, h2, stop_trading_session_traced, find_modify_eq, hex, hst]
    · simp only [h1, h2, if_false, or_self, find_modify_eq, hex, Option.map_some']
      rfl

theorem stop_trading_session_keys (e : TradingEngineManager) (id : String) (now : Int) :
    (stop_trading_session_traced e id now).2.1.trading_sessions_.map Prod.fst
      = e.trading_sessions_.map Prod.fst := by
  unfold stop_trading_session_traced
  cases find e.trading_sessions_ id with
  | none => rfl
  | some session =>
    simp only
    split_ifs <;> simp [modify_keys]

theorem stop_trading_session_other (e : TradingEngineManager) (id k : String) (now : Int)
    (hk : k ≠ id) :
    find (stop_trading_session_traced e id now).2.1.trading_sessions_ k
      = find e.trading_sessions_ k := by
  unfold stop_trading_session_traced
  cases find e.trading_sessions_ id with
  | none => rfl
  | some session =>
    simp only
    split_ifs <;> simp [find_modify_ne _ _ _ _ hk]

theorem execute_trading_session_keys (e : TradingEngineManager) (id : String) (run : SessionRun)
    (now : Int) :
    (execute_trading_session_traced e id run now).1.trading_sessions_.map Prod.fst
      = e.trading_sessions_.map Prod.fst := by
  unfold execute_trading_session_traced
  cases find e.trading_sessions_ id with
  | none => rfl
  | some session =>
    cases hsa : session.arbitrage_strategy.isSome <;>
      cases hsm : session.market_making_strategy.isSome <;>
      cases hra : run.arbitrage <;> cases hrm : run.market_making <;>
      simp [hsa, hsm, record_strategy_result, update_session_stats, modify_keys]

theorem execute_trading_session_other (e : TradingEngineManager) (id k : String)
    (run : SessionRun) (now : Int) (hk : k ≠ id) :
    find (execute_trading_session_traced e id run now).1.trading_sessions_ k
      = find e.trading_sessions_ k := by
  unfold execute_trading_session_traced
  cases find e.trading_sessions_ id with
  | none => rfl
  | some session =>
    cases hsa : session.arbitrage_strategy.isSome <;>
      cases hsm : session.market_making_strategy.isSome <;>
      cases hra : run.arbitrage <;> cases hrm : run.market_making <;>
      simp [hsa, hsm, record_strategy_result, update_session_stats, find_modify_ne _ _ _ _ hk]

theorem sweep_step_keys (e : TradingEngineManager) (id : String) (run : SessionRun) (now : Int) :
    (sweep_step_traced e id run now).1.trading_sessions_.map Prod.fst
      = e.trading_sessions_.map Prod.fst := by
  unfold sweep_step_traced
  simp only
  split
  · simp [modify_keys, execute_trading_session_keys]
  · split_ifs <;>
      simp [stop_trading_session_keys, modify_keys, execute_trading_session_keys]

theorem sweep_step_other (e : TradingEngineManager) (id k : String) (run : SessionRun)
    (now : Int) (hk : k ≠ id) :
    find (sweep_step_traced e id run now).1.trading_sessions_ k = find e.trading_sessions_ k := by
  unfold sweep_step_traced
  simp only
  split
  · simp [find_modify_ne _ _ _ _ hk, execute_trading_session_other _ _ _ _ _ hk]
  · split_ifs <;>
      simp [stop_trading_session_other _ _ _ _ hk, find_modify_ne _ _ _ _ hk,
        execute_trading_session_other _ _ _ _ _ hk]

/-! ## Entries of a registry by index -/

theorem get_of_find {α : Type} (os : List (String × α)) (k : String) (v : α)
    (h : find os k = some v) : ∃ p, os.get? p = some (k, v) := by
  induction os with
  | nil => simp [find] at h
  | cons kv rest ih =>
    obtain ⟨k1, w⟩ := kv
    by_cases hk : k1 = k
    · simp only [find, hk, if_true, Option.some.injEq] at h
      exact ⟨0, by simp [hk, h]⟩
    · simp only [find, hk, if_false] at h
      obtain ⟨p, hp⟩ := ih h
      exact ⟨p + 1, by simpa using hp⟩

theorem find_of_get {α : Type} (os : List (String × α)) (k : String) (v : α) (p : Nat)
    (hnodup : (os.map Prod.fst).Nodup) (h : os.get? p = some (k, v)) : find os k = some v := by
  induction os generalizing p with
  | nil => simp at h
  | cons kv rest ih =>
    obtain ⟨k1, w⟩ := kv
    simp only [List.map_cons, List.nodup_cons] at hnodup
    cases p with
    | zero =>
      simp only [List.get?_cons_zero, Option.some.injEq, Prod.mk.injEq] at h
      simp [find, h.1, h.2]
    | succ q =>
      simp only [List.get?_cons_succ] at h
      have hmem : k ∈ rest.map Prod.fst :=
        List.mem_map.2 ⟨(k, v), List.get?_mem h, rfl⟩
      have hk : ¬ k1 = k := fun e => hnodup.1 (e ▸ hmem)
      simp [find, hk, ih q hnodup.2 h]

theorem index_unique {β : Type} (l : List β) (a : β) (i j : Nat) (hnodup : l.Nodup)
    (hi : l.get? i = some a) (hj : l.get? j = some a) : i = j := by
  induction l generalizing i j with
  | nil => simp at hi
  | cons b rest ih =>
    simp only [List.nodup_cons] at hnodup
    cases i with
    | zero =>
      cases j with
      | zero => rfl
      | succ j2 =>
        simp only [List.get?_cons_zero, Option.some.injEq] at hi
        simp only [List.get?_cons_succ] at hj
        exact absurd (hi ▸ List.get?_mem hj) hnodup.1
    | succ i2 =>
      cases j with
      | zero =>
        simp only [List.get?_cons_zero, Option.some.injEq] at hj
        simp only [List.get?_cons_succ] at hi
        exact absurd (hj ▸ List.get?_mem hi) hnodup.1
      | succ j2 =>
        simp only [List.get?_cons_succ] at hi hj
        rw [ih i2 j2 hnodup.2 hi hj]

theorem key_of_get {α : Type} (os : List (String × α)) (k : String) (v : α) (p : Nat)
    (h : os.get? p = some (k, v)) : (os.map Prod.fst).get? p = some k := by
  rw [List.get?_eq_getElem?] at h ⊢
  rw [List.getElem?_map, h]
  rfl

theorem get_of_key {α : Type} (os : List (String × α)) (k : String) (p : Nat)
    (h : (os.map Prod.fst).get? p = some k) : ∃ v, os.get? p = some (k, v) := by
  rw [List.get?_eq_getElem?, List.getElem?_map] at h
  cases hg : os[p]? with
  | none => rw [hg] at h; cases h
  | some kv =>
    obtain ⟨k1, v⟩ := kv
    rw [hg] at h
    simp only [Option.map_some', Option.some.injEq] at h
    exact ⟨v, by rw [List.get?_eq_getElem?, hg, h]⟩

/-! ## The sweep over the registry -/

theorem sweep_entry_keys (runs : String → SessionRun) (now : Int)
    (acc : TradingEngineManager × List (EngineStatus × EngineStatus)) (i : Nat) :
    (sweep_entry_traced runs now acc i).1.trading_sessions_.map Prod.fst
      = acc.1.trading_sessions_.map Prod.fst := by
  unfold sweep_entry_traced
  cases acc.1.trading_sessions_.get? i with
  | none => rfl
  | some kv =>
    obtain ⟨session_id, session⟩ := kv
    simp only
    split_ifs
    · exact sweep_step_keys _ _ _ _
    · rfl

theorem sweep_entry_other (runs : String → SessionRun) (now : Int)
    (acc : TradingEngineManager × List (EngineStatus × EngineStatus)) (i p : Nat) (k : String)
    (hnodup : (acc.1.trading_sessions_.map Prod.fst).Nodup)
    (hp : (acc.1.trading_sessions_.map Prod.fst).get? p = some k) (hi : i ≠ p) :
    find (sweep_entry_traced runs now acc i).1.trading_sessions_ k
      = find acc.1.trading_sessions_ k := by
  unfold sweep_entry_traced
  cases hg : acc.1.trading_sessions_.get? i with
  | none => rfl
  | some kv =>
    obtain ⟨session_id, session⟩ := kv
    simp only
    split_ifs
    · have hne : k ≠ session_id := by
        intro e
        subst e
        exact hi (index_unique _ k i p hnodup (key_of_get _ _ _ _ hg) hp)
      exact sweep_step_other _ _ _ _ _ hne
    · rfl

theorem sweep_fold_keys (runs : String → SessionRun) (now : Int) (l : List Nat)
    (acc : TradingEngineManager × List (EngineStatus × EngineStatus)) :
    (l.foldl (sweep_entry_traced runs now) acc).1.trading_sessions_.map Prod.fst
      = acc.1.trading_sessions_.map Prod.fst := by
  induction l generalizing acc with
  | nil => rfl
  | cons i rest ih =>
    rw [List.foldl_cons, ih, sweep_entry_keys]

theorem sweep_fold_other (runs : String → SessionRun) (now : Int) (l : List Nat) (p : Nat)
    (k : String) (acc : TradingEngineManager × List (EngineStatus × EngineStatus))
    (hnodup : (acc.1.trading_sessions_.map Prod.fst).Nodup)
    (hp : (acc.1.trading_sessions_.map Prod.fst).get? p = some k) (hl : p ∉ l) :
    find (l.foldl (sweep_entry_traced runs now) acc).1.trading_sessions_ k
      = find acc.1.trading_sessions_ k := by
  induction l generalizing acc with
  | nil => rfl
  | cons i rest ih =>
    simp only [List.mem_cons, not_or] at hl
    have hi : i ≠ p := fun e => hl.1 e.symm
    rw [List.foldl_cons, ih _ (by rw [sweep_entry_keys]; exact hnodup)
      (by rw [sweep_entry_keys]; exact hp) hl.2]
    exact sweep_entry_other runs now acc i p k hnodup hp hi

theorem remove_trading_session_other (e : TradingEngineManager) (id k : String) (now : Int)
    (hk : k ≠ id) :
    find (remove_trading_session e id now).2.trading_sessions_ k = find e.trading_sessions_ k := by
  unfold remove_trading_session
  cases find e.trading_sessions_ id with
  | none => rfl
  | some session =>
    simp only
    split_ifs
    · rw [find_erase_ne _ _ _ hk]
      exact stop_trading_session_other e id k now hk
    · rw [find_erase_ne _ _ _ hk]

theorem remove_fold_other (now : Int) (ids : List String) (k : String)
    (e : TradingEngineManager) (hk : k ∉ ids) :
    find (ids.foldl (fun acc session_id => (remove_trading_session acc session_id now).2)
      e).trading_sessions_ k = find e.trading_sessions_ k := by
  induction ids generalizing e with
  | nil => rfl
  | cons id rest ih =>
    simp only [List.mem_cons, not_or] at hk
    rw [List.foldl_cons, ih _ hk.2]
    exact remove_trading_session_other e id k now hk.1

theorem mem_listed_expired (now : Int) (os : List (String × TradingSession))
    (acc : List String) (k : String) (hk : k ∈ os.foldl (list_if_expired now) acc) :
    k ∈ acc ∨ ∃ v, (k, v) ∈ os ∧
      ((hours_count (now - v.last_update) > 1 ∧ v.status = EngineStatus.STOPPED) ∨
        v.status = EngineStatus.ERROR) := by
  induction os generalizing acc with
  | nil => exact Or.inl hk
  | cons kv rest ih =>
    obtain ⟨k1, v1⟩ := kv
    rw [List.foldl_cons] at hk
    rcases ih _ hk with h | ⟨v, hv, hcond⟩
    · unfold list_if_expired at h
      simp only at h
      by_cases hk1 : k = k1
      · subst hk1
        by_cases hin : k ∈ acc
        · exact Or.inl hin
        · right
          refine ⟨v1, List.mem_cons_self _ _, ?_⟩
          by_cases he : v1.status = EngineStatus.ERROR
          · exact Or.inr he
          · by_cases hs : hours_count (now - v1.last_update) > 1 ∧
                v1.status = EngineStatus.STOPPED
            · exact Or.inl hs
            · simp [he, hs] at h
              exact absurd h hin
      · left
        split_ifs at h <;> simp_all
    · exact Or.inr ⟨v, List.mem_cons_of_mem _ hv, hcond⟩

theorem find_of_mem {α : Type} (os : List (String × α)) (k : String) (v : α)
    (hnodup : (os.map Prod.fst).Nodup) (h : (k, v) ∈ os) : find os k = some v := by
  obtain ⟨p, hp⟩ := List.get?_of_mem h
  exact find_of_get os k v p hnodup hp

theorem start_writes (e : TradingEngineManager) (id : String) (a m : Bool) (now : Int)
    (w : EngineStatus × EngineStatus)
    (hw : w ∈ (start_trading_session_traced e id a m now).2.2) :
    ∃ s, find e.trading_sessions_ id = some s ∧ s.status ≠ EngineStatus.RUNNING ∧
      (w = (s.status, EngineStatus.STARTING) ∨
        w = (EngineStatus.STARTING, EngineStatus.ERROR) ∨
        w = (EngineStatus.STARTING, EngineStatus.RUNNING)) := by
  unfold start_trading_session_traced at hw
  cases hfind : find e.trading_sessions_ id with
  | none => simp [hfind] at hw
  | some s =>
    simp only [hfind] at hw
    by_cases hrun : s.status = EngineStatus.RUNNING
    · simp [hrun] at hw
    · refine ⟨s, rfl, hrun, ?_⟩
      simp only [hrun, if_false] at hw
      split_ifs at hw <;> simp at hw <;> rcases hw with h | h <;> simp [h]

theorem stop_writes (e : TradingEngineManager) (id : String) (now : Int)
    (w : EngineStatus × EngineStatus) (hw : w ∈ (stop_trading_session_traced e id now).2.2) :
    lifecycle_edge w.1 w.2 := by
  unfold stop_trading_session_traced at hw
  cases hfind : find e.trading_sessions_ id with
  | none => simp [hfind] at hw
  | some s =>
    simp only [hfind] at hw
    by_cases hrun : s.status = EngineStatus.RUNNING
    · simp [hrun] at hw
      rcases hw with h | h <;> rw [h] <;> decide
    · simp [hrun] at hw

theorem execute_writes (e : TradingEngineManager) (id : String) (run : SessionRun) (now : Int)
    (w : EngineStatus × EngineStatus)
    (hw : w ∈ (execute_trading_session_traced e id run now).2) : lifecycle_edge w.1 w.2 := by
  have herr : w.2 = EngineStatus.ERROR := by
    unfold execute_trading_session_traced at hw
    cases hfind : find e.trading_sessions_ id with
    | none => simp [hfind] at hw
    | some s =>
      simp only [hfind] at hw
      cases hsa : s.arbitrage_strategy.isSome <;> cases hsm : s.market_making_strategy.isSome <;>
        cases hra : run.arbitrage <;> cases hrm : run.market_making <;>
        simp [hsa, hsm, hra, hrm] at hw <;> rw [hw]
  exact Or.inr (Or.inr (Or.inr (Or.inr herr)))

theorem sweep_step_writes (e : TradingEngineManager) (id : String) (run : SessionRun)
    (now : Int) (w : EngineStatus × EngineStatus)
    (hw : w ∈ (sweep_step_traced e id run now).2) : lifecycle_edge w.1 w.2 := by
  unfold sweep_step_traced at hw
  simp only at hw
  split at hw
  · exact execute_writes e id run now w hw
  · split_ifs at hw
    · rcases List.mem_append.1 hw with h | h
      · exact execute_writes e id run now w h
      · exact stop_writes _ _ _ w h
    · rcases List.mem_append.1 hw with h | h
      · exact execute_writes e id run now w h
      · exact stop_writes _ _ _ w h
    · exact execute_writes e id run now w hw

theorem sweep_fold_writes (runs : String → SessionRun) (now : Int) (l : List Nat)
    (acc : TradingEngineManager × List (EngineStatus × EngineStatus))
    (hacc : ∀ w ∈ acc.2, lifecycle_edge w.1 w.2) :
    ∀ w ∈ (l.foldl (sweep_entry_traced runs now) acc).2, lifecycle_edge w.1 w.2 := by
  induction l generalizing acc with
  | nil => exact hacc
  | cons i rest ih =>
    rw [List.foldl_cons]
    apply ih
    intro w hw
    unfold sweep_entry_traced at hw
    cases hg : acc.1.trading_sessions_.get? i with
    | none =>
      simp only [hg] at hw
      exact hacc w hw
    | some kv =>
      obtain ⟨session_id, session⟩ := kv
      simp only [hg] at hw
      split_ifs at hw
      · rcases List.mem_append.1 hw with h | h
        · exact hacc w h
        · exact sweep_step_writes _ _ _ _ w h
      · exact hacc w hw

/-- C17, the claim as stated fails: a session whose start failed is in ERROR, and
`start_trading_session` on it assigns STARTING, then RUNNING. The assignment from ERROR to
STARTING is not an edge of the lifecycle state machine. -/
theorem start_from_error_leaves_lifecycle :
    Option.map TradingSession.status (get_session engine_failed_start "session_00000000")
        = some EngineStatus.ERROR ∧
      (start_trading_session_traced engine_failed_start "session_00000000" true true 5).2.2
        = [(EngineStatus.ERROR, EngineStatus.STARTING),
            (EngineStatus.STARTING, EngineStatus.RUNNING)] ∧
      ¬ lifecycle_edge EngineStatus.ERROR EngineStatus.STARTING := by
  refine ⟨rfl, rfl, by decide⟩

/-- C17 as amended: every status assignment made to a session by `stop_trading_session`, by the
execution of a session, by the body of the control loop and by the sweep of a whole round goes
along one of the edges STOPPED to STARTING, STARTING to RUNNING, RUNNING to STOPPING, STOPPING to
STOPPED, or X to ERROR. Those made by `start_trading_session` go along one of these edges or
from a status other than RUNNING to STARTING: the start is not reserved to STOPPED sessions, and
for a session that is STOPPED, RUNNING or ERROR before the call the one further edge is ERROR to
STARTING. -/
theorem status_assignments_follow_lifecycle (e : TradingEngineManager) (id : String)
    (arbitrage_healthy market_making_healthy : Bool) (run : SessionRun)
    (runs : String → SessionRun) (now : Int) :
    (∀ w ∈ (start_trading_session_traced e id arbitrage_healthy market_making_healthy now).2.2,
      lifecycle_edge w.1 w.2 ∨ (w.1 ≠ EngineStatus.RUNNING ∧ w.2 = EngineStatus.STARTING)) ∧
    (∀ s, get_session e id = some s →
      (s.status = EngineStatus.STOPPED ∨ s.status = EngineStatus.RUNNING ∨
        s.status = EngineStatus.ERROR) →
      ∀ w ∈ (start_trading_session_traced e id arbitrage_healthy market_making_healthy now).2.2,
        lifecycle_edge w.1 w.2 ∨ w = (EngineStatus.ERROR, EngineStatus.STARTING)) ∧
    (∀ w ∈ (stop_trading_session_traced e id now).2.2, lifecycle_edge w.1 w.2) ∧
    (∀ w ∈ (execute_trading_session_traced e id run now).2, lifecycle_edge w.1 w.2) ∧
    (∀ w ∈ (sweep_step_traced e id run now).2, lifecycle_edge w.1 w.2) ∧
    (∀ w ∈ (trading_loop_round_traced e runs now).2, lifecycle_edge w.1 w.2) := by
  refine ⟨?_, ?_, stop_writes e id now, execute_writes e id run now,
    sweep_step_writes e id run now, ?_⟩
  · intro w hw
    obtain ⟨s, _, hnot, h | h | h⟩ := start_writes e id _ _ now w hw
    · right
      rw [h]
      exact ⟨hnot, rfl⟩
    · left
      rw [h]
      decide
    · left
      rw [h]
      decide
  · intro s hfind hrest w hw
    unfold get_session at hfind
    obtain ⟨s2, hfind2, hnot, h | h | h⟩ := start_writes e id _ _ now w hw
    · rw [hfind] at hfind2
      cases hfind2
      rcases hrest with hs | hs | hs
      · left
        rw [h, hs]
        decide
      · exact absurd hs hnot
      · right
        rw [h, hs]
    · left
      rw [h]
      decide
    · left
      rw [h]
      decide
  · unfold trading_loop_round_traced
    simp only
    apply sweep_fold_writes
    intro w hw
    cases hw

theorem status_assignments_follow_lifecycle_witness :
    (get_session engine_failed_start "session_00000000"
          = some { session_stopped with status := EngineStatus.ERROR } ∧
        { session_stopped with status := EngineStatus.ERROR }.status = EngineStatus.ERROR) ∧
      ∀ w ∈ (start_trading_session_traced engine_failed_start "session_00000000" true true
          5).2.2,
        lifecycle_edge w.1 w.2 ∨ w = (EngineStatus.ERROR, EngineStatus.STARTING) :=
  have hf : get_session engine_failed_start "session_00000000"
      = some { session_stopped with status := EngineStatus.ERROR } := rfl
  ⟨⟨hf, rfl⟩,
    (status_assignments_follow_lifecycle engine_failed_start "session_00000000" true true
      run_gain (fun _ => run_gain) 5).2.1 _ hf (Or.inr (Or.inr rfl))⟩

/-! ## The sweep of expired orders -/

theorem find_append_of_not_mem {α : Type} (pre suf : List (String × α)) (k : String)
    (hk : k ∉ pre.map Prod.fst) : find (pre ++ suf) k = find suf k := by
  induction pre with
  | nil => rfl
  | cons kv rest ih =>
    obtain ⟨k1, v⟩ := kv
    simp only [List.map_cons, List.mem_cons, not_or] at hk
    have hne : ¬ k1 = k := fun e => hk.1 e.symm
    simp [find, hne, ih hk.2]

theorem modify_append_of_not_mem {α : Type} (pre suf : List (String × α)) (k : String)
    (f : α → α) (hk : k ∉ pre.map Prod.fst) :
    modify (pre ++ suf) k f = pre ++ modify suf k f := by
  induction pre with
  | nil => rfl
  | cons kv rest ih =>
    obtain ⟨k1, v⟩ := kv
    simp only [List.map_cons, List.mem_cons, not_or] at hk
    have hne : ¬ k1 = k := fun e => hk.1 e.symm
    simp [modify, hne, ih hk.2]

theorem cancel_order_at_entry (gw : Gateway) (now : Int) (pre rest : List (String × Order))
    (k : String) (o : Order) (past : List GwCall) (hk : k ∉ pre.map Prod.fst)
    (hsc : o.should_cancel now = true) :
    (cancel_order gw { orders_ := pre ++ (k, o) :: rest, requests := past } k now).2
      = if cancel_due now o then
          { orders_ := pre ++ (k, after_cancel_attempt gw now past o) :: rest
            requests := past ++ [cancel_request o] }
        else { orders_ := pre ++ (k, o) :: rest, requests := past } := by
  have hfind : find (pre ++ (k, o) :: rest) k = some o := by
    rw [find_append_of_not_mem _ _ _ hk]
    simp [find]
  have hact : ¬ (o.status ≠ OrderStatus.SUBMITTED ∧ o.status ≠ OrderStatus.PARTIAL) := by
    intro h
    simp [Order.should_cancel, h.1, h.2] at hsc
  have hexp : o.expires_at < now := by
    simp only [Order.should_cancel, Bool.and_eq_true, decide_eq_true_eq] at hsc
    exact hsc.2
  have hst : (o.status == OrderStatus.SUBMITTED || o.status == OrderStatus.PARTIAL) = true := by
    simp only [Order.should_cancel, Bool.and_eq_true] at hsc
    exact hsc.1
  unfold cancel_order
  simp only [hfind, hact, if_false]
  by_cases hemp : o.exchange_order_id.isEmpty = true
  · simp [hemp, cancel_due]
  · have hdue : cancel_due now o = true := by
      simp [cancel_due, hst, hexp, hemp]
    simp only [hemp, hdue, if_true, if_false]
    by_cases hok : gw.cancel_order past o.exchange o.user_id o.symbol o.exchange_order_id = true
    · simp [hok, after_cancel_attempt, cancel_request, modify_append_of_not_mem _ _ _ _ hk,
        modify]
    · simp [hok, after_cancel_attempt, cancel_request]

theorem cancel_due_should_cancel (now : Int) (o : Order) (h : o.should_cancel now = false) :
    cancel_due now o = false := by
  simp only [Order.should_cancel, gt_iff_lt] at h
  simp only [cancel_due]
  rw [h]
  rfl

theorem cancel_fold (gw : Gateway) (now : Int) (suf pre : List (String × Order))
    (past : List GwCall) (hnodup : ((pre ++ suf).map Prod.fst).Nodup) :
    ((suf.filter (fun kv => kv.2.should_cancel now)).map Prod.fst).foldl
        (fun acc order_id => (cancel_order gw acc order_id now).2)
        { orders_ := pre ++ suf, requests := past }
      = { orders_ := pre ++ (expired_sweep gw now suf past).1
          requests := (expired_sweep gw now suf past).2 } := by
  induction suf generalizing pre past with
  | nil => simp [expired_sweep]
  | cons kv rest ih =>
    obtain ⟨k, o⟩ := kv
    have hk : k ∉ pre.map Prod.fst := by
      intro hmem
      rw [List.map_append, List.map_cons] at hnodup
      exact (List.nodup_append.1 hnodup).2.2 hmem (List.mem_cons_self _ _)
    have hnext : ∀ o2 : Order, (((pre ++ [(k, o2)]) ++ rest).map Prod.fst).Nodup := by
      intro o2
      simpa using hnodup
    have hassoc : ∀ (o2 : Order) (tail : List (String × Order)),
        pre ++ (k, o2) :: tail = (pre ++ [(k, o2)]) ++ tail := by
      intro o2 tail
      simp
    by_cases hsc : o.should_cancel now = true
    · simp only [List.filter_cons, hsc, if_true, List.map_cons, List.foldl_cons]
      rw [cancel_order_at_entry gw now pre rest k o past hk hsc]
      by_cases hdue : cancel_due now o = true
      · simp only [hdue, if_true, expired_sweep]
        rw [hassoc, ih _ _ (hnext _)]
        simp
      · have hdue2 : cancel_due now o = false := by simpa using hdue
        simp only [hdue2, expired_sweep, Bool.false_eq_true, if_false]
        rw [hassoc, ih _ _ (hnext _)]
        simp
    · have hsc2 : o.should_cancel now = false := by simpa using hsc
      have hdue : cancel_due now o = false := cancel_due_should_cancel now o hsc2
      simp only [List.filter_cons, hsc2, expired_sweep, hdue]
      simp only [Bool.false_eq_true, if_false]
      rw [hassoc, ih _ _ (hnext _)]
      simp

theorem cancel_expired_orders_eq_sweep (gw : Gateway) (m : OrderManager) (now : Int)
    (hnodup : (m.orders_.map Prod.fst).Nodup) :
    cancel_expired_orders gw m now
      = { orders_ := (expired_sweep gw now m.orders_ m.requests).1
          requests := (expired_sweep gw now m.orders_ m.requests).2 } := by
  have h := cancel_fold gw now m.orders_ [] m.requests (by simpa using hnodup)
  simpa [cancel_expired_orders] using h

theorem expired_sweep_requests (gw : Gateway) (now : Int) (os : List (String × Order))
    (past : List GwCall) :
    (expired_sweep gw now os past).2
      = past ++ (os.filter (fun kv => cancel_due now kv.2)).map (fun kv => cancel_request kv.2)
      := by
  induction os generalizing past with
  | nil => simp [expired_sweep]
  | cons kv rest ih =>
    obtain ⟨k, o⟩ := kv
    by_cases hdue : cancel_due now o = true
    · simp [expired_sweep, hdue, ih, List.filter_cons]
    · have hdue2 : cancel_due now o = false := by simpa using hdue
      simp [expired_sweep, hdue2, ih, List.filter_cons]

theorem expired_sweep_keys (gw : Gateway) (now : Int) (os : List (String × Order))
    (past : List GwCall) :
    (expired_sweep gw now os past).1.map Prod.fst = os.map Prod.fst := by
  induction os generalizing past with
  | nil => simp [expired_sweep]
  | cons kv rest ih =>
    obtain ⟨k, o⟩ := kv
    by_cases hdue : cancel_due now o = true
    · simp [expired_sweep, hdue, ih]
    · have hdue2 : cancel_due now o = false := by simpa using hdue
      simp [expired_sweep, hdue2, ih]

theorem expired_sweep_append (gw : Gateway) (now : Int) (a b : List (String × Order))
    (past : List GwCall) :
    (expired_sweep gw now (a ++ b) past).1
      = (expired_sweep gw now a past).1
        ++ (expired_sweep gw now b (expired_sweep gw now a past).2).1 := by
  induction a generalizing past with
  | nil => simp [expired_sweep]
  | cons kv rest ih =>
    obtain ⟨k, o⟩ := kv
    by_cases hdue : cancel_due now o = true
    · simp [expired_sweep, hdue, ih]
    · have hdue2 : cancel_due now o = false := by simpa using hdue
      simp [expired_sweep, hdue2, ih]

theorem expired_sweep_entry (gw : Gateway) (now : Int) (pre post : List (String × Order))
    (k : String) (o : Order) (past : List GwCall)
    (hnodup : ((pre ++ (k, o) :: post).map Prod.fst).Nodup) :
    find (expired_sweep gw now (pre ++ (k, o) :: post) past).1 k
      = some (if cancel_due now o then
          after_cancel_attempt gw now
            (past ++ (pre.filter (fun kv => cancel_due now kv.2)).map
              (fun kv => cancel_request kv.2)) o
        else o) := by
  have hk : k ∉ pre.map Prod.fst := by
    intro hmem
    rw [List.map_append, List.map_cons] at hnodup
    exact (List.nodup_append.1 hnodup).2.2 hmem (List.mem_cons_self _ _)
  rw [expired_sweep_append, find_append_of_not_mem _ _ _ (by rw [expired_sweep_keys]; exact hk),
    expired_sweep_requests]
  by_cases hdue : cancel_due now o = true
  · simp [expired_sweep, hdue, find]
  · have hdue2 : cancel_due now o = false := by simpa using hdue
    simp [expired_sweep, hdue2, find]

/-- C18: `cancel_expired_orders` at time `now` on a registry with distinct keys, the gateway's
replies being a parameter. Every order that is SUBMITTED or PARTIAL with `expires_at < now` and a
non-empty exchange order id gets exactly one cancel attempt, in the order of the registry and
whatever became of the attempts before it; it becomes CANCELLED if the gateway reports success
and stays exactly as it was if the gateway reports failure. Every other order is unchanged, and
no key is added or removed. -/
theorem cancel_expired_orders_sweep (gw : Gateway) (m : OrderManager) (now : Int)
    (hnodup : (m.orders_.map Prod.fst).Nodup) :
    (cancel_expired_orders gw m now).requests
        = m.requests ++ (m.orders_.filter (fun kv => cancel_due now kv.2)).map
          (fun kv => cancel_request kv.2) ∧
    (cancel_expired_orders gw m now).orders_.map Prod.fst = m.orders_.map Prod.fst ∧
    (∀ pre k o post, m.orders_ = pre ++ (k, o) :: post →
      (cancel_due now o = true →
        (gw.cancel_order
            (m.requests ++ (pre.filter (fun kv => cancel_due now kv.2)).map
              (fun kv => cancel_request kv.2))
            o.exchange o.user_id o.symbol o.exchange_order_id = true →
          get_order (cancel_expired_orders gw m now) k
            = some { o with status := OrderStatus.CANCELLED, updated_at := now }) ∧
        (gw.cancel_order
            (m.requests ++ (pre.filter (fun kv => cancel_due now kv.2)).map
              (fun kv => cancel_request kv.2))
            o.exchange o.user_id o.symbol o.exchange_order_id = false →
          get_order (cancel_expired_orders gw m now) k = some o)) ∧
      (cancel_due now o = false → get_order (cancel_expired_orders gw m now) k = some o)) := by
  rw [cancel_expired_orders_eq_sweep gw m now hnodup]
  refine ⟨expired_sweep_requests _ _ _ _, expired_sweep_keys _ _ _ _, ?_⟩
  intro pre k o post hsplit
  have hentry := expired_sweep_entry gw now pre post k o m.requests (by rw [← hsplit]; exact hnodup)
  rw [← hsplit] at hentry
  unfold get_order
  simp only
  refine ⟨fun hdue => ⟨fun hok => ?_, fun hko => ?_⟩, fun hnot => ?_⟩
  · rw [hentry]
    simp [hdue, after_cancel_attempt, hok]
  · rw [hentry]
    simp [hdue, after_cancel_attempt, hko]
  · rw [hentry]
    simp [hnot]

theorem cancel_expired_orders_sweep_witness :
    ((ledger_expiring.orders_.map Prod.fst).Nodup ∧
        cancel_due 400000000000 sell_part = true ∧ cancel_due 400000000000 buy_open = true) ∧
      (cancel_expired_orders gw_first_cancel_fails ledger_expiring 400000000000).requests
        = [cancel_request sell_part, cancel_request buy_open] ∧
      get_order (cancel_expired_orders gw_first_cancel_fails ledger_expiring 400000000000) "o3"
        = some sell_part ∧
      get_order (cancel_expired_orders gw_first_cancel_fails ledger_expiring 400000000000) "o4"
        = some { buy_open with status := OrderStatus.CANCELLED, updated_at := 400000000000 } ∧
      get_order (cancel_expired_orders gw_first_cancel_fails ledger_expiring 400000000000) "o1"
        = some buy_filled :=
  have hn : (ledger_expiring.orders_.map Prod.fst).Nodup := by decide
  have h3 : cancel_due 400000000000 sell_part = true := by decide
  have h4 : cancel_due 400000000000 buy_open = true := by decide
  have h := cancel_expired_orders_sweep gw_first_cancel_fails ledger_expiring 400000000000 hn
  ⟨⟨hn, h3, h4⟩, h.1.trans (by decide),
    ((h.2.2 [("o1", buy_filled)] "o3" sell_part [("o4", buy_open)] rfl).1 h3).2 (by decide),
    ((h.2.2 [("o1", buy_filled), ("o3", sell_part)] "o4" buy_open [] rfl).1 h4).1 (by decide),
    (h.2.2 [] "o1" buy_filled [("o3", sell_part), ("o4", buy_open)] rfl).2 (by decide)⟩

/-! ## The balance check -/

/-- C19 (defect of the code): `check_balance` looks for the text `BTC`, then `ETH`, anywhere in
the symbol, not for the base currency. For a SELL of 1 on `ETH/BTC`, whose base currency is ETH,
with a successful balance reply showing no free ETH and 10 free BTC, the check compares the BTC
balance and approves the order. -/
theorem check_balance_sell_checks_quote_currency :
    base_currency "ETH/BTC" = "ETH" ∧ quote_currency "ETH/BTC" = "BTC" ∧
      (gw_btc_only.get_balance [] "binance" "u1").success = true ∧
      (gw_btc_only.get_balance [] "binance" "u1").eth_free = 0 ∧
      ¬ ((gw_btc_only.get_balance [] "binance" "u1").eth_free ≥ 1) ∧
      (check_balance gw_btc_only OrderManager.empty "binance" "u1" "ETH/BTC" OrderSide.SELL
        1 0).1 = true := by
  have hbtc : string_contains "ETH/BTC" "BTC" = true := by decide
  refine ⟨by decide, by decide, rfl, rfl, ?_, ?_⟩
  · norm_num [gw_btc_only]
  · simp only [check_balance, hbtc]
    norm_num [gw_btc_only, OrderManager.empty]

/-! ## The scheduler -/

theorem min_element_from_spec (full : List SchedulerTask) (rest : List SchedulerTask)
    (smallest index : Nat) (best : SchedulerTask)
    (hbest : full.get? smallest = some best) (hrest : full.drop index = rest)
    (hmin : ∀ u ∈ full.take index, best.nextRunTime ≤ u.nextRunTime) :
    ∃ t, full.get? (min_element_from smallest best index rest) = some t ∧
      ∀ u ∈ full, t.nextRunTime ≤ u.nextRunTime := by
  induction rest generalizing smallest index best with
  | nil =>
    refine ⟨best, hbest, ?_⟩
    intro u hu
    have hall : full.take index = full := by
      have := List.take_append_drop index full
      rw [hrest, List.append_nil] at this
      exact this
    rw [hall] at hmin
    exact hmin u hu
  | cons t rest ih =>
    have hget : full.get? index = some t := by
      rw [List.get?_eq_getElem?, ← List.head?_drop, hrest]
      rfl
    have hdrop : full.drop (index + 1) = rest := by
      rw [← List.drop_drop, hrest]
      rfl
    have htake : full.take (index + 1) = full.take index ++ [t] := by
      rw [List.take_succ, ← List.get?_eq_getElem?, hget]
      rfl
    unfold min_element_from
    by_cases hlt : t.nextRunTime < best.nextRunTime
    · rw [if_pos hlt]
      apply ih index (index + 1) t hget hdrop
      intro u hu
      rw [htake] at hu
      rcases List.mem_append.1 hu with h | h
      · exact le_trans (le_of_lt hlt) (hmin u h)
      · rw [List.mem_singleton.1 h]
    · rw [if_neg hlt]
      apply ih smallest (index + 1) best hbest hdrop
      intro u hu
      rw [htake] at hu
      rcases List.mem_append.1 hu with h | h
      · exact hmin u h
      · rw [List.mem_singleton.1 h]
        exact not_lt.1 hlt

theorem min_element_spec (tasks : List SchedulerTask) (i : Nat)
    (h : min_element tasks = some i) :
    ∃ t, tasks.get? i = some t ∧ ∀ u ∈ tasks, t.nextRunTime ≤ u.nextRunTime := by
  cases tasks with
  | nil => simp [min_element] at h
  | cons t rest =>
    simp only [min_element, Option.some.injEq] at h
    rw [← h]
    apply min_element_from_spec (t :: rest) rest 0 1 t rfl rfl
    intro u hu
    simp only [List.take_succ_cons, List.take_zero, List.mem_singleton] at hu
    rw [hu]

theorem run_step_dispatch (s : Scheduler) (now : Int) (i : Nat) (t : SchedulerTask)
    (h : (run_step s now).2 = some (i, t)) :
    s.tasks.get? i = some t ∧ now ≥ t.nextRunTime ∧
      (∀ u ∈ s.tasks, t.nextRunTime ≤ u.nextRunTime) ∧
      (run_step s now).1.tasks
        = s.tasks.set i { t with nextRunTime := now + milliseconds t.interval } := by
  unfold run_step at h ⊢
  by_cases hrun : s.running = true
  · by_cases hemp : s.tasks.isEmpty = true
    · simp [hrun, hemp] at h
    · cases hmin : min_element s.tasks with
      | none => simp [hrun, hemp, hmin] at h
      | some j =>
        obtain ⟨t2, hget, hleast⟩ := min_element_spec s.tasks j hmin
        have hget2 : s.tasks[j]? = some t2 := by
          rw [← List.get?_eq_getElem?]
          exact hget
        by_cases hdue : now ≥ t2.nextRunTime
        · simp only [hrun, hemp, hmin, hget, hdue, not_true_eq_false, if_true, if_false,
            Bool.false_eq_true, Option.some.injEq, Prod.mk.injEq] at h ⊢
          obtain ⟨hj, ht⟩ := h
          subst hj
          subst ht
          exact ⟨hget, hdue, hleast, rfl⟩
        · have hdue2 : ¬ t2.nextRunTime ≤ now := hdue
          simp [hrun, hemp, hmin, hget2, hdue2] at h
  · simp [hrun] at h

theorem run_step_idle (s : Scheduler) (now : Int) (h : (run_step s now).2 = none) :
    (run_step s now).1 = s := by
  unfold run_step at h ⊢
  by_cases hrun : s.running = true
  · by_cases hemp : s.tasks.isEmpty = true
    · simp [hrun, hemp]
    · cases hmin : min_element s.tasks with
      | none => simp [hrun, hemp, hmin]
      | some j =>
        cases hget : s.tasks[j]? with
        | none => simp [hrun, hemp, hmin, hget]
        | some t2 =>
          by_cases hdue : t2.nextRunTime ≤ now
          · simp [hrun, hemp, hmin, hget, hdue] at h
          · simp [hrun, hemp, hmin, hget, hdue]
  · simp [hrun]

theorem scheduler_event_keeps_task (s : Scheduler) (ev : SchedulerEvent) (i : Nat)
    (t : SchedulerTask) (hget : s.tasks.get? i = some t)
    (hearly : ∀ now, ev = SchedulerEvent.turn now → now < t.nextRunTime) :
    (scheduler_event s ev).1.tasks.get? i = some t ∧
      ∀ x ∈ (scheduler_event s ev).2.toList, x.1 ≠ i := by
  cases ev with
  | add task interval_ms now =>
    simp only [scheduler_event, addTask, Option.toList, List.not_mem_nil, false_implies,
      implies_true, and_true]
    rw [List.get?_eq_getElem?] at hget ⊢
    have hlt : i < s.tasks.length := by
      by_contra hge
      rw [List.getElem?_eq_none (Nat.le_of_not_lt hge)] at hget
      cases hget
    rw [List.getElem?_append_left hlt]
    exact hget
  | turn now =>
    have hnow := hearly now rfl
    simp only [scheduler_event]
    cases hd : (run_step s now).2 with
    | none =>
      rw [run_step_idle s now hd]
      exact ⟨hget, by simp [Option.toList]⟩
    | some x =>
      obtain ⟨j, next⟩ := x
      obtain ⟨hgetj, hdue, _, htasks⟩ := run_step_dispatch s now j next hd
      have hne : j ≠ i := by
        intro e
        subst e
        rw [hget] at hgetj
        cases hgetj
        exact absurd hdue (not_le.2 hnow)
      constructor
      · rw [htasks, List.get?_eq_getElem?, List.getElem?_set_ne hne, ← List.get?_eq_getElem?]
        exact hget
      · intro y hy
        simp only [Option.toList, List.mem_singleton] at hy
        rw [hy]
        exact hne

theorem scheduler_events_keep_task (evs : List SchedulerEvent) (s : Scheduler) (i : Nat)
    (t : SchedulerTask) (hget : s.tasks.get? i = some t)
    (hearly : ∀ now, SchedulerEvent.turn now ∈ evs → now < t.nextRunTime) :
    (scheduler_events s evs).1.tasks.get? i = some t ∧
      ∀ x ∈ (scheduler_events s evs).2, x.1 ≠ i := by
  induction evs generalizing s with
  | nil => exact ⟨hget, by simp [scheduler_events]⟩
  | cons ev rest ih =>
    obtain ⟨h1, h2⟩ := scheduler_event_keeps_task s ev i t hget
      (fun now e => hearly now (e ▸ List.mem_cons_self _ _))
    obtain ⟨h3, h4⟩ := ih (scheduler_event s ev).1 h1
      (fun now hm => hearly now (List.mem_cons_of_mem _ hm))
    simp only [scheduler_events]
    refine ⟨h3, ?_⟩
    intro x hx
    rcases List.mem_append.1 hx with h | h
    · exact h2 x h
    · exact h4 x h

/-- C21: the scheduler as a step function over an explicit clock. A task registered by `addTask`
at time `t` with interval `d` is appended with `nextRunTime = t + d`; through any sequence of
turns of the loop and further `addTask` calls in which every turn is taken at a time earlier than
`t + d`, the task is never dispatched and keeps its `nextRunTime`. A turn dispatches a task only
when the current time is `>=` that task's `nextRunTime` and no registered task has an earlier
`nextRunTime`. -/
theorem scheduler_first_firing (s : Scheduler) (task : Nat) (d t : Int)
    (evs : List SchedulerEvent)
    (hearly : ∀ now, SchedulerEvent.turn now ∈ evs → now < t + milliseconds d) :
    (addTask s task d t).tasks.get? s.tasks.length
        = some { taskFn := task, interval := d, nextRunTime := t + milliseconds d } ∧
      (∀ x ∈ (scheduler_events (addTask s task d t) evs).2, x.1 ≠ s.tasks.length) ∧
      (scheduler_events (addTask s task d t) evs).1.tasks.get? s.tasks.length
        = some { taskFn := task, interval := d, nextRunTime := t + milliseconds d } ∧
      (∀ (s2 : Scheduler) (now : Int) (i : Nat) (u : SchedulerTask),
        (run_step s2 now).2 = some (i, u) →
          s2.tasks.get? i = some u ∧ now ≥ u.nextRunTime ∧
            ∀ v ∈ s2.tasks, u.nextRunTime ≤ v.nextRunTime) := by
  have hget : (addTask s task d t).tasks.get? s.tasks.length
      = some { taskFn := task, interval := d, nextRunTime := t + milliseconds d } := by
    simp [addTask, List.get?_eq_getElem?]
  obtain ⟨h1, h2⟩ := scheduler_events_keep_task evs (addTask s task d t) s.tasks.length _ hget
    hearly
  refine ⟨hget, h2, h1, ?_⟩
  intro s2 now i u h
  obtain ⟨ha, hb, hc, _⟩ := run_step_dispatch s2 now i u h
  exact ⟨ha, hb, hc⟩

theorem scheduler_first_firing_witness :
    (∀ now, SchedulerEvent.turn now ∈
        [SchedulerEvent.turn 0, SchedulerEvent.add 8 10 20000000,
          SchedulerEvent.turn 30000000, SchedulerEvent.turn 99999999] →
        now < 0 + milliseconds 100) ∧
      (scheduler_events (addTask scheduler_idle 7 100 0)
        [SchedulerEvent.turn 0, SchedulerEvent.add 8 10 20000000,
          SchedulerEvent.turn 30000000, SchedulerEvent.turn 99999999]).1.tasks.get? 0
        = some { taskFn := 7, interval := 100, nextRunTime := 100000000 } ∧
      (∀ x ∈ (scheduler_events (addTask scheduler_idle 7 100 0)
        [SchedulerEvent.turn 0, SchedulerEvent.add 8 10 20000000,
          SchedulerEvent.turn 30000000, SchedulerEvent.turn 99999999]).2, x.1 ≠ 0) ∧
      (run_step scheduler_one_task 100000000).2
        = some (0, { taskFn := 7, interval := 100, nextRunTime := 100000000 }) :=
  have hearly : ∀ now, SchedulerEvent.turn now ∈
      [SchedulerEvent.turn 0, SchedulerEvent.add 8 10 20000000,
        SchedulerEvent.turn 30000000, SchedulerEvent.turn 99999999] →
      now < 0 + milliseconds 100 := by
    intro now h
    simp only [List.mem_cons, SchedulerEvent.turn.injEq, List.not_mem_nil, or_false] at h
    rcases h with h | h | h | h
    · rw [h]; decide
    · cases h
    · rw [h]; decide
    · rw [h]; decide
  have h := scheduler_first_firing scheduler_idle 7 100 0 _ hearly
  ⟨hearly, h.2.2.1, h.2.1, by decide⟩

/-- C27, the claim as stated fails: a task with an interval of 100 ms that is due at 100 ms and
is dispatched by a turn taken at 150 ms gets the `nextRunTime` 250 ms, the time of the turn plus
the interval, not 200 ms, its previous `nextRunTime` plus the interval. -/
theorem dispatch_reschedules_from_now :
    scheduler_one_task.tasks = [{ taskFn := 7, interval := 100, nextRunTime := 100000000 }] ∧
      (run_step scheduler_one_task 150000000).2
        = some (0, { taskFn := 7, interval := 100, nextRunTime := 100000000 }) ∧
      (run_step scheduler_one_task 150000000).1.tasks
        = [{ taskFn := 7, interval := 100, nextRunTime := 250000000 }] ∧
      (250000000 : Int) ≠ 100000000 + milliseconds 100 := by
  decide

/-- C27 as amended: when a turn of the loop at time `now` finds the earliest task due
(`now >= nextRunTime`) and dispatches it, the task's new `nextRunTime` is `now` plus its
interval (the previous `nextRunTime` plus the interval only when the turn is taken exactly at
`nextRunTime`); its interval and callable, and every other task, are unchanged. -/
theorem dispatch_sets_next_run_time (s : Scheduler) (now : Int) (i : Nat) (t : SchedulerTask)
    (hdispatch : (run_step s now).2 = some (i, t)) :
    s.tasks.get? i = some t ∧ now ≥ t.nextRunTime ∧
      (run_step s now).1.tasks.get? i
        = some { t with nextRunTime := now + milliseconds t.interval } ∧
      (now = t.nextRunTime →
        (run_step s now).1.tasks.get? i
          = some { t with nextRunTime := t.nextRunTime + milliseconds t.interval }) ∧
      (∀ j, j ≠ i → (run_step s now).1.tasks.get? j = s.tasks.get? j) ∧
      (run_step s now).1.tasks.length = s.tasks.length := by
  obtain ⟨hget, hdue, _, htasks⟩ := run_step_dispatch s now i t hdispatch
  have hlt : i < s.tasks.length := by
    rw [List.get?_eq_getElem?] at hget
    by_contra hge
    rw [List.getElem?_eq_none (Nat.le_of_not_lt hge)] at hget
    cases hget
  have hnew : (run_step s now).1.tasks.get? i
      = some { t with nextRunTime := now + milliseconds t.interval } := by
    rw [htasks, List.get?_eq_getElem?, List.getElem?_set_self hlt]
  refine ⟨hget, hdue, hnew, ?_, ?_, ?_⟩
  · intro hnow
    rw [hnew, hnow]
  · intro j hj
    rw [htasks, List.get?_eq_getElem?, List.getElem?_set_ne (Ne.symm hj),
      ← List.get?_eq_getElem?]
  · rw [htasks, List.length_set]

theorem dispatch_sets_next_run_time_witness :
    (run_step scheduler_one_task 150000000).2
        = some (0, { taskFn := 7, interval := 100, nextRunTime := 100000000 }) ∧
      (run_step scheduler_one_task 150000000).1.tasks.get? 0
        = some { taskFn := 7, interval := 100, nextRunTime := 150000000 + milliseconds 100 } :=
  have hd : (run_step scheduler_one_task 150000000).2
      = some (0, { taskFn := 7, interval := 100, nextRunTime := 100000000 }) := by decide
  ⟨hd, (dispatch_sets_next_run_time scheduler_one_task 150000000 0 _ hd).2.2.1⟩

/-! ## What the cleanup removes -/

theorem erase_keys_sublist {α : Type} (os : List (String × α)) (id : String) :
    ((erase os id).map Prod.fst).Sublist (os.map Prod.fst) := by
  induction os with
  | nil => exact List.Sublist.refl _
  | cons kv rest ih =>
    obtain ⟨k, v⟩ := kv
    by_cases h : k = id
    · simp only [erase, h, if_true, List.map_cons]
      exact List.sublist_cons_self _ _
    · simp only [erase, h, if_false, List.map_cons]
      exact List.Sublist.cons₂ _ ih

theorem remove_trading_session_nodup (e : TradingEngineManager) (id : String) (now : Int)
    (hnodup : (e.trading_sessions_.map Prod.fst).Nodup) :
    ((remove_trading_session e id now).2.trading_sessions_.map Prod.fst).Nodup := by
  unfold remove_trading_session
  cases find e.trading_sessions_ id with
  | none => exact hnodup
  | some session =>
    simp only
    split_ifs
    · apply List.Nodup.sublist (erase_keys_sublist _ _)
      have hk := stop_trading_session_keys e id now
      simp only [stop_trading_session]
      rw [hk]
      exact hnodup
    · exact List.Nodup.sublist (erase_keys_sublist _ _) hnodup

theorem remove_trading_session_gone (e : TradingEngineManager) (id : String) (now : Int)
    (hnodup : (e.trading_sessions_.map Prod.fst).Nodup) :
    find (remove_trading_session e id now).2.trading_sessions_ id = none := by
  unfold remove_trading_session
  cases hf : find e.trading_sessions_ id with
  | none => exact hf
  | some session =>
    simp only
    split_ifs
    · apply find_erase_eq_none
      have hk := stop_trading_session_keys e id now
      simp only [stop_trading_session]
      rw [hk]
      exact hnodup
    · exact find_erase_eq_none _ _ hnodup

theorem remove_trading_session_stays_gone (e : TradingEngineManager) (id k : String) (now : Int)
    (hnone : find e.trading_sessions_ k = none) :
    find (remove_trading_session e id now).2.trading_sessions_ k = none := by
  by_cases hk : k = id
  · subst hk
    simp [remove_trading_session, hnone]
  · rw [remove_trading_session_other e id k now hk]
    exact hnone

theorem remove_fold_stays_gone (now : Int) (ids : List String) (k : String)
    (e : TradingEngineManager) (hnone : find e.trading_sessions_ k = none) :
    find (ids.foldl (fun acc session_id => (remove_trading_session acc session_id now).2)
      e).trading_sessions_ k = none := by
  induction ids generalizing e with
  | nil => exact hnone
  | cons id rest ih =>
    rw [List.foldl_cons]
    exact ih _ (remove_trading_session_stays_gone e id k now hnone)

theorem remove_fold_gone (now : Int) (ids : List String) (k : String)
    (e : TradingEngineManager) (hnodup : (e.trading_sessions_.map Prod.fst).Nodup)
    (hk : k ∈ ids) :
    find (ids.foldl (fun acc session_id => (remove_trading_session acc session_id now).2)
      e).trading_sessions_ k = none := by
  induction ids generalizing e with
  | nil => cases hk
  | cons id rest ih =>
    rw [List.foldl_cons]
    by_cases hid : k = id
    · subst hid
      exact remove_fold_stays_gone now rest k _ (remove_trading_session_gone e k now hnodup)
    · rcases List.mem_cons.1 hk with h | h
      · exact absurd h hid
      · exact ih _ (remove_trading_session_nodup e id now hnodup) h

theorem listed_expired_of_mem (now : Int) (os : List (String × TradingSession))
    (acc : List String) (k : String) (v : TradingSession) (hmem : (k, v) ∈ os)
    (hcond : (hours_count (now - v.last_update) > 1 ∧ v.status = EngineStatus.STOPPED) ∨
      v.status = EngineStatus.ERROR) :
    k ∈ os.foldl (list_if_expired now) acc := by
  have hgrow : ∀ (l : List (String × TradingSession)) (a : List String) (x : String),
      x ∈ a → x ∈ l.foldl (list_if_expired now) a := by
    intro l
    induction l with
    | nil => intro a x hx; exact hx
    | cons kv rest ih =>
      intro a x hx
      rw [List.foldl_cons]
      apply ih
      unfold list_if_expired
      simp only
      split_ifs <;> simp [hx]
  induction os generalizing acc with
  | nil => cases hmem
  | cons kv rest ih =>
    rw [List.foldl_cons]
    rcases List.mem_cons.1 hmem with h | h
    · apply hgrow
      rw [← h]
      unfold list_if_expired
      simp only
      rcases hcond with ⟨hh, hs⟩ | he
      · have hne : ¬ v.status = EngineStatus.ERROR := by rw [hs]; decide
        simp [hh, hs]
      · split_ifs <;> simp
    · exact ih _ h

theorem hours_count_small (d : Int) (h : d < 2 * (3600 * ticks_per_second)) :
    ¬ hours_count d > 1 := by
  unfold hours_count
  have hpos : (0 : Int) < 3600 * ticks_per_second := by decide
  intro hgt
  have h2 : (2 : Int) ≤ Int.tdiv d (3600 * ticks_per_second) := hgt
  by_cases hd : 0 ≤ d
  · rw [Int.tdiv_eq_ediv hd (le_of_lt hpos)] at h2
    have := Int.ediv_lt_of_lt_mul hpos h
    omega
  · have hneg : 0 ≤ -d := by omega
    have h3 := Int.tdiv_nonneg hneg (le_of_lt hpos)
    rw [Int.neg_tdiv] at h3
    omega

theorem mem_of_find {α : Type} (os : List (String × α)) (k : String) (v : α)
    (h : find os k = some v) : (k, v) ∈ os := by
  obtain ⟨p, hp⟩ := get_of_find os k v h
  exact List.get?_mem hp

/-- C26: `cleanup_expired_sessions` at time `now`, on a registry with distinct keys, removes
exactly the sessions that are in ERROR or that are STOPPED with more than one whole hour elapsed
since `last_update`, and leaves every other session unchanged. After the cleanup no session of
the registry is in ERROR, and a STOPPED session idle for less than two hours is kept. -/
theorem cleanup_removes_exactly (e : TradingEngineManager) (now : Int)
    (hnodup : (e.trading_sessions_.map Prod.fst).Nodup) :
    (∀ k s, get_session e k = some s →
      ((s.status = EngineStatus.ERROR ∨
          (s.status = EngineStatus.STOPPED ∧ hours_count (now - s.last_update) > 1)) →
        get_session (cleanup_expired_sessions e now) k = none) ∧
      (¬ (s.status = EngineStatus.ERROR ∨
          (s.status = EngineStatus.STOPPED ∧ hours_count (now - s.last_update) > 1)) →
        get_session (cleanup_expired_sessions e now) k = some s)) ∧
    (∀ k, get_session e k = none → get_session (cleanup_expired_sessions e now) k = none) ∧
    (∀ k s, get_session (cleanup_expired_sessions e now) k = some s →
      s.status ≠ EngineStatus.ERROR) ∧
    (∀ k s, get_session e k = some s → s.status = EngineStatus.STOPPED →
      now - s.last_update < 2 * (3600 * ticks_per_second) →
      get_session (cleanup_expired_sessions e now) k = some s) := by
  unfold get_session
  have hremoved : ∀ k s, find e.trading_sessions_ k = some s →
      (s.status = EngineStatus.ERROR ∨
        (s.status = EngineStatus.STOPPED ∧ hours_count (now - s.last_update) > 1)) →
      find (cleanup_expired_sessions e now).trading_sessions_ k = none := by
    intro k s hfind hcond
    unfold cleanup_expired_sessions
    simp only
    apply remove_fold_gone now _ k e hnodup
    apply listed_expired_of_mem now _ [] k s (mem_of_find _ _ _ hfind)
    rcases hcond with he | ⟨hs, hh⟩
    · exact Or.inr he
    · exact Or.inl ⟨hh, hs⟩
  have hkept : ∀ k s, find e.trading_sessions_ k = some s →
      ¬ (s.status = EngineStatus.ERROR ∨
        (s.status = EngineStatus.STOPPED ∧ hours_count (now - s.last_update) > 1)) →
      find (cleanup_expired_sessions e now).trading_sessions_ k = some s := by
    intro k s hfind hcond
    unfold cleanup_expired_sessions
    simp only
    rw [remove_fold_other now _ k e, hfind]
    intro hmem
    rcases mem_listed_expired now _ [] k hmem with h | ⟨v, hv, hc⟩
    · cases h
    · have hvs : v = s := by
        have h1 := find_of_mem _ _ _ hnodup hv
        rw [hfind] at h1
        exact (Option.some.inj h1).symm
      subst hvs
      apply hcond
      rcases hc with ⟨hh, hs⟩ | he
      · exact Or.inr ⟨hs, hh⟩
      · exact Or.inl he
  have hnone : ∀ k, find e.trading_sessions_ k = none →
      find (cleanup_expired_sessions e now).trading_sessions_ k = none := by
    intro k hk
    unfold cleanup_expired_sessions
    simp only
    exact remove_fold_stays_gone now _ k e hk
  refine ⟨fun k s hfind => ⟨hremoved k s hfind, hkept k s hfind⟩, hnone, ?_, ?_⟩
  · intro k s hafter herr
    cases hbefore : find e.trading_sessions_ k with
    | none =>
      rw [hnone k hbefore] at hafter
      cases hafter
    | some s0 =>
      by_cases hcond : s0.status = EngineStatus.ERROR ∨
          (s0.status = EngineStatus.STOPPED ∧ hours_count (now - s0.last_update) > 1)
      · rw [hremoved k s0 hbefore hcond] at hafter
        cases hafter
      · rw [hkept k s0 hbefore hcond] at hafter
        cases hafter
        exact hcond (Or.inl herr)
  · intro k s hfind hs hidle
    apply hkept k s hfind
    rintro (he | ⟨_, hh⟩)
    · rw [hs] at he
      cases he
    · exact hours_count_small _ hidle hh

theorem cleanup_removes_exactly_witness :
    ((engine_to_clean.trading_sessions_.map Prod.fst).Nodup ∧
        get_session engine_to_clean "session_error" = some session_error ∧
        get_session engine_to_clean "session_stale" = some session_stale ∧
        get_session engine_to_clean "session_recent" = some session_recent) ∧
      get_session (cleanup_expired_sessions engine_to_clean 10800000000000) "session_error"
        = none ∧
      get_session (cleanup_expired_sessions engine_to_clean 10800000000000) "session_stale"
        = none ∧
      get_session (cleanup_expired_sessions engine_to_clean 10800000000000) "session_recent"
        = some session_recent :=
  have hn : (engine_to_clean.trading_sessions_.map Prod.fst).Nodup := by decide
  have h := cleanup_removes_exactly engine_to_clean 10800000000000 hn
  ⟨⟨hn, rfl, rfl, rfl⟩,
    (h.1 "session_error" session_error rfl).1 (Or.inl rfl),
    (h.1 "session_stale" session_stale rfl).1 (Or.inr ⟨rfl, by decide⟩),
    h.2.2.2 "session_recent" session_recent rfl rfl (by decide)⟩

/-! ## The turn of a session in the sweep -/

theorem sweep_step_failed (e : TradingEngineManager) (id : String) (run : SessionRun)
    (now : Int) (s : TradingSession) (hfind : find e.trading_sessions_ id = some s)
    (hstatus : s.status = EngineStatus.RUNNING) (hrun : ¬ runs_without_error s run) :
    find (sweep_step e id run now).trading_sessions_ id = some (turn_session s run now) := by
  unfold turn_session
  rw [if_pos hstatus, if_neg hrun]
  unfold runs_without_error at hrun
  unfold sweep_step sweep_step_traced execute_trading_session_traced
  cases hsa : s.arbitrage_strategy <;> cases hsm : s.market_making_strategy <;>
    cases hra : run.arbitrage <;> cases hrm : run.market_making <;>
    simp_all [record_strategy_result, update_session_stats, find_modify_eq, recorded_session,
      stop_trading_session_traced]

theorem sweep_step_turn (e : TradingEngineManager) (id : String) (run : SessionRun)
    (now : Int) (s : TradingSession) (hfind : find e.trading_sessions_ id = some s)
    (hstatus : s.status = EngineStatus.RUNNING) :
    find (sweep_step e id run now).trading_sessions_ id = some (turn_session s run now) := by
  by_cases hrun : runs_without_error s run
  · rw [sweep_step_session e id run now s hfind hstatus hrun]
    unfold turn_session
    rw [if_pos hstatus, if_pos hrun]
  · exact sweep_step_failed e id run now s hfind hstatus hrun

theorem sweep_entry_turn (runs : String → SessionRun) (now : Int)
    (acc : TradingEngineManager × List (EngineStatus × EngineStatus)) (p : Nat) (k : String)
    (s : TradingSession) (hnodup : (acc.1.trading_sessions_.map Prod.fst).Nodup)
    (hp : (acc.1.trading_sessions_.map Prod.fst).get? p = some k)
    (hfind : find acc.1.trading_sessions_ k = some s) :
    find (sweep_entry_traced runs now acc p).1.trading_sessions_ k
      = some (turn_session s (runs k) now) := by
  obtain ⟨v, hv⟩ := get_of_key _ _ _ hp
  have hvs : v = s := by
    have h1 := find_of_get _ _ _ _ hnodup hv
    rw [hfind] at h1
    exact (Option.some.inj h1).symm
  subst hvs
  unfold sweep_entry_traced
  by_cases hstatus : v.status = EngineStatus.RUNNING
  · simp only [hv, hstatus, if_true]
    exact sweep_step_turn _ _ _ _ _ hfind hstatus
  · simp only [hv, hstatus, if_false]
    unfold turn_session
    rw [if_neg hstatus]
    exact hfind

theorem sweep_fold_turn (runs : String → SessionRun) (now : Int) (l : List Nat) (p : Nat)
    (k : String) (s : TradingSession)
    (acc : TradingEngineManager × List (EngineStatus × EngineStatus))
    (hnodup : (acc.1.trading_sessions_.map Prod.fst).Nodup)
    (hp : (acc.1.trading_sessions_.map Prod.fst).get? p = some k)
    (hfind : find acc.1.trading_sessions_ k = some s)
    (hl : l.Nodup) (hmem : p ∈ l) :
    find (l.foldl (sweep_entry_traced runs now) acc).1.trading_sessions_ k
      = some (turn_session s (runs k) now) := by
  induction l generalizing acc with
  | nil => cases hmem
  | cons i rest ih =>
    simp only [List.nodup_cons] at hl
    rw [List.foldl_cons]
    by_cases hi : i = p
    · subst hi
      rw [sweep_fold_other runs now rest i k _ (by rw [sweep_entry_keys]; exact hnodup)
        (by rw [sweep_entry_keys]; exact hp) hl.1]
      exact sweep_entry_turn runs now acc i k s hnodup hp hfind
    · have hmem2 : p ∈ rest := by
        rcases List.mem_cons.1 hmem with h | h
        · exact absurd h.symm hi
        · exact h
      apply ih _ (by rw [sweep_entry_keys]; exact hnodup) (by rw [sweep_entry_keys]; exact hp)
        _ hl.2 hmem2
      rw [sweep_entry_other runs now acc i p k hnodup hp hi]
      exact hfind

theorem index_of_find {α : Type} (os : List (String × α)) (k : String) (v : α)
    (h : find os k = some v) :
    ∃ p, p < os.length ∧ (os.map Prod.fst).get? p = some k := by
  obtain ⟨p, hp⟩ := get_of_find os k v h
  refine ⟨p, ?_, key_of_get _ _ _ _ hp⟩
  rw [List.get?_eq_getElem?] at hp
  by_contra hge
  rw [List.getElem?_eq_none (Nat.le_of_not_lt hge)] at hp
  cases hp

theorem trading_loop_sweep_session (e : TradingEngineManager) (runs : String → SessionRun)
    (now : Int) (k : String) (s : TradingSession)
    (hnodup : (e.trading_sessions_.map Prod.fst).Nodup)
    (hfind : find e.trading_sessions_ k = some s) :
    find (trading_loop_sweep e runs now).trading_sessions_ k
      = some (turn_session s (runs k) now) := by
  obtain ⟨p, hlt, hp⟩ := index_of_find _ _ _ hfind
  exact sweep_fold_turn runs now (List.range e.trading_sessions_.length) p k s (e, [])
    hnodup hp hfind (List.nodup_range _) (List.mem_range.2 hlt)

theorem not_mem_keys_of_find_none {α : Type} (os : List (String × α)) (k : String)
    (h : find os k = none) : k ∉ os.map Prod.fst := by
  induction os with
  | nil => simp
  | cons kv rest ih =>
    obtain ⟨k1, w⟩ := kv
    by_cases hk : k1 = k
    · simp [find, hk] at h
    · simp only [find, hk, if_false] at h
      simp only [List.map_cons, List.mem_cons, not_or]
      exact ⟨fun e => hk e.symm, ih h⟩

theorem trading_loop_sweep_absent (e : TradingEngineManager) (runs : String → SessionRun)
    (now : Int) (k : String) (hfind : find e.trading_sessions_ k = none) :
    find (trading_loop_sweep e runs now).trading_sessions_ k = none := by
  apply find_eq_none_of_not_mem_keys
  unfold trading_loop_sweep
  rw [sweep_fold_keys]
  exact not_mem_keys_of_find_none _ _ hfind

/-! ## The calls made in the sweep -/

theorem sweep_entry_calls_state (runs : String → SessionRun) (now : Int)
    (acc : TradingEngineManager × List (String × StrategyKind)) (i : Nat)
    (t : List (EngineStatus × EngineStatus)) :
    (sweep_entry_calls runs now acc i).1 = (sweep_entry_traced runs now (acc.1, t) i).1 := by
  unfold sweep_entry_calls sweep_entry_traced
  cases acc.1.trading_sessions_.get? i with
  | none => rfl
  | some kv =>
    obtain ⟨session_id, session⟩ := kv
    simp only
    split_ifs <;> rfl

theorem sweep_fold_calls_state (runs : String → SessionRun) (now : Int) (l : List Nat)
    (acc : TradingEngineManager × List (String × StrategyKind))
    (t : List (EngineStatus × EngineStatus)) :
    (l.foldl (sweep_entry_calls runs now) acc).1
      = (l.foldl (sweep_entry_traced runs now) (acc.1, t)).1 := by
  induction l generalizing acc t with
  | nil => rfl
  | cons i rest ih =>
    rw [List.foldl_cons, List.foldl_cons,
      ih _ (sweep_entry_traced runs now (acc.1, t) i).2, sweep_entry_calls_state runs now acc i t]

theorem sweep_entry_calls_other (runs : String → SessionRun) (now : Int)
    (acc : TradingEngineManager × List (String × StrategyKind)) (i p : Nat) (k : String)
    (hnodup : (acc.1.trading_sessions_.map Prod.fst).Nodup)
    (hp : (acc.1.trading_sessions_.map Prod.fst).get? p = some k) (hi : i ≠ p) :
    (sweep_entry_calls runs now acc i).2.filter (fun c => decide (c.1 = k))
      = acc.2.filter (fun c => decide (c.1 = k)) := by
  unfold sweep_entry_calls
  cases hg : acc.1.trading_sessions_.get? i with
  | none => rfl
  | some kv =>
    obtain ⟨session_id, session⟩ := kv
    simp only
    split_ifs
    · have hne : session_id ≠ k := by
        intro e
        subst e
        exact hi (index_unique _ session_id i p hnodup (key_of_get _ _ _ _ hg) hp)
      simp [List.filter_append, List.filter_map, hne]
    · rfl

theorem sweep_entry_calls_at (runs : String → SessionRun) (now : Int)
    (acc : TradingEngineManager × List (String × StrategyKind)) (p : Nat) (k : String)
    (s : TradingSession) (hnodup : (acc.1.trading_sessions_.map Prod.fst).Nodup)
    (hp : (acc.1.trading_sessions_.map Prod.fst).get? p = some k)
    (hfind : find acc.1.trading_sessions_ k = some s) :
    (sweep_entry_calls runs now acc p).2.filter (fun c => decide (c.1 = k))
      = acc.2.filter (fun c => decide (c.1 = k))
        ++ (if s.status = EngineStatus.RUNNING then
              (strategy_calls s (runs k)).map (fun c => (k, c))
            else []) := by
  obtain ⟨v, hv⟩ := get_of_key _ _ _ hp
  have hvs : v = s := by
    have h1 := find_of_get _ _ _ _ hnodup hv
    rw [hfind] at h1
    exact (Option.some.inj h1).symm
  subst hvs
  unfold sweep_entry_calls
  simp only [hv]
  split_ifs
  · rw [List.filter_append, List.filter_map]
    congr 2
    apply List.filter_eq_self.2
    intro c _
    simp
  · simp

theorem sweep_fold_calls_other (runs : String → SessionRun) (now : Int) (l : List Nat)
    (p : Nat) (k : String) (acc : TradingEngineManager × List (String × StrategyKind))
    (hnodup : (acc.1.trading_sessions_.map Prod.fst).Nodup)
    (hp : (acc.1.trading_sessions_.map Prod.fst).get? p = some k) (hl : p ∉ l) :
    (l.foldl (sweep_entry_calls runs now) acc).2.filter (fun c => decide (c.1 = k))
      = acc.2.filter (fun c => decide (c.1 = k)) := by
  induction l generalizing acc with
  | nil => rfl
  | cons i rest ih =>
    simp only [List.mem_cons, not_or] at hl
    have hi : i ≠ p := fun e => hl.1 e.symm
    have hkeys : (sweep_entry_calls runs now acc i).1.trading_sessions_.map Prod.fst
        = acc.1.trading_sessions_.map Prod.fst := by
      rw [sweep_entry_calls_state runs now acc i []]
      exact sweep_entry_keys runs now (acc.1, []) i
    rw [List.foldl_cons, ih _ (by rw [hkeys]; exact hnodup) (by rw [hkeys]; exact hp) hl.2]
    exact sweep_entry_calls_other runs now acc i p k hnodup hp hi

theorem sweep_fold_calls_at (runs : String → SessionRun) (now : Int) (l : List Nat)
    (p : Nat) (k : String) (s : TradingSession)
    (acc : TradingEngineManager × List (String × StrategyKind))
    (hnodup : (acc.1.trading_sessions_.map Prod.fst).Nodup)
    (hp : (acc.1.trading_sessions_.map Prod.fst).get? p = some k)
    (hfind : find acc.1.trading_sessions_ k = some s)
    (hl : l.Nodup) (hmem : p ∈ l) :
    (l.foldl (sweep_entry_calls runs now) acc).2.filter (fun c => decide (c.1 = k))
      = acc.2.filter (fun c => decide (c.1 = k))
        ++ (if s.status = EngineStatus.RUNNING then
              (strategy_calls s (runs k)).map (fun c => (k, c))
            else []) := by
  induction l generalizing acc with
  | nil => cases hmem
  | cons i rest ih =>
    simp only [List.nodup_cons] at hl
    have hkeys : (sweep_entry_calls runs now acc i).1.trading_sessions_.map Prod.fst
        = acc.1.trading_sessions_.map Prod.fst := by
      rw [sweep_entry_calls_state runs now acc i []]
      exact sweep_entry_keys runs now (acc.1, []) i
    rw [List.foldl_cons]
    by_cases hi : i = p
    · subst hi
      rw [sweep_fold_calls_other runs now rest i k _ (by rw [hkeys]; exact hnodup)
        (by rw [hkeys]; exact hp) hl.1]
      exact sweep_entry_calls_at runs now acc i k s hnodup hp hfind
    · have hmem2 : p ∈ rest := by
        rcases List.mem_cons.1 hmem with h | h
        · exact absurd h.symm hi
        · exact h
      rw [ih _ (by rw [hkeys]; exact hnodup) (by rw [hkeys]; exact hp) _ hl.2 hmem2,
        sweep_entry_calls_other runs now acc i p k hnodup hp hi]
      rw [sweep_entry_calls_state runs now acc i []]
      rw [sweep_entry_other runs now (acc.1, []) i p k hnodup hp hi]
      exact hfind

theorem trading_loop_sweep_calls_of (e : TradingEngineManager) (runs : String → SessionRun)
    (now : Int) (k : String) (s : TradingSession)
    (hnodup : (e.trading_sessions_.map Prod.fst).Nodup)
    (hfind : find e.trading_sessions_ k = some s) :
    (trading_loop_sweep_calls e runs now).filter (fun c => decide (c.1 = k))
      = if s.status = EngineStatus.RUNNING then
          (strategy_calls s (runs k)).map (fun c => (k, c))
        else [] := by
  obtain ⟨p, hlt, hp⟩ := index_of_find _ _ _ hfind
  have h := sweep_fold_calls_at runs now (List.range e.trading_sessions_.length) p k s (e, [])
    hnodup hp hfind (List.nodup_range _) (List.mem_range.2 hlt)
  unfold trading_loop_sweep_calls
  rw [h]
  rfl

/-! ## The totals of the engine in the sweep -/

theorem stop_trading_session_totals (e : TradingEngineManager) (id : String) (now : Int) :
    (stop_trading_session_traced e id now).2.1.stats_.total_profit_generated
        = e.stats_.total_profit_generated ∧
      (stop_trading_session_traced e id now).2.1.stats_.total_trades_executed
        = e.stats_.total_trades_executed := by
  unfold stop_trading_session_traced
  cases find e.trading_sessions_ id with
  | none => exact ⟨rfl, rfl⟩
  | some session =>
    simp only
    split_ifs <;> exact ⟨rfl, rfl⟩

theorem execute_trading_session_totals (e : TradingEngineManager) (id : String)
    (run : SessionRun) (now : Int) (s : TradingSession)
    (hfind : find e.trading_sessions_ id = some s) (hrun : runs_without_error s run) :
    (execute_trading_session_traced e id run now).1.stats_.total_profit_generated
        = e.stats_.total_profit_generated + run_profit s run ∧
      (execute_trading_session_traced e id run now).1.stats_.total_trades_executed
        = e.stats_.total_trades_executed + run_trades s run := by
  obtain ⟨ha, hm⟩ := hrun
  unfold execute_trading_session_traced run_profit run_trades
  cases hsa : s.arbitrage_strategy <;> cases hsm : s.market_making_strategy <;>
    cases hra : run.arbitrage <;> cases hrm : run.market_making <;>
    simp_all [record_strategy_result, update_session_stats, add_assoc]

theorem sweep_step_totals (e : TradingEngineManager) (id : String) (run : SessionRun)
    (now : Int) (s : TradingSession) (hfind : find e.trading_sessions_ id = some s)
    (hrun : runs_without_error s run) :
    (sweep_step e id run now).stats_.total_profit_generated
        = e.stats_.total_profit_generated + run_profit s run ∧
      (sweep_step e id run now).stats_.total_trades_executed
        = e.stats_.total_trades_executed + run_trades s run := by
  obtain ⟨hp, ht⟩ := execute_trading_session_totals e id run now s hfind hrun
  unfold sweep_step sweep_step_traced
  simp only
  split
  · exact ⟨hp, ht⟩
  · split_ifs
    · rw [(stop_trading_session_totals _ id now).1, (stop_trading_session_totals _ id now).2]
      exact ⟨hp, ht⟩
    · rw [(stop_trading_session_totals _ id now).1, (stop_trading_session_totals _ id now).2]
      exact ⟨hp, ht⟩
    · exact ⟨hp, ht⟩

theorem sweep_entry_get_other (runs : String → SessionRun) (now : Int)
    (acc : TradingEngineManager × List (EngineStatus × EngineStatus)) (i j : Nat)
    (hnodup : (acc.1.trading_sessions_.map Prod.fst).Nodup) (hij : i ≠ j) :
    (sweep_entry_traced runs now acc i).1.trading_sessions_.get? j
      = acc.1.trading_sessions_.get? j := by
  have hkeys := sweep_entry_keys runs now acc i
  cases hg : acc.1.trading_sessions_.get? j with
  | none =>
    rw [List.get?_eq_none] at hg ⊢
    have hlen := congrArg List.length hkeys
    simp only [List.length_map] at hlen
    omega
  | some kv =>
    obtain ⟨k, v⟩ := kv
    have hk := key_of_get _ _ _ _ hg
    obtain ⟨w, hw⟩ := get_of_key (sweep_entry_traced runs now acc i).1.trading_sessions_ k j
      (by rw [hkeys]; exact hk)
    have h1 := find_of_get _ _ _ _ (by rw [hkeys]; exact hnodup) hw
    rw [sweep_entry_other runs now acc i j k hnodup hk hij,
      find_of_get _ _ _ _ hnodup hg] at h1
    rw [hw, Option.some.inj h1]

theorem sweep_entry_totals (runs : String → SessionRun) (now : Int)
    (acc : TradingEngineManager × List (EngineStatus × EngineStatus)) (i : Nat)
    (hnodup : (acc.1.trading_sessions_.map Prod.fst).Nodup)
    (hruns : ∀ k s, acc.1.trading_sessions_.get? i = some (k, s) →
      s.status = EngineStatus.RUNNING → runs_without_error s (runs k)) :
    (sweep_entry_traced runs now acc i).1.stats_.total_profit_generated
        = acc.1.stats_.total_profit_generated
          + ((acc.1.trading_sessions_.get? i).map (entry_profit runs)).getD 0 ∧
      (sweep_entry_traced runs now acc i).1.stats_.total_trades_executed
        = acc.1.stats_.total_trades_executed
          + ((acc.1.trading_sessions_.get? i).map (entry_trades runs)).getD 0 := by
  unfold sweep_entry_traced
  cases hg : acc.1.trading_sessions_.get? i with
  | none => simp
  | some kv =>
    obtain ⟨k, s⟩ := kv
    by_cases hstatus : s.status = EngineStatus.RUNNING
    · simp only [hstatus, if_true, Option.map_some', Option.getD_some, entry_profit,
        entry_trades]
      exact sweep_step_totals acc.1 k (runs k) now s (find_of_get _ _ _ _ hnodup hg)
        (hruns k s hg hstatus)
    · simp [hstatus, entry_profit, entry_trades]

theorem sweep_fold_totals (runs : String → SessionRun) (now : Int) (l : List Nat)
    (acc : TradingEngineManager × List (EngineStatus × EngineStatus))
    (hnodup : (acc.1.trading_sessions_.map Prod.fst).Nodup) (hl : l.Nodup)
    (hruns : ∀ i ∈ l, ∀ k s, acc.1.trading_sessions_.get? i = some (k, s) →
      s.status = EngineStatus.RUNNING → runs_without_error s (runs k)) :
    (l.foldl (sweep_entry_traced runs now) acc).1.stats_.total_profit_generated
        = acc.1.stats_.total_profit_generated
          + (l.map (fun i =>
              ((acc.1.trading_sessions_.get? i).map (entry_profit runs)).getD 0)).sum ∧
      (l.foldl (sweep_entry_traced runs now) acc).1.stats_.total_trades_executed
        = acc.1.stats_.total_trades_executed
          + (l.map (fun i =>
              ((acc.1.trading_sessions_.get? i).map (entry_trades runs)).getD 0)).sum := by
  induction l generalizing acc with
  | nil => simp
  | cons i rest ih =>
    simp only [List.nodup_cons] at hl
    have hne : ∀ j ∈ rest, i ≠ j := fun j hj e => hl.1 (e ▸ hj)
    obtain ⟨hp, ht⟩ := sweep_entry_totals runs now acc i hnodup
      (hruns i (List.mem_cons_self _ _))
    obtain ⟨hp2, ht2⟩ := ih (sweep_entry_traced runs now acc i)
      (by rw [sweep_entry_keys]; exact hnodup) hl.2
      (fun j hj k s hg => hruns j (List.mem_cons_of_mem _ hj) k s
        (by rw [← sweep_entry_get_other runs now acc i j hnodup (hne j hj)]; exact hg))
    have hsum_p : (rest.map (fun j =>
          (((sweep_entry_traced runs now acc i).1.trading_sessions_.get? j).map
            (entry_profit runs)).getD 0))
        = rest.map (fun j =>
          ((acc.1.trading_sessions_.get? j).map (entry_profit runs)).getD 0) :=
      List.map_congr_left (fun j hj => by
        rw [sweep_entry_get_other runs now acc i j hnodup (hne j hj)])
    have hsum_t : (rest.map (fun j =>
          (((sweep_entry_traced runs now acc i).1.trading_sessions_.get? j).map
            (entry_trades runs)).getD 0))
        = rest.map (fun j =>
          ((acc.1.trading_sessions_.get? j).map (entry_trades runs)).getD 0) :=
      List.map_congr_left (fun j hj => by
        rw [sweep_entry_get_other runs now acc i j hnodup (hne j hj)])
    rw [List.foldl_cons, hp2, ht2, hsum_p, hsum_t, hp, ht]
    simp only [List.map_cons, List.sum_cons]
    constructor <;> ring

theorem range_map_get {α β : Type} [AddMonoid β] (os : List α) (f : α → β) :
    (List.range os.length).map (fun i => ((os.get? i).map f).getD 0) = os.map f := by
  apply List.ext_getElem?
  intro n
  by_cases hn : n < os.length
  · simp [List.getElem?_map, List.getElem?_range, hn, List.getElem?_eq_getElem hn]
  · have hle : os.length ≤ n := Nat.le_of_not_lt hn
    simp [List.getElem?_map, List.getElem?_eq_none hle, hle]

theorem trading_loop_sweep_totals (e : TradingEngineManager) (runs : String → SessionRun)
    (now : Int) (hnodup : (e.trading_sessions_.map Prod.fst).Nodup)
    (hruns : ∀ k s, find e.trading_sessions_ k = some s → s.status = EngineStatus.RUNNING →
      runs_without_error s (runs k)) :
    (trading_loop_sweep e runs now).stats_.total_profit_generated
        = e.stats_.total_profit_generated + (e.trading_sessions_.map (entry_profit runs)).sum ∧
      (trading_loop_sweep e runs now).stats_.total_trades_executed
        = e.stats_.total_trades_executed + (e.trading_sessions_.map (entry_trades runs)).sum := by
  have h := sweep_fold_totals runs now (List.range e.trading_sessions_.length) (e, []) hnodup
    (List.nodup_range _)
    (fun i _ k s hg hs => hruns k s (find_of_get _ _ _ _ hnodup hg) hs)
  simp only [range_map_get] at h
  exact h

/-! ## Claims on the sweep -/

theorem swept_session_record (s : TradingSession) (run : SessionRun) (now : Int)
    (hrun : runs_without_error s run) :
    (swept_session s run now).total_profit = s.total_profit + run_profit s run ∧
      (swept_session s run now).executed_trades = s.executed_trades + run_trades s run ∧
      (swept_session s run now).log = s.log ++ run_log_lines s run now := by
  obtain ⟨ha, hm⟩ := hrun
  unfold swept_session executed_session run_profit run_trades run_log_lines recorded_session
    stamped_lines
  cases hsa : s.arbitrage_strategy <;> cases hsm : s.market_making_strategy <;>
    cases hra : run.arbitrage <;> cases hrm : run.market_making <;>
    simp_all <;> split_ifs <;> simp [add_assoc]

theorem turn_session_log (s : TradingSession) (run : SessionRun) (now : Int) :
    s.log <+: (turn_session s run now).log := by
  unfold turn_session swept_session executed_session recorded_session
  cases hsa : s.arbitrage_strategy <;> cases hsm : s.market_making_strategy <;>
    cases hra : run.arbitrage <;> cases hrm : run.market_making <;>
    simp only [] <;> split_ifs <;> simp [List.append_assoc]

theorem cleanup_session (e : TradingEngineManager) (now : Int) (k : String)
    (hnodup : (e.trading_sessions_.map Prod.fst).Nodup) :
    find (cleanup_expired_sessions e now).trading_sessions_ k
      = (find e.trading_sessions_ k).bind (fun s =>
          if s.status = EngineStatus.ERROR ∨
              (s.status = EngineStatus.STOPPED ∧ hours_count (now - s.last_update) > 1) then
            none
          else some s) := by
  unfold cleanup_expired_sessions
  simp only
  cases hfind : find e.trading_sessions_ k with
  | none =>
    rw [Option.none_bind]
    exact remove_fold_stays_gone now _ k e hfind
  | some s =>
    rw [Option.some_bind]
    split_ifs with hcond
    · apply remove_fold_gone now _ k e hnodup
      apply listed_expired_of_mem now _ [] k s (mem_of_find _ _ _ hfind)
      rcases hcond with he | ⟨hs, hh⟩
      · exact Or.inr he
      · exact Or.inl ⟨hh, hs⟩
    · rw [remove_fold_other now _ k e, hfind]
      intro hmem
      rcases mem_listed_expired now _ [] k hmem with h | ⟨v, hv, hc⟩
      · cases h
      · have hvs : v = s := by
          have h1 := find_of_mem _ _ _ hnodup hv
          rw [hfind] at h1
          exact (Option.some.inj h1).symm
        subst hvs
        apply hcond
        rcases hc with ⟨hh, hs⟩ | he
        · exact Or.inr ⟨hs, hh⟩
        · exact Or.inl he

theorem trading_loop_sweep_find (e : TradingEngineManager) (runs : String → SessionRun)
    (now : Int) (k : String) (hnodup : (e.trading_sessions_.map Prod.fst).Nodup) :
    find (trading_loop_sweep e runs now).trading_sessions_ k
      = (find e.trading_sessions_ k).map (fun s => turn_session s (runs k) now) := by
  cases hfind : find e.trading_sessions_ k with
  | none => exact trading_loop_sweep_absent e runs now k hfind
  | some s => exact trading_loop_sweep_session e runs now k s hnodup hfind

theorem trading_loop_round_eq (e : TradingEngineManager) (runs : String → SessionRun)
    (now : Int) :
    trading_loop_round e runs now = cleanup_expired_sessions (trading_loop_sweep e runs now) now :=
  rfl

theorem trading_loop_sweep_nodup (e : TradingEngineManager) (runs : String → SessionRun)
    (now : Int) (hnodup : (e.trading_sessions_.map Prod.fst).Nodup) :
    ((trading_loop_sweep e runs now).trading_sessions_.map Prod.fst).Nodup := by
  unfold trading_loop_sweep
  rw [sweep_fold_keys]
  exact hnodup

/-- C23: only RUNNING sessions are advanced by the sweep of the control loop. On a registry with
distinct keys, for every behaviour `runs` of the strategies, a session that is not RUNNING is
the same session after the sweep (before the cleanup), so its cumulative profit, trade count,
log, status and `last_update` are unchanged, and no call of `run_once()` of the sweep is made
for it. At the turn of an entry whose session is not RUNNING the sweep changes nothing at
all. -/
theorem sweep_passes_over_idle_sessions (e : TradingEngineManager)
    (runs : String → SessionRun) (now : Int) (k : String) (s : TradingSession)
    (hnodup : (e.trading_sessions_.map Prod.fst).Nodup)
    (hfind : get_session e k = some s) (hidle : s.status ≠ EngineStatus.RUNNING) :
    get_session (trading_loop_sweep e runs now) k = some s ∧
      (∀ c ∈ trading_loop_sweep_calls e runs now, c.1 ≠ k) ∧
      (∀ (acc : TradingEngineManager × List (String × StrategyKind)) (i : Nat) (id : String)
          (x : TradingSession), acc.1.trading_sessions_.get? i = some (id, x) →
        x.status ≠ EngineStatus.RUNNING → sweep_entry_calls runs now acc i = acc) := by
  unfold get_session at *
  refine ⟨?_, ?_, ?_⟩
  · rw [trading_loop_sweep_session e runs now k s hnodup hfind]
    unfold turn_session
    rw [if_neg hidle]
  · have h := trading_loop_sweep_calls_of e runs now k s hnodup hfind
    rw [if_neg hidle, List.filter_eq_nil_iff] at h
    intro c hc hk
    exact h c hc (by simp [hk])
  · intro acc i id x hg hx
    unfold sweep_entry_calls
    simp only [hg, hx, if_false]

theorem sweep_passes_over_idle_sessions_witness :
    ((engine_two_running.trading_sessions_.map Prod.fst).Nodup ∧
        get_session engine_two_running "session_stale" = some session_stale ∧
        session_stale.status ≠ EngineStatus.RUNNING) ∧
      get_session (trading_loop_sweep engine_two_running runs_first_throws 5) "session_stale"
        = some session_stale ∧
      (∀ c ∈ trading_loop_sweep_calls engine_two_running runs_first_throws 5,
        c.1 ≠ "session_stale") :=
  have hn : (engine_two_running.trading_sessions_.map Prod.fst).Nodup := by decide
  have h := sweep_passes_over_idle_sessions engine_two_running runs_first_throws 5
    "session_stale" session_stale hn rfl (by decide)
  ⟨⟨hn, rfl, by decide⟩, h.1, h.2.1⟩

/-- C24: failure isolation in the sweep of the control loop, each `run_once()` returning a
result or throwing. On a registry with distinct keys, if a strategy of the RUNNING session `k`
throws, then after the sweep the status of `k` is ERROR; every other RUNNING session is
executed, its strategies being called as `strategy_calls` lists them, and is left as
`swept_session` says when its own strategies do not throw; and every other session, after the
sweep and after the whole round, is the same as under any behaviour `runs2` that differs from
`runs` only at `k`, in particular one in which `k` does not throw. -/
theorem sweep_failure_isolation (e : TradingEngineManager) (runs runs2 : String → SessionRun)
    (now : Int) (k : String) (s : TradingSession)
    (hnodup : (e.trading_sessions_.map Prod.fst).Nodup)
    (hfind : get_session e k = some s) (hstatus : s.status = EngineStatus.RUNNING)
    (hraise : ¬ runs_without_error s (runs k))
    (hagree : ∀ j, j ≠ k → runs2 j = runs j) :
    (∃ s1, get_session (trading_loop_sweep e runs now) k = some s1 ∧
        s1.status = EngineStatus.ERROR) ∧
      (∀ j sj, j ≠ k → get_session e j = some sj → sj.status = EngineStatus.RUNNING →
        (trading_loop_sweep_calls e runs now).filter (fun c => decide (c.1 = j))
            = (strategy_calls sj (runs j)).map (fun c => (j, c)) ∧
          (runs_without_error sj (runs j) →
            get_session (trading_loop_sweep e runs now) j
              = some (swept_session sj (runs j) now))) ∧
      (∀ j, j ≠ k → get_session (trading_loop_sweep e runs now) j
        = get_session (trading_loop_sweep e runs2 now) j) ∧
      (∀ j, j ≠ k → get_session (trading_loop_round e runs now) j
        = get_session (trading_loop_round e runs2 now) j) := by
  unfold get_session at *
  have hsame : ∀ j, j ≠ k → find (trading_loop_sweep e runs now).trading_sessions_ j
      = find (trading_loop_sweep e runs2 now).trading_sessions_ j := by
    intro j hj
    rw [trading_loop_sweep_find e runs now j hnodup, trading_loop_sweep_find e runs2 now j hnodup,
      hagree j hj]
  refine ⟨⟨turn_session s (runs k) now, trading_loop_sweep_session e runs now k s hnodup hfind,
    ?_⟩, ?_, hsame, ?_⟩
  · unfold turn_session
    rw [if_pos hstatus, if_neg hraise]
  · intro j sj _ hj hsj
    refine ⟨?_, ?_⟩
    · rw [trading_loop_sweep_calls_of e runs now j sj hnodup hj, if_pos hsj]
    · intro hrun
      rw [trading_loop_sweep_session e runs now j sj hnodup hj]
      unfold turn_session
      rw [if_pos hsj, if_pos hrun]
  · intro j hj
    rw [trading_loop_round_eq, trading_loop_round_eq,
      cleanup_session _ now j (trading_loop_sweep_nodup e runs now hnodup),
      cleanup_session _ now j (trading_loop_sweep_nodup e runs2 now hnodup), hsame j hj]

theorem sweep_failure_isolation_witness :
    ((engine_two_running.trading_sessions_.map Prod.fst).Nodup ∧
        get_session engine_two_running "session_00000000" = some session_running ∧
        session_running.status = EngineStatus.RUNNING ∧
        ¬ runs_without_error session_running (runs_first_throws "session_00000000")) ∧
      (∃ s1, get_session (trading_loop_sweep engine_two_running runs_first_throws 5)
          "session_00000000" = some s1 ∧ s1.status = EngineStatus.ERROR) ∧
      get_session (trading_loop_sweep engine_two_running runs_first_throws 5) "session_second"
        = get_session (trading_loop_sweep engine_two_running (fun _ => run_small) 5)
          "session_second" :=
  have hn : (engine_two_running.trading_sessions_.map Prod.fst).Nodup := by decide
  have hr : ¬ runs_without_error session_running (runs_first_throws "session_00000000") := by
    decide
  have h := sweep_failure_isolation engine_two_running runs_first_throws (fun _ => run_small) 5
    "session_00000000" session_running hn rfl rfl hr
    (fun j hj => by unfold runs_first_throws; rw [if_neg hj])
  ⟨⟨hn, rfl, rfl, hr⟩, h.1, h.2.2.1 "session_second" (by decide)⟩

/-- C25: aggregation in the sweep of the control loop. On a registry with distinct keys, when no
`run_once()` of a RUNNING session throws, the sweep leaves each RUNNING session with its
cumulative profit and trade count increased by the sum of what its attached strategies return,
the arbitrage strategy being called first and the market-making strategy second, and with the
lines returned by the strategies appended to its log in that order, each behind its time stamp;
the totals `total_profit_generated` and `total_trades_executed` of the engine increase by the
sum of the increases of the sessions; and the log of every session before the sweep is an
initial part of its log after the sweep. -/
theorem sweep_aggregation (e : TradingEngineManager) (runs : String → SessionRun) (now : Int)
    (hnodup : (e.trading_sessions_.map Prod.fst).Nodup)
    (hruns : ∀ k s, get_session e k = some s → s.status = EngineStatus.RUNNING →
      runs_without_error s (runs k)) :
    (∀ k s, get_session e k = some s → s.status = EngineStatus.RUNNING →
      ∃ s1, get_session (trading_loop_sweep e runs now) k = some s1 ∧
        s1.total_profit = s.total_profit + run_profit s (runs k) ∧
        s1.executed_trades = s.executed_trades + run_trades s (runs k) ∧
        s1.log = s.log ++ run_log_lines s (runs k) now ∧
        (trading_loop_sweep_calls e runs now).filter (fun c => decide (c.1 = k))
          = ((if s.arbitrage_strategy.isSome then [StrategyKind.arbitrage] else [])
              ++ (if s.market_making_strategy.isSome then [StrategyKind.market_making]
                  else [])).map (fun c => (k, c))) ∧
      (trading_loop_sweep e runs now).stats_.total_profit_generated
        = e.stats_.total_profit_generated + (e.trading_sessions_.map (entry_profit runs)).sum ∧
      (trading_loop_sweep e runs now).stats_.total_trades_executed
        = e.stats_.total_trades_executed + (e.trading_sessions_.map (entry_trades runs)).sum ∧
      (∀ k s, get_session e k = some s →
        ∃ s1, get_session (trading_loop_sweep e runs now) k = some s1 ∧ s.log <+: s1.log) := by
  unfold get_session at *
  obtain ⟨hp, ht⟩ := trading_loop_sweep_totals e runs now hnodup hruns
  refine ⟨?_, hp, ht, ?_⟩
  · intro k s hfind hstatus
    have hrun := hruns k s hfind hstatus
    obtain ⟨h1, h2, h3⟩ := swept_session_record s (runs k) now hrun
    refine ⟨swept_session s (runs k) now, ?_, h1, h2, h3, ?_⟩
    · rw [trading_loop_sweep_session e runs now k s hnodup hfind]
      unfold turn_session
      rw [if_pos hstatus, if_pos hrun]
    · rw [trading_loop_sweep_calls_of e runs now k s hnodup hfind, if_pos hstatus]
      congr 1
      obtain ⟨ha, hm⟩ := hrun
      unfold strategy_calls
      cases hsa : s.arbitrage_strategy <;> cases hsm : s.market_making_strategy <;>
        cases hra : (runs k).arbitrage <;> simp_all
  · intro k s hfind
    exact ⟨turn_session s (runs k) now, trading_loop_sweep_session e runs now k s hnodup hfind,
      turn_session_log s (runs k) now⟩

theorem sweep_aggregation_witness :
    ((engine_two_running.trading_sessions_.map Prod.fst).Nodup ∧
        (∀ k s, get_session engine_two_running k = some s → s.status = EngineStatus.RUNNING →
          runs_without_error s run_gain)) ∧
      (∃ s1, get_session (trading_loop_sweep engine_two_running (fun _ => run_gain) 5)
          "session_second" = some s1 ∧
        s1.total_profit = 15 ∧ s1.executed_trades = 2 ∧ s1.log = ["[00:00:00] arbitrage"]) ∧
      (trading_loop_sweep engine_two_running (fun _ => run_gain) 5).stats_.total_profit_generated
        = 30 ∧
      (trading_loop_sweep engine_two_running (fun _ => run_gain) 5).stats_.total_trades_executed
        = 4 := by
  have hn : (engine_two_running.trading_sessions_.map Prod.fst).Nodup := by decide
  have hr : ∀ k s, get_session engine_two_running k = some s →
      s.status = EngineStatus.RUNNING → runs_without_error s run_gain :=
    fun _ _ _ _ => ⟨fun _ => rfl, fun _ => rfl⟩
  have h := sweep_aggregation engine_two_running (fun _ => run_gain) 5 hn hr
  obtain ⟨s1, hs1, hp, ht, hl, _⟩ := h.1 "session_second" session_second rfl rfl
  refine ⟨⟨hn, hr⟩, ⟨s1, hs1, ?_, ?_, ?_⟩, ?_, ?_⟩
  · rw [hp]
    norm_num [run_profit, session_second, session_running, session_stopped, run_gain]
  · rw [ht]
    simp [run_trades, session_second, session_running, session_stopped, run_gain]
  · rw [hl]
    simp [run_log_lines, stamped_lines, session_second, session_running, session_stopped,
      run_gain]
  · rw [h.2.1]
    have hne : ¬ EngineStatus.STOPPED = EngineStatus.RUNNING := by decide
    norm_num [entry_profit, run_profit, engine_two_running, engine_one_session, session_second,
      session_running, session_stopped, session_stale, run_gain, hne]
  · rw [h.2.2.1]
    simp [entry_trades, run_trades, engine_two_running, engine_one_session, session_second,
      session_running, session_stopped, session_stale, run_gain]


/-! ## The counter of active sessions -/

theorem engine_started_eq : engine_started =
    { engine_one_session with
      trading_sessions_ := [("session_00000000",
        { session_stopped with status := EngineStatus.RUNNING, last_update := 2 })]
      stats_ := { engine_one_session.stats_ with active_sessions := 1 } } := by
  rfl

theorem sweep_of_throwing_session : trading_loop_sweep engine_started (fun _ => run_throw) 3 =
    { engine_one_session with
      trading_sessions_ := [("session_00000000",
        { session_stopped with status := EngineStatus.ERROR, last_update := 3 })]
      stats_ := { engine_one_session.stats_ with active_sessions := 1 } } := by
  rw [engine_started_eq]
  simp [trading_loop_sweep, sweep_entry_traced, sweep_step_traced,
    execute_trading_session_traced, find, modify, session_stopped, run_throw, run_gain,
    stop_trading_session_traced, engine_one_session, request_mixed, List.range, List.range.loop]


theorem round_of_throwing_session : trading_loop_round engine_started (fun _ => run_throw) 3 =
    { engine_one_session with
      trading_sessions_ := []
      stats_ := { engine_one_session.stats_ with active_sessions := 1 } } := by
  rw [trading_loop_round_eq, sweep_of_throwing_session]
  simp [cleanup_expired_sessions, list_if_expired, remove_trading_session, find, erase,
    session_stopped, engine_one_session]

/-- C28, the code departs from the counter's meaning: a session is created and started, so
`active_sessions` is 1 and one session is RUNNING; in the next round of the control loop its
arbitrage strategy throws. The handler of `execute_trading_session` sets the status to ERROR
without decrementing `active_sessions`, as `stop_trading_session` does when a session leaves
RUNNING, and the cleanup then removes the session: the registry is empty and no session is
RUNNING, yet `active_sessions` is still 1. -/
theorem active_sessions_counts_failed_session :
    create_trading_session (TradingEngineManager.init 0) request_mixed 0 (fun _ => 0)
        = ("session_00000000", engine_one_session) ∧
      (engine_started.stats_.active_sessions = 1 ∧ running_sessions engine_started = 1) ∧
      ((trading_loop_sweep engine_started (fun _ => run_throw) 3).stats_.active_sessions = 1 ∧
        running_sessions (trading_loop_sweep engine_started (fun _ => run_throw) 3) = 0) ∧
      ((trading_loop_round engine_started (fun _ => run_throw) 3).stats_.active_sessions = 1 ∧
        running_sessions (trading_loop_round engine_started (fun _ => run_throw) 3) = 0 ∧
        (trading_loop_round engine_started (fun _ => run_throw) 3).trading_sessions_ = []) ∧
      (stop_trading_session engine_started "session_00000000" 3).2.stats_.active_sessions
        = 0 := by
  refine ⟨engine_one_session_created, ⟨rfl, rfl⟩, ?_, ?_, rfl⟩
  · rw [sweep_of_throwing_session]
    exact ⟨rfl, rfl⟩
  · rw [round_of_throwing_session]
    exact ⟨rfl, rfl, rfl⟩


/-! ## The average price of orders -/

theorem modify_keeps {α : Type} (P : α → Prop) (os : List (String × α)) (id : String)
    (f : α → α) (hf : ∀ o, P o → P (f o)) (h : ∀ kv ∈ os, P kv.2) :
    ∀ kv ∈ modify os id f, P kv.2 := by
  induction os with
  | nil => simp [modify]
  | cons kv rest ih =>
    obtain ⟨k, o⟩ := kv
    have ho : P o := h (k, o) (List.mem_cons_self _ _)
    have hrest : ∀ kv ∈ rest, P kv.2 := fun kv hkv => h kv (List.mem_cons_of_mem _ hkv)
    by_cases hk : k = id
    · simp only [modify, hk, if_true]
      intro kv hkv
      rcases List.mem_cons.1 hkv with e | hm
      · rw [e]
        exact hf o ho
      · exact hrest kv hm
    · simp only [modify, hk, if_false]
      intro kv hkv
      rcases List.mem_cons.1 hkv with e | hm
      · rw [e]
        exact ho
      · exact ih hrest kv hm

theorem insert_or_assign_keeps {α : Type} (P : α → Prop) (os : List (String × α)) (id : String)
    (o : α) (ho : P o) (h : ∀ kv ∈ os, P kv.2) :
    ∀ kv ∈ insert_or_assign os id o, P kv.2 := by
  induction os with
  | nil =>
    intro kv hkv
    simp only [insert_or_assign, List.mem_singleton] at hkv
    rw [hkv]
    exact ho
  | cons kv rest ih =>
    obtain ⟨k, v⟩ := kv
    have hv : P v := h (k, v) (List.mem_cons_self _ _)
    have hrest : ∀ kv ∈ rest, P kv.2 := fun kv hkv => h kv (List.mem_cons_of_mem _ hkv)
    intro x hx
    unfold insert_or_assign at hx
    split_ifs at hx
    · rcases List.mem_cons.1 hx with e | hm
      · rw [e]
        exact ho
      · exact hrest x hm
    · rcases List.mem_cons.1 hx with e | hm
      · rw [e]
        exact ho
      · exact h x hm
    · rcases List.mem_cons.1 hx with e | hm
      · rw [e]
        exact hv
      · exact ih hrest x hm

theorem create_order_no_average_price (m : OrderManager)
    (session_id user_id exchange symbol : String) (side : OrderSide) (type : OrderType)
    (quantity price : ℚ) (timeout_seconds : Int) (now : Int) (draw : Nat)
    (h : no_average_price m) :
    no_average_price (create_order m session_id user_id exchange symbol side type quantity price
      timeout_seconds now draw).2 := by
  unfold no_average_price at h ⊢
  unfold create_order
  exact insert_or_assign_keeps (fun o : Order => o.average_price = 0) _ _ _ rfl h

theorem submit_order_no_average_price (gw : Gateway) (m : OrderManager) (id : String)
    (now : Int) (h : no_average_price m) : no_average_price (submit_order gw m id now).2 := by
  unfold no_average_price at h ⊢
  unfold submit_order
  cases find m.orders_ id with
  | none => exact h
  | some order =>
    simp only
    split_ifs
    · exact h
    · exact modify_keeps (fun o : Order => o.average_price = 0) _ _ _ (fun o ho => ho) h
    · exact modify_keeps (fun o : Order => o.average_price = 0) _ _ _ (fun o ho => ho) h

theorem cancel_order_no_average_price (gw : Gateway) (m : OrderManager) (id : String)
    (now : Int) (h : no_average_price m) : no_average_price (cancel_order gw m id now).2 := by
  unfold no_average_price at h ⊢
  unfold cancel_order
  cases find m.orders_ id with
  | none => exact h
  | some order =>
    simp only
    split_ifs
    · exact h
    · exact h
    · exact modify_keeps (fun o : Order => o.average_price = 0) _ _ _ (fun o ho => ho) h
    · exact h

theorem update_order_status_no_average_price (gw : Gateway) (m : OrderManager) (id : String)
    (now : Int) (h : no_average_price m) :
    no_average_price (update_order_status gw m id now).2 := by
  unfold no_average_price at h ⊢
  unfold update_order_status
  cases find m.orders_ id with
  | none => exact h
  | some order =>
    simp only
    split_ifs <;>
      first
      | exact h
      | (apply modify_keeps (fun o : Order => o.average_price = 0) _ _ _ _ h
         intro o ho
         first
         | exact ho
         | (simp only
            split_ifs <;> exact ho))

theorem profit_of_no_average_price (os : List (String × Order)) (session_id : String)
    (h : ∀ kv ∈ os, kv.2.average_price = 0) (acc : ℚ) :
    os.foldl
      (fun total_profit kv =>
        if kv.2.session_id = session_id ∧ kv.2.status = OrderStatus.FILLED then
          if kv.2.side = OrderSide.SELL then total_profit + kv.2.get_filled_amount
          else total_profit - kv.2.get_filled_amount
        else total_profit)
      acc = acc := by
  induction os generalizing acc with
  | nil => rfl
  | cons kv rest ih =>
    have h0 : kv.2.get_filled_amount = 0 := by
      unfold Order.get_filled_amount
      rw [h kv (List.mem_cons_self _ _), mul_zero]
    rw [List.foldl_cons, h0, add_zero, sub_zero]
    simp only [ite_self]
    exact ih (fun x hx => h x (List.mem_cons_of_mem _ hx)) acc

theorem reachable_no_average_price (m : OrderManager) (h : LedgerReachable m) :
    no_average_price m := by
  induction h with
  | empty =>
    intro kv hkv
    cases hkv
  | create_order m session_id user_id exchange symbol side type quantity price timeout_seconds
      now draw _ ih =>
    exact create_order_no_average_price m _ _ _ _ _ _ _ _ _ _ _ ih
  | submit_order gw m id now _ ih => exact submit_order_no_average_price gw m id now ih
  | cancel_order gw m id now _ ih => exact cancel_order_no_average_price gw m id now ih
  | update_order_status gw m id now _ ih =>
    exact update_order_status_no_average_price gw m id now ih
  | update_all_orders gw m now _ ih =>
    unfold TradingEngine.update_all_orders
    apply foldl_keeps no_average_price _ _ _ _ ih
    intro acc i hacc
    split
    · exact hacc
    · split_ifs
      · exact update_order_status_no_average_price gw acc _ now hacc
      · exact hacc
  | cancel_expired_orders gw m now _ ih =>
    unfold TradingEngine.cancel_expired_orders
    exact foldl_keeps no_average_price _
      (fun acc id hacc => cancel_order_no_average_price gw acc id now hacc) _ _ ih
  | cancel_session_orders gw m session_id now _ ih =>
    unfold TradingEngine.cancel_session_orders
    exact foldl_keeps no_average_price _
      (fun acc id hacc => cancel_order_no_average_price gw acc id now hacc) _ _ ih

/-- C30: in every ledger state reachable from the empty ledger by `create_order`,
`submit_order`, `cancel_order`, `update_order_status`, `update_all_orders`,
`cancel_expired_orders` and `cancel_session_orders`, under every behaviour of the gateway, every
order has an `average_price` of 0, and `get_session_profit` returns 0 for every session id. -/
theorem reachable_ledger_has_no_profit (m : OrderManager) (h : LedgerReachable m) :
    (∀ kv ∈ m.orders_, kv.2.average_price = 0) ∧
      ∀ session_id, get_session_profit m session_id = 0 :=
  ⟨reachable_no_average_price m h, fun session_id =>
    profit_of_no_average_price m.orders_ session_id (reachable_no_average_price m h) 0⟩

theorem ledger_filled_sell_reachable : LedgerReachable ledger_filled_sell :=
  LedgerReachable.update_order_status gw_closed _ "order_0_10000" 2
    (LedgerReachable.submit_order gw_accept _ "order_0_10000" 1
      (LedgerReachable.create_order OrderManager.empty "s1" "u1" "binance" "BTC/USDT"
        OrderSide.SELL OrderType.LIMIT 2 100 300 0 0 LedgerReachable.empty))

theorem reachable_ledger_has_no_profit_witness :
    LedgerReachable ledger_filled_sell ∧
      (Option.map (fun o : Order => (o.session_id, o.side, o.status, o.filled_quantity, o.price))
          (get_order ledger_filled_sell "order_0_10000")
        = some ("s1", OrderSide.SELL, OrderStatus.FILLED, 2, 100)) ∧
      (∀ kv ∈ ledger_filled_sell.orders_, kv.2.average_price = 0) ∧
      get_session_profit ledger_filled_sell "s1" = 0 :=
  ⟨ledger_filled_sell_reachable, by decide,
    (reachable_ledger_has_no_profit ledger_filled_sell ledger_filled_sell_reachable).1,
    (reachable_ledger_has_no_profit ledger_filled_sell ledger_filled_sell_reachable).2 "s1"⟩


/-! ## The repository's own strategies -/

end TradingEngine
